import Mathlib

/-!
Verification of the tank-bot decision core (`bot_ai.py`, `pathfinding.py`,
`constants.py`) by shallow embedding.

Modelling conventions:
* Python integers (pixel coordinates, grid cells, pygame rect fields) are
  embedded as `Int`; Python `//` (floor division) is `Int.fdiv`, while the
  C-style truncating division used inside pygame is `Int.div`.
* Python floats are embedded as elements of an arbitrary linear ordered
  field `K`.  The transcendental library calls (`math.cos`, `math.sin`,
  `math.atan2`, `math.hypot`, `math.pi`, `math.sqrt(2)`) and the
  float-to-int truncation performed by `pygame.Rect` are gathered in a
  record `RealOps K` of uninterpreted operations; theorems that need the
  geometric meaning of `hypot` assume `IsHypot` and are witnessed with
  `K = ℝ` and `Real.sqrt`, theorems that do not depend on the meaning
  quantify over arbitrary operations.
* Python `while` loops whose termination depends on float arithmetic are
  embedded with an explicit fuel argument large enough for every run the
  program can perform.
-/

/-! ## Constants (from `constants.py`) -/

def SCREEN_WIDTH : Int := 600
def SCREEN_HEIGHT : Int := 600
def TANK_SIZE : Int := 30
def TANK_SPEED : Int := 4
def ROTATION_SPEED : Int := 4
def BULLET_SPEED : Int := 5
def MAX_BOUNCES : Nat := 3
def GRID_SIZE : Int := 20
def GRID_BUFFER_RADIUS : Nat := 0
def VISION_DISTANCE : Int := 300
def ANGLE_TOLERANCE : Int := 10
def NODE_ARRIVAL_DISTANCE : Int := 20

/-! ## AI parameters (from `bot_ai.py`) -/

def DODGE_RADIUS : Int := 180
def STUCK_THRESHOLD : Int := 5
def STUCK_CHECK_FRAMES : Nat := 30
def PURE_PURSUIT_LOOKAHEAD : Int := 60
def ANGLE_TOLERANCE_TURN : Int := 8
def SMOOTH_TURN_THRESHOLD : Int := 45

section Geometry

variable {K : Type} [LinearOrderedField K]

/-- The record of real-valued library operations (`math.*` and the
float-to-int truncation done by `pygame.Rect`).  They are kept
uninterpreted; theorems that rely on the metric meaning of `hyp` assume
`IsHypot`. -/
structure RealOps (K : Type) where
  pi : K
  sqrt2 : K
  cos : K → K
  sin : K → K
  atan2 : K → K → K
  hyp : K → K → K
  trunc : K → K

/-- `hyp` behaves as the Euclidean norm `math.hypot`: non-negative and
squaring to the sum of squares. -/
def IsHypot (hyp : K → K → K) : Prop :=
  ∀ x y : K, 0 ≤ hyp x y ∧ hyp x y ^ 2 = x ^ 2 + y ^ 2

/-- `math.radians`. -/
def radiansOf (ops : RealOps K) (a : K) : K := a * ops.pi / 180

/-- `math.degrees`. -/
def degreesOf (ops : RealOps K) (a : K) : K := a * 180 / ops.pi

/-- First `while` loop of `BotAI._normalize_angle`
(`while angle > 180: angle -= 360`), with fuel. -/
def normAngleHi : Nat → K → K
  | 0, a => a
  | n + 1, a => if 180 < a then normAngleHi n (a - 360) else a

/-- Second `while` loop of `BotAI._normalize_angle`
(`while angle < -180: angle += 360`), with fuel. -/
def normAngleLo : Nat → K → K
  | 0, a => a
  | n + 1, a => if a < -180 then normAngleLo n (a + 360) else a

/-- Fuel for angle-normalization loops; ample for any run (each loop
iteration moves the value by 360). -/
def ANGLE_FUEL : Nat := 1000000

/-- `BotAI._normalize_angle` (degrees, to `(-180, 180]` for in-range
inputs). -/
def normalizeAngle (a : K) : K := normAngleLo ANGLE_FUEL (normAngleHi ANGLE_FUEL a)

/-- First loop of `BotAI._normalize_angle_rad`
(`while angle_rad > math.pi: angle_rad -= 2 * math.pi`), with fuel. -/
def normRadHi (ops : RealOps K) : Nat → K → K
  | 0, b => b
  | n + 1, b => if ops.pi < b then normRadHi ops n (b - 2 * ops.pi) else b

/-- Second loop of `BotAI._normalize_angle_rad`. -/
def normRadLo (ops : RealOps K) : Nat → K → K
  | 0, b => b
  | n + 1, b => if b < -ops.pi then normRadLo ops n (b + 2 * ops.pi) else b

/-- `BotAI._normalize_angle_rad` (radians version; the bounds are
`ops.pi`). -/
def normalizeAngleRad (ops : RealOps K) (a : K) : K :=
  normRadLo ops ANGLE_FUEL (normRadHi ops ANGLE_FUEL a)

end Geometry

/-! ## pygame rectangles -/

/-- `pygame.Rect`: integer position and size. -/
structure PyRect where
  x : Int
  y : Int
  w : Int
  h : Int
deriving DecidableEq, Repr

def PyRect.left (r : PyRect) : Int := r.x
def PyRect.top (r : PyRect) : Int := r.y
def PyRect.right (r : PyRect) : Int := r.x + r.w
def PyRect.bottom (r : PyRect) : Int := r.y + r.h

/-- `pygame.Rect.centerx` / `centery` (C truncating division). -/
def PyRect.centerx (r : PyRect) : Int := r.x + r.w / 2
def PyRect.centery (r : PyRect) : Int := r.y + r.h / 2
def PyRect.center (r : PyRect) : Int × Int := (r.centerx, r.centery)

/-- `pygame.Rect.colliderect`: strict overlap of areas (touching edges do
not collide). -/
def PyRect.colliderect (a b : PyRect) : Bool :=
  decide (a.left < b.right) && decide (a.right > b.left) &&
    decide (a.top < b.bottom) && decide (a.bottom > b.top)

/-- `pygame.Rect.inflate (dw, dh)`: grow around the center; the C source
shifts `x` by the truncating division `dw / 2`. -/
def PyRect.inflate (r : PyRect) (dw dh : Int) : PyRect :=
  { x := r.x - dw / 2, y := r.y - dh / 2, w := r.w + dw, h := r.h + dh }

/-- A wall sprite: the AI only reads its `rect`. -/
structure Wall where
  rect : PyRect
deriving DecidableEq, Repr

/-! ## Occupancy grid (`pathfinding.py`, class `GridMap`) -/

/-- `GridMap`: grid dimensions and the occupancy array (`0` = free,
nonzero = blocked), embedded as a function on cell coordinates. -/
structure GridMap where
  grid_cols : Int
  grid_rows : Int
  grid_map : Int → Int → Nat

/-- `GridMap.is_walkable`. -/
def GridMap.is_walkable (g : GridMap) (x y : Int) : Bool :=
  decide (0 ≤ x) && decide (x < g.grid_cols) && decide (0 ≤ y) &&
    decide (y < g.grid_rows) && decide (g.grid_map x y = 0)

/-- `GridMap.pixel_to_grid` (Python `//` is floor division). -/
def pixel_to_grid (px py : Int) : Int × Int :=
  (Int.fdiv px GRID_SIZE, Int.fdiv py GRID_SIZE)

/-- `GridMap.grid_to_pixel` (cell center). -/
def grid_to_pixel (gx gy : Int) : Int × Int :=
  (gx * GRID_SIZE + Int.fdiv GRID_SIZE 2, gy * GRID_SIZE + Int.fdiv GRID_SIZE 2)

/-- C10: converting a cell (non-negative coordinates) to its center pixel
and back recovers the cell. -/
theorem pixel_grid_roundtrip (gx gy : Int) (hx : 0 ≤ gx) (hy : 0 ≤ gy) :
    pixel_to_grid (grid_to_pixel gx gy).1 (grid_to_pixel gx gy).2 = (gx, gy) := by
  unfold pixel_to_grid grid_to_pixel GRID_SIZE
  have h20 : (20 : Int) ≠ 0 := by decide
  have key : ∀ g : Int, (g * 20 + 10).fdiv 20 = g := by
    intro g
    rw [Int.fdiv_eq_ediv _ (by decide : (0:Int) ≤ 20), add_comm,
      Int.add_mul_ediv_right 10 g h20]
    norm_num
  simp [key]

/-- C10 witness at cell (7, 3). -/
theorem pixel_grid_roundtrip_witness :
    pixel_to_grid (grid_to_pixel 7 3).1 (grid_to_pixel 7 3).2 = (7, 3) :=
  pixel_grid_roundtrip 7 3 (by decide) (by decide)

/-! ## Grid construction from walls (`GridMap.init_from_walls`) -/

/-- Grid dimensions fixed in `GridMap.__init__`:
`SCREEN_WIDTH // GRID_SIZE` by `SCREEN_HEIGHT // GRID_SIZE`. -/
def GRID_COLS : Int := Int.fdiv SCREEN_WIDTH GRID_SIZE

def GRID_ROWS : Int := Int.fdiv SCREEN_HEIGHT GRID_SIZE

/-- Cell lies inside the grid bounds. -/
def inGrid (x y : Int) : Bool :=
  decide (0 ≤ x) && decide (x < GRID_COLS) && decide (0 ≤ y) && decide (y < GRID_ROWS)

/-- The integer list `range (-r, r + 1)` used by the inflation and
ring-search loops. -/
def offsetRange (r : Nat) : List Int :=
  (List.range (2 * r + 1)).map (fun (i : Nat) => (i : Int) - (r : Int))

/-- Membership in `offsetRange`. -/
theorem mem_offsetRange {r : Nat} {d : Int} :
    d ∈ offsetRange r ↔ -(r : Int) ≤ d ∧ d ≤ r := by
  simp only [offsetRange, List.mem_map, List.mem_range]
  constructor
  · rintro ⟨i, hi, rfl⟩; omega
  · intro h
    exact ⟨(d + r).toNat, by omega, by omega⟩

/-- First pass of `init_from_walls`: the clamped rectangle of cells a
wall marks in `temp_map`. -/
def wallCovers (w : Wall) (x y : Int) : Bool :=
  decide (max 0 (Int.fdiv w.rect.x GRID_SIZE) ≤ x) &&
    decide (x < min GRID_COLS (Int.fdiv w.rect.right GRID_SIZE + 1)) &&
    decide (max 0 (Int.fdiv w.rect.y GRID_SIZE) ≤ y) &&
    decide (y < min GRID_ROWS (Int.fdiv w.rect.bottom GRID_SIZE + 1))

/-- `temp_map` after the first pass: a cell is marked iff some wall
covers it. -/
def tempMark (walls : List Wall) (x y : Int) : Bool :=
  walls.any fun w => wallCovers w x y

/-- `GridMap.init_from_walls` read pointwise: the final map keeps every
`temp_map` mark (the `copy`) and additionally blocks, for every marked
in-grid cell, all in-grid cells within `bufferRadius` in each axis (the
second, inflation pass).  The buffer radius is the configured constant
`GRID_BUFFER_RADIUS`, kept as a parameter. -/
def init_from_walls (walls : List Wall) (bufferRadius : Nat) : GridMap :=
  { grid_cols := GRID_COLS, grid_rows := GRID_ROWS,
    grid_map := fun x y =>
      if tempMark walls x y ||
          (inGrid x y && ((offsetRange bufferRadius).any fun dx =>
            (offsetRange bufferRadius).any fun dy =>
              tempMark walls (x - dx) (y - dy)))
      then 1 else 0 }

/-- A marked cell is always inside the grid (the slice bounds are
clamped to the grid). -/
theorem tempMark_inGrid {walls : List Wall} {x y : Int}
    (h : tempMark walls x y = true) : inGrid x y = true := by
  unfold tempMark at h
  rw [List.any_eq_true] at h
  obtain ⟨w, _, hw⟩ := h
  unfold wallCovers at hw
  unfold inGrid
  simp only [Bool.and_eq_true, decide_eq_true_eq] at hw ⊢
  have h1 := hw.1.1.1
  have h2 := hw.1.1.2
  have h3 := hw.1.2
  have h4 := hw.2
  refine ⟨⟨⟨?_, ?_⟩, ?_⟩, ?_⟩ <;> omega

/-- C5: after `init_from_walls`, a cell is blocked iff it lies in the
grid and within the buffer radius (Chebyshev distance) of some cell
marked as overlapped by an obstacle rectangle; in particular every
in-grid cell within the buffer radius of a marked cell is blocked, and
no cell farther than the buffer radius from every marked cell is
blocked. -/
theorem grid_inflation_blocked_iff (walls : List Wall) (R : Nat) (x y : Int) :
    (init_from_walls walls R).grid_map x y = 1 ↔
      (inGrid x y = true ∧ ∃ mx my : Int, tempMark walls mx my = true ∧
        (x - mx).natAbs ≤ R ∧ (y - my).natAbs ≤ R) := by
  unfold init_from_walls
  simp only
  constructor
  · intro h
    by_cases hc : (tempMark walls x y ||
        (inGrid x y && ((offsetRange R).any fun dx =>
          (offsetRange R).any fun dy => tempMark walls (x - dx) (y - dy)))) = true
    · rw [Bool.or_eq_true] at hc
      rcases hc with hm | hi
      · exact ⟨tempMark_inGrid hm, x, y, hm, by simp, by simp⟩
      · rw [Bool.and_eq_true] at hi
        obtain ⟨hg, hany⟩ := hi
        rw [List.any_eq_true] at hany
        obtain ⟨dx, hdx, hany2⟩ := hany
        rw [List.any_eq_true] at hany2
        obtain ⟨dy, hdy, hmark⟩ := hany2
        rw [mem_offsetRange] at hdx hdy
        exact ⟨hg, x - dx, y - dy, hmark, by omega, by omega⟩
    · simp [hc] at h
  · rintro ⟨hg, mx, my, hm, hdx, hdy⟩
    have : (tempMark walls x y ||
        (inGrid x y && ((offsetRange R).any fun dx =>
          (offsetRange R).any fun dy => tempMark walls (x - dx) (y - dy)))) = true := by
      rw [Bool.or_eq_true, Bool.and_eq_true]
      refine Or.inr ⟨hg, ?_⟩
      rw [List.any_eq_true]
      refine ⟨x - mx, mem_offsetRange.mpr (by omega), ?_⟩
      rw [List.any_eq_true]
      refine ⟨y - my, mem_offsetRange.mpr (by omega), ?_⟩
      simpa using hm
    simp [this]

/-! ## Pathfinding (`pathfinding.py`, `AStarPathfinder` / `BFSPathfinder`) -/

/-- Grid cell coordinates. -/
abbrev Cell := Int × Int

/-- `directions_8` in `GridMap.get_neighbors` (the pathfinders call it
with the default `allow_diagonal=True`). -/
def directions8 : List (Int × Int) :=
  [(0, 1), (0, -1), (1, 0), (-1, 0), (1, 1), (1, -1), (-1, 1), (-1, -1)]

/-- `GridMap.get_neighbors`: walkable neighbors in `directions_8` order;
a diagonal step additionally requires both orthogonal neighbors to be
walkable. -/
def GridMap.get_neighbors (g : GridMap) (x y : Int) : List Cell :=
  directions8.filterMap fun d =>
    if g.is_walkable (x + d.1) (y + d.2) then
      if d.1 ≠ 0 ∧ d.2 ≠ 0 then
        if g.is_walkable (x + d.1) y = false ∨ g.is_walkable x (y + d.2) = false then
          none
        else some (x + d.1, y + d.2)
      else some (x + d.1, y + d.2)
    else none

/-- Scan order of `_find_nearest_walkable`: for `r = 1 .. radius`, all
offsets `dx ∈ range(-r, r+1)`, `dy ∈ range(-r, r+1)`. -/
def scanOffsets (radius : Nat) : List (Int × Int) :=
  (List.range radius).flatMap fun r0 =>
    (offsetRange (r0 + 1)).flatMap fun dx =>
      (offsetRange (r0 + 1)).map fun dy => (dx, dy)

/-- `_find_nearest_walkable` (identical in both pathfinder classes):
first walkable cell in the expanding scan, `none` if the bounded search
fails.  The default bound is `search_radius = 5`. -/
def findNearestWalkable (g : GridMap) (c : Cell) (radius : Nat) : Option Cell :=
  (scanOffsets radius).findSome? fun d =>
    if g.is_walkable (c.1 + d.1) (c.2 + d.2) then some (c.1 + d.1, c.2 + d.2)
    else none

section AStar

variable {K : Type} [LinearOrderedField K]

/-- `AStarPathfinder.heuristic`: octile distance
`max dx dy + (sqrt 2 - 1) * min dx dy`; the float constant
`math.sqrt(2)` is the uninterpreted parameter `sqrt2`. -/
def heuristic (sqrt2 : K) (a b : Cell) : K :=
  let dx : K := ((a.1 - b.1).natAbs : Nat)
  let dy : K := ((a.2 - b.2).natAbs : Nat)
  max dx dy + (sqrt2 - 1) * min dx dy

/-- The mutable state of the A* search loop.  `openSet` models the
`heapq` priority queue of `(f_score, counter, node)` triples; since the
strictly increasing counter makes all keys distinct, the binary heap is
faithfully modelled by extraction of the lexicographic minimum. -/
structure AStarState (K : Type) where
  openSet : List (K × Nat × Cell)
  counter : Nat
  cameFrom : List (Cell × Cell)
  gScore : List (Cell × K)
  fScore : List (Cell × K)
  openHash : List Cell

/-- Lexicographic comparison of heap keys `(f, counter, _)` (the node is
never compared because counters are distinct). -/
def heapLt (a b : K × Nat × Cell) : Bool :=
  decide (a.1 < b.1) || (decide (a.1 = b.1) && decide (a.2.1 < b.2.1))

/-- Earliest minimal element of a heap list. -/
def popMinAux (best : K × Nat × Cell) : List (K × Nat × Cell) → K × Nat × Cell
  | [] => best
  | e :: rest => if heapLt e best then popMinAux e rest else popMinAux best rest

/-- Remove the first occurrence of an element. -/
def eraseFirst {α : Type} [DecidableEq α] (a : α) : List α → List α
  | [] => []
  | x :: xs => if x = a then xs else x :: eraseFirst a xs

/-- `heapq.heappop`: extract the minimal `(f, counter, node)` triple. -/
def popMin : List (K × Nat × Cell) → Option ((K × Nat × Cell) × List (K × Nat × Cell))
  | [] => none
  | e :: rest =>
    let m := popMinAux e rest
    some (m, eraseFirst m (e :: rest))

/-- The per-neighbor relaxation step of the A* loop body.  Python's
`g_score[current]` access is modelled with `getD 0`; in every reachable
state the popped node has a `g_score` entry. -/
def relaxNeighbor (sqrt2 : K) (endGrid cur : Cell) (st : AStarState K)
    (nbr : Cell) : AStarState K :=
  let dx := (nbr.1 - cur.1).natAbs
  let dy := (nbr.2 - cur.2).natAbs
  let moveCost : K := if dx + dy = 2 then sqrt2 else 1
  let tentative := (st.gScore.lookup cur).getD 0 + moveCost
  let better :=
    match st.gScore.lookup nbr with
    | none => true
    | some gn => decide (tentative < gn)
  if better then
    let f := tentative + heuristic sqrt2 nbr endGrid
    let st1 := { st with
      cameFrom := (nbr, cur) :: st.cameFrom,
      gScore := (nbr, tentative) :: st.gScore,
      fScore := (nbr, f) :: st.fScore }
    if st1.openHash.contains nbr then st1
    else { st1 with
      counter := st1.counter + 1,
      openSet := (f, st1.counter + 1, nbr) :: st1.openSet,
      openHash := nbr :: st1.openHash }
  else st

/-- The `while current in came_from` chain of the A* path
reconstruction, with fuel (`came_from` in any run is acyclic). -/
def reconChain (cf : List (Cell × Cell)) : Nat → Cell → List Cell
  | 0, _ => []
  | n + 1, cur =>
    match cf.lookup cur with
    | some p => cur :: reconChain cf n p
    | none => []

/-- The A* `while open_set` loop, with fuel (the Python loop terminates
because g-scores strictly decrease in a finite value set). -/
def astarLoop (sqrt2 : K) (g : GridMap) (endGrid : Cell) :
    Nat → AStarState K → List Cell
  | 0, _ => []
  | fuel + 1, st =>
    match popMin st.openSet with
    | none => []
    | some (e, rest) =>
      let cur := e.2.2
      let st1 := { st with openSet := rest, openHash := eraseFirst cur st.openHash }
      if cur = endGrid then
        (reconChain st1.cameFrom (st1.cameFrom.length + 1) cur).reverse
      else
        astarLoop sqrt2 g endGrid fuel
          ((g.get_neighbors cur.1 cur.2).foldl (relaxNeighbor sqrt2 endGrid cur) st1)

/-- The endpoint fixing done at the top of `AStarPathfinder.find_path`
(and, for the goal only, of `BFSPathfinder.find_path`): keep a walkable
endpoint, otherwise search for the nearest walkable cell. -/
def substituteEndpoint (g : GridMap) (c : Cell) : Option Cell :=
  if g.is_walkable c.1 c.2 then some c else findNearestWalkable g c 5

/-- `AStarPathfinder.find_path`. -/
def astar_find_path (sqrt2 : K) (g : GridMap) (fuel : Nat)
    (startGrid endGrid : Cell) : List Cell :=
  match substituteEndpoint g startGrid with
  | none => []
  | some s =>
    match substituteEndpoint g endGrid with
    | none => []
    | some e =>
      astarLoop sqrt2 g e fuel
        { openSet := [(0, 0, s)], counter := 0, cameFrom := [],
          gScore := [(s, 0)], fScore := [(s, heuristic sqrt2 s e)],
          openHash := [s] }

end AStar

/-- The `while queue` loop of `BFSPathfinder.find_path`: FIFO queue and
`came_from` map (`none` marks the start), with fuel. -/
def bfsLoop (g : GridMap) (endGrid : Cell) :
    Nat → List Cell → List (Cell × Option Cell) → List (Cell × Option Cell)
  | 0, _, cf => cf
  | fuel + 1, queue, cf =>
    match queue with
    | [] => cf
    | cur :: rest =>
      if cur = endGrid then cf
      else
        let step := (g.get_neighbors cur.1 cur.2).foldl
          (fun (acc : List Cell × List (Cell × Option Cell)) nbr =>
            match acc.2.lookup nbr with
            | some _ => acc
            | none => (acc.1 ++ [nbr], (nbr, some cur) :: acc.2))
          (rest, cf)
        bfsLoop g endGrid fuel step.1 step.2

/-- The `while curr is not None` chain of the BFS path reconstruction,
with fuel. -/
def bfsChain (cf : List (Cell × Option Cell)) : Nat → Cell → List Cell
  | 0, _ => []
  | n + 1, cur =>
    cur ::
      (match cf.lookup cur with
      | some (some p) => bfsChain cf n p
      | _ => [])

/-- `BFSPathfinder.find_path`: substitutes only the goal endpoint, runs
the BFS loop from the raw start, reconstructs and drops the start
(`path[1:] if len(path) > 1 else []`). -/
def bfs_find_path (g : GridMap) (fuel : Nat) (startGrid endGrid : Cell) : List Cell :=
  match substituteEndpoint g endGrid with
  | none => []
  | some e =>
    let cf := bfsLoop g e fuel [startGrid] [(startGrid, none)]
    match cf.lookup e with
    | none => []
    | some _ => ((bfsChain cf (cf.length + 1) e).reverse).drop 1

/-! ## C3: endpoint substitution by the expanding ring search -/

/-- Offsets produced by the scan are bounded by the search radius. -/
theorem scanOffsets_bound {radius : Nat} {d : Int × Int}
    (h : d ∈ scanOffsets radius) : d.1.natAbs ≤ radius ∧ d.2.natAbs ≤ radius := by
  simp only [scanOffsets, List.mem_flatMap, List.mem_map, List.mem_range] at h
  obtain ⟨r0, hr0, dx, hdx, dy, hdy, rfl⟩ := h
  rw [mem_offsetRange] at hdx hdy
  constructor <;> simp <;> omega

/-- Every offset within the radius occurs in the scan (the final
iteration scans the whole square). -/
theorem scanOffsets_cover {radius : Nat} (hr : 1 ≤ radius) {d : Int × Int}
    (h1 : d.1.natAbs ≤ radius) (h2 : d.2.natAbs ≤ radius) :
    d ∈ scanOffsets radius := by
  simp only [scanOffsets, List.mem_flatMap, List.mem_map, List.mem_range]
  refine ⟨radius - 1, by omega, d.1, ?_, d.2, ?_, rfl⟩
  · rw [mem_offsetRange]; omega
  · rw [mem_offsetRange]; omega

/-- A successful ring search returns a walkable cell within Chebyshev
distance 5. -/
theorem findNearestWalkable_spec {g : GridMap} {c n : Cell}
    (h : findNearestWalkable g c 5 = some n) :
    g.is_walkable n.1 n.2 = true ∧ (n.1 - c.1).natAbs ≤ 5 ∧ (n.2 - c.2).natAbs ≤ 5 := by
  obtain ⟨d, hd, hf⟩ := List.exists_of_findSome?_eq_some h
  have hb := scanOffsets_bound hd
  by_cases hw : g.is_walkable (c.1 + d.1) (c.2 + d.2) = true
  · rw [if_pos hw] at hf
    obtain rfl : (c.1 + d.1, c.2 + d.2) = n := by injection hf
    refine ⟨hw, ?_, ?_⟩ <;> simp <;> omega
  · rw [if_neg hw] at hf
    exact absurd hf (by simp)

/-- If no walkable cell lies within Chebyshev distance 5, the ring
search fails. -/
theorem findNearestWalkable_fails {g : GridMap} {c : Cell}
    (h : ∀ n : Cell, (n.1 - c.1).natAbs ≤ 5 → (n.2 - c.2).natAbs ≤ 5 →
      g.is_walkable n.1 n.2 = false) :
    findNearestWalkable g c 5 = none := by
  rw [findNearestWalkable, List.findSome?_eq_none_iff]
  intro d hd
  have hb := scanOffsets_bound hd
  have hw := h (c.1 + d.1, c.2 + d.2) (by simp; omega) (by simp; omega)
  simp only at hw
  rw [if_neg (by simp [hw])]

/-- C3 (amended): for every grid and endpoints, the A* strategy
substitutes a blocked start or goal cell by the nearest walkable cell
found by the expanding ring search up to radius 5 and returns the empty
path when no walkable cell exists within that bound; the BFS strategy
applies this substitution to the goal endpoint only (a blocked start
cell is searched from directly, without substitution). -/
theorem planner_endpoint_substitution {K : Type} [LinearOrderedField K]
    (sqrt2 : K) (g : GridMap) (fuel : Nat) (s e : Cell) :
    (g.is_walkable s.1 s.2 = false →
      (∀ n : Cell, (n.1 - s.1).natAbs ≤ 5 → (n.2 - s.2).natAbs ≤ 5 →
        g.is_walkable n.1 n.2 = false) →
      astar_find_path sqrt2 g fuel s e = []) ∧
    (g.is_walkable e.1 e.2 = false →
      (∀ n : Cell, (n.1 - e.1).natAbs ≤ 5 → (n.2 - e.2).natAbs ≤ 5 →
        g.is_walkable n.1 n.2 = false) →
      astar_find_path sqrt2 g fuel s e = []) ∧
    (∀ s' : Cell, g.is_walkable s.1 s.2 = false →
      findNearestWalkable g s 5 = some s' →
      g.is_walkable s'.1 s'.2 = true ∧ (s'.1 - s.1).natAbs ≤ 5 ∧
        (s'.2 - s.2).natAbs ≤ 5 ∧
        astar_find_path sqrt2 g fuel s e = astar_find_path sqrt2 g fuel s' e) ∧
    (∀ e' : Cell, g.is_walkable e.1 e.2 = false →
      findNearestWalkable g e 5 = some e' →
      g.is_walkable e'.1 e'.2 = true ∧ (e'.1 - e.1).natAbs ≤ 5 ∧
        (e'.2 - e.2).natAbs ≤ 5 ∧
        astar_find_path sqrt2 g fuel s e = astar_find_path sqrt2 g fuel s e') ∧
    (g.is_walkable e.1 e.2 = false →
      (∀ n : Cell, (n.1 - e.1).natAbs ≤ 5 → (n.2 - e.2).natAbs ≤ 5 →
        g.is_walkable n.1 n.2 = false) →
      bfs_find_path g fuel s e = []) ∧
    (∀ e' : Cell, g.is_walkable e.1 e.2 = false →
      findNearestWalkable g e 5 = some e' →
      bfs_find_path g fuel s e = bfs_find_path g fuel s e') := by
  refine ⟨?_, ?_, ?_, ?_, ?_, ?_⟩
  · intro hs hnone
    unfold astar_find_path substituteEndpoint
    rw [if_neg (by simp [hs]), findNearestWalkable_fails hnone]
  · intro he hnone
    unfold astar_find_path substituteEndpoint
    have hsub : (if g.is_walkable e.1 e.2 = true then some e
        else findNearestWalkable g e 5) = none := by
      rw [if_neg (by simp [he]), findNearestWalkable_fails hnone]
    rw [hsub]
    cases (if g.is_walkable s.1 s.2 = true then some s
        else findNearestWalkable g s 5) <;> rfl
  · intro s' hs hsub
    obtain ⟨hw, h1, h2⟩ := findNearestWalkable_spec hsub
    refine ⟨hw, h1, h2, ?_⟩
    unfold astar_find_path substituteEndpoint
    rw [if_neg (by simp [hs]), hsub, if_pos hw]
  · intro e' he hsub
    obtain ⟨hw, h1, h2⟩ := findNearestWalkable_spec hsub
    refine ⟨hw, h1, h2, ?_⟩
    unfold astar_find_path substituteEndpoint
    have hse : (if g.is_walkable e.1 e.2 = true then some e
        else findNearestWalkable g e 5) = some e' := by
      rw [if_neg (by simp [he]), hsub]
    rw [hse, if_pos hw]
  · intro he hnone
    unfold bfs_find_path substituteEndpoint
    rw [if_neg (by simp [he]), findNearestWalkable_fails hnone]
  · intro e' he hsub
    obtain ⟨hw, _, _⟩ := findNearestWalkable_spec hsub
    unfold bfs_find_path substituteEndpoint
    have hse : (if g.is_walkable e.1 e.2 = true then some e
        else findNearestWalkable g e 5) = some e' := by
      rw [if_neg (by simp [he]), hsub]
    rw [hse, if_pos hw]

/-- C3 witness: on a fully blocked grid the A* planner returns the empty
path for a blocked start endpoint. -/
theorem planner_endpoint_substitution_witness :
    astar_find_path (3 / 2 : ℚ)
      { grid_cols := 3, grid_rows := 3, grid_map := fun _ _ => 1 } 20
      (0, 0) (2, 2) = [] := by
  refine (planner_endpoint_substitution (3 / 2 : ℚ)
    { grid_cols := 3, grid_rows := 3, grid_map := fun _ _ => 1 } 20
    (0, 0) (2, 2)).1 (by decide) ?_
  intro n _ _
  simp [GridMap.is_walkable]

/-- The tiny 4-by-1 strip used to exhibit that the BFS strategy does not
substitute a blocked start cell: cells `(0,0)` and `(1,0)` are blocked,
`(2,0)` and `(3,0)` are free. -/
def stripGrid : GridMap :=
  { grid_cols := 4, grid_rows := 1, grid_map := fun x _ => if 2 ≤ x then 0 else 1 }

/-- C3 counterexample: the start cell `(0,0)` is blocked, the ring
search would substitute the walkable cell `(2,0)`, from which the goal
`(3,0)` is reachable (the path `[(3,0)]` is returned when starting
there), yet `BFSPathfinder.find_path` started at the blocked cell
returns the empty path: the claimed start-endpoint substitution does
not happen under the breadth-first strategy. -/
theorem bfs_start_substitution_counterexample :
    stripGrid.is_walkable 0 0 = false ∧
    findNearestWalkable stripGrid (0, 0) 5 = some (2, 0) ∧
    bfs_find_path stripGrid 100 (2, 0) (3, 0) = [(3, 0)] ∧
    bfs_find_path stripGrid 100 (0, 0) (3, 0) = [] := by
  refine ⟨by decide, by decide, by decide, by decide⟩

/-! ## Threat assessor (`BotAI._get_most_dangerous_bullet`) -/

/-- Liang-Barsky interval step for one box constraint `p * t <= q`
(exact rational arithmetic). -/
def lbStep (acc : Option (ℚ × ℚ)) (pq : Int × Int) : Option (ℚ × ℚ) :=
  match acc with
  | none => none
  | some (t0, t1) =>
    let p := pq.1
    let q := pq.2
    if p = 0 then (if q < 0 then none else some (t0, t1))
    else
      let t : ℚ := (q : ℚ) / (p : ℚ)
      if p < 0 then (if t1 < t then none else some (max t0 t, t1))
      else (if t < t0 then none else some (t0, min t1 t))

/-- Model of `pygame.Rect.clipline`: does the closed segment intersect
the pixel box `[x, x+w-1] x [y, y+h-1]` (the bounds used by the pygame C
implementation)?  Computed by Liang-Barsky clipping of the parameter
interval `[0, 1]`. -/
def cliplineHit (a b : Int × Int) (r : PyRect) : Bool :=
  let dx := b.1 - a.1
  let dy := b.2 - a.2
  let cons : List (Int × Int) :=
    [(-dx, a.1 - r.x), (dx, r.x + r.w - 1 - a.1),
     (-dy, a.2 - r.y), (dy, r.y + r.h - 1 - a.2)]
  match cons.foldl lbStep (some (0, 1)) with
  | none => false
  | some (t0, t1) => decide (t0 ≤ t1)

/-- `BotAI._raycast_hit_wall`. -/
def raycast_hit_wall (a b : Int × Int) (walls : List Wall) : Bool :=
  walls.any fun w => cliplineHit a b w.rect

section ThreatAssessor

variable {K : Type} [LinearOrderedField K]

/-- A bullet snapshot: rect, velocity, owner (`bot_ai.py` reads
`rect.center`, `dx`, `dy`, `owner_id`). -/
structure Bullet (K : Type) where
  rect : PyRect
  dx : K
  dy : K
  owner_id : Nat

/-- The bot tank snapshot used by `decide_action`. -/
structure BotTank (K : Type) where
  rect : PyRect
  angle : K
  id : Nat
  cooldown : Nat

/-- A target tank snapshot (`rect`, estimated velocity `vx`, `vy`). -/
structure TargetTank (K : Type) where
  rect : PyRect
  vx : K
  vy : K

/-- `dist` in `_get_most_dangerous_bullet`:
`math.hypot(b.rect.centerx - bot_pos[0], b.rect.centery - bot_pos[1])`. -/
def bulletDist (ops : RealOps K) (bot : BotTank K) (b : Bullet K) : K :=
  ops.hyp ((b.rect.centerx - bot.rect.centerx : Int) : K)
    ((b.rect.centery - bot.rect.centery : Int) : K)

/-- `dot_prod` in `_get_most_dangerous_bullet`. -/
def bulletDot (bot : BotTank K) (b : Bullet K) : K :=
  b.dx * ((bot.rect.centerx - b.rect.centerx : Int) : K) +
    b.dy * ((bot.rect.centery - b.rect.centery : Int) : K)

/-- `perp_dist` in `_get_most_dangerous_bullet`:
`abs(b.dx * to_bot_y - b.dy * to_bot_x) / b_speed`. -/
def bulletPerp (ops : RealOps K) (bot : BotTank K) (b : Bullet K) : K :=
  |b.dx * ((bot.rect.centery - b.rect.centery : Int) : K) -
      b.dy * ((bot.rect.centerx - b.rect.centerx : Int) : K)| /
    ops.hyp b.dx b.dy

/-- One iteration of the bullet loop in `_get_most_dangerous_bullet`:
apply the filters in source order, then keep the bullet if strictly
closer than the current minimum. -/
def dangerFold (ops : RealOps K) (bot : BotTank K) (walls : List Wall)
    (acc : K × Option (Bullet K)) (b : Bullet K) : K × Option (Bullet K) :=
  if b.owner_id = bot.id then acc
  else if bulletDist ops bot b > ((DODGE_RADIUS : Int) : K) then acc
  else if bulletDot bot b ≤ 0 then acc
  else if raycast_hit_wall b.rect.center bot.rect.center walls = true then acc
  else if ops.hyp b.dx b.dy = 0 then acc
  else if bulletPerp ops bot b > ((TANK_SIZE : Int) : K) / 2 + 10 then acc
  else if bulletDist ops bot b < acc.1 then (bulletDist ops bot b, some b)
  else acc

/-- `BotAI._get_most_dangerous_bullet`: running minimum starting at
`DODGE_RADIUS`, returning the stored bullet. -/
def getMostDangerousBullet (ops : RealOps K) (bot : BotTank K)
    (bullets : List (Bullet K)) (walls : List Wall) : Option (Bullet K) :=
  if bullets.isEmpty then none
  else (bullets.foldl (dangerFold ops bot walls) (((DODGE_RADIUS : Int) : K), none)).2

/-- The conjunction of the filters a bullet must pass in
`_get_most_dangerous_bullet` before the distance comparison. -/
def SurvivesFilters (ops : RealOps K) (bot : BotTank K) (walls : List Wall)
    (b : Bullet K) : Prop :=
  ¬ b.owner_id = bot.id ∧
  ¬ bulletDist ops bot b > ((DODGE_RADIUS : Int) : K) ∧
  ¬ bulletDot bot b ≤ 0 ∧
  ¬ raycast_hit_wall b.rect.center bot.rect.center walls = true ∧
  ¬ ops.hyp b.dx b.dy = 0 ∧
  ¬ bulletPerp ops bot b > ((TANK_SIZE : Int) : K) / 2 + 10

instance survivesFiltersDecidable (ops : RealOps K) (bot : BotTank K)
    (walls : List Wall) (b : Bullet K) :
    Decidable (SurvivesFilters ops bot walls b) := by
  unfold SurvivesFilters; infer_instance

/-- The loop body acts as: replace the accumulator iff the bullet passes
all filters and is strictly closer than the current minimum. -/
theorem dangerFold_eq (ops : RealOps K) (bot : BotTank K) (walls : List Wall)
    (acc : K × Option (Bullet K)) (b : Bullet K) :
    dangerFold ops bot walls acc b =
      if SurvivesFilters ops bot walls b ∧ bulletDist ops bot b < acc.1
      then (bulletDist ops bot b, some b) else acc := by
  unfold dangerFold SurvivesFilters
  split_ifs with h1 h2 h3 h4 h5 h6 h7 h8 <;> tauto

/-- Fold invariant for the bullet loop: the running minimum never
increases, it ends below the distance of every surviving bullet, a
consistent accumulator (stored bullet survives and realizes the
minimum) stays consistent, and the stored bullet is either the initial
one or comes from the list. -/
theorem dangerFold_invariant (ops : RealOps K) (bot : BotTank K)
    (walls : List Wall) :
    ∀ (bs : List (Bullet K)) (m : K) (d : Option (Bullet K)),
      (bs.foldl (dangerFold ops bot walls) (m, d)).1 ≤ m ∧
      (∀ b' ∈ bs, SurvivesFilters ops bot walls b' →
        (bs.foldl (dangerFold ops bot walls) (m, d)).1 ≤ bulletDist ops bot b') ∧
      ((∀ bb, d = some bb → SurvivesFilters ops bot walls bb ∧ m = bulletDist ops bot bb) →
        ∀ bb, (bs.foldl (dangerFold ops bot walls) (m, d)).2 = some bb →
          SurvivesFilters ops bot walls bb ∧
          (bs.foldl (dangerFold ops bot walls) (m, d)).1 = bulletDist ops bot bb) ∧
      ((bs.foldl (dangerFold ops bot walls) (m, d)).2 = d ∨
        ∃ b ∈ bs, (bs.foldl (dangerFold ops bot walls) (m, d)).2 = some b)
  | [], m, d => by
    refine ⟨le_refl m, by simp, ?_, Or.inl rfl⟩
    intro hc bb hbb
    exact hc bb hbb
  | b :: bs, m, d => by
    rw [List.foldl_cons, dangerFold_eq]
    by_cases hb : SurvivesFilters ops bot walls b ∧ bulletDist ops bot b < m
    · rw [if_pos hb]
      obtain ⟨ih1, ih2, ih3, ih4⟩ :=
        dangerFold_invariant ops bot walls bs (bulletDist ops bot b) (some b)
      refine ⟨le_trans ih1 (le_of_lt hb.2), ?_, ?_, ?_⟩
      · intro b' hb' hs
        rcases List.mem_cons.mp hb' with rfl | hb'
        · exact ih1
        · exact ih2 b' hb' hs
      · intro _ bb hbb
        refine ih3 ?_ bb hbb
        intro bb2 hbb2
        obtain rfl : b = bb2 := by injection hbb2
        exact ⟨hb.1, rfl⟩
      · rcases ih4 with h | ⟨b2, hb2, h⟩
        · exact Or.inr ⟨b, List.mem_cons_self b bs, h⟩
        · exact Or.inr ⟨b2, List.mem_cons_of_mem b hb2, h⟩
    · rw [if_neg hb]
      obtain ⟨ih1, ih2, ih3, ih4⟩ := dangerFold_invariant ops bot walls bs m d
      refine ⟨ih1, ?_, ih3, ?_⟩
      · intro b' hb' hs
        rcases List.mem_cons.mp hb' with rfl | hb'
        · rcases not_and_or.mp hb with h | h
          · exact absurd hs h
          · exact le_trans ih1 (not_lt.mp h)
        · exact ih2 b' hb' hs
      · rcases ih4 with h | ⟨b2, hb2, h⟩
        · exact Or.inl h
        · exact Or.inr ⟨b2, List.mem_cons_of_mem b hb2, h⟩
/-- Progress: the fold either leaves the accumulator untouched or has
stored some bullet at a strictly smaller minimum. -/
theorem dangerFold_progress (ops : RealOps K) (bot : BotTank K)
    (walls : List Wall) :
    ∀ (bs : List (Bullet K)) (m : K) (d : Option (Bullet K)),
      (bs.foldl (dangerFold ops bot walls) (m, d)) = (m, d) ∨
      ∃ bb, (bs.foldl (dangerFold ops bot walls) (m, d)).2 = some bb ∧
        (bs.foldl (dangerFold ops bot walls) (m, d)).1 < m
  | [], m, d => Or.inl rfl
  | b :: bs, m, d => by
    rw [List.foldl_cons, dangerFold_eq]
    by_cases hb : SurvivesFilters ops bot walls b ∧ bulletDist ops bot b < m
    · rw [if_pos hb]
      rcases dangerFold_progress ops bot walls bs (bulletDist ops bot b) (some b)
        with h | ⟨bb, h1, h2⟩
      · exact Or.inr ⟨b, by rw [h], by rw [h]; exact hb.2⟩
      · exact Or.inr ⟨bb, h1, lt_trans h2 hb.2⟩
    · rw [if_neg hb]
      exact dangerFold_progress ops bot walls bs m d

/-- Full characterization of `_get_most_dangerous_bullet`: the returned
bullet is a surviving bullet strictly inside the dodge radius at
minimal distance; `none` means every surviving bullet sits at or beyond
the radius. -/
theorem getMostDangerousBullet_spec (ops : RealOps K) (bot : BotTank K)
    (bullets : List (Bullet K)) (walls : List Wall) :
    (∀ b, getMostDangerousBullet ops bot bullets walls = some b →
      b ∈ bullets ∧ SurvivesFilters ops bot walls b ∧
      bulletDist ops bot b < ((DODGE_RADIUS : Int) : K) ∧
      ∀ b' ∈ bullets, SurvivesFilters ops bot walls b' →
        bulletDist ops bot b ≤ bulletDist ops bot b') ∧
    (getMostDangerousBullet ops bot bullets walls = none →
      ∀ b ∈ bullets, SurvivesFilters ops bot walls b →
        ((DODGE_RADIUS : Int) : K) ≤ bulletDist ops bot b) := by
  unfold getMostDangerousBullet
  by_cases hemp : bullets.isEmpty
  · rw [if_pos hemp]
    have hnil : bullets = [] := by
      cases bullets with
      | nil => rfl
      | cons x xs => simp [List.isEmpty] at hemp
    constructor
    · intro b h; exact absurd h (by simp)
    · intro _ b hb _
      rw [hnil] at hb
      exact absurd hb (by simp)
  · rw [if_neg hemp]
    obtain ⟨i1, i2, i3, i4⟩ :=
      dangerFold_invariant ops bot walls bullets (((DODGE_RADIUS : Int) : K)) none
    have prog := dangerFold_progress ops bot walls bullets (((DODGE_RADIUS : Int) : K)) none
    constructor
    · intro b hsome
      have hcons := i3 (fun bb hbb => absurd hbb (by simp)) b hsome
      have hmem : b ∈ bullets := by
        rcases i4 with h | ⟨b2, hb2, h⟩
        · rw [hsome] at h; exact absurd h (by simp)
        · rw [hsome] at h
          obtain rfl : b = b2 := by injection h
          exact hb2
      have hstrict : bulletDist ops bot b < ((DODGE_RADIUS : Int) : K) := by
        rcases prog with h | ⟨bb, h1, h2⟩
        · have h2 : (bullets.foldl (dangerFold ops bot walls)
              (((DODGE_RADIUS : Int) : K), none)).2 = none := by rw [h]
          rw [hsome] at h2
          exact absurd h2 (by simp)
        · rw [hsome] at h1
          obtain rfl : b = bb := by injection h1
          rw [← hcons.2]
          exact h2
      refine ⟨hmem, hcons.1, hstrict, ?_⟩
      intro b' hb' hs'
      rw [← hcons.2]
      exact i2 b' hb' hs'
    · intro hnone b hb hs
      rcases prog with h | ⟨bb, h1, h2⟩
      · have h1 : (bullets.foldl (dangerFold ops bot walls)
            (((DODGE_RADIUS : Int) : K), none)).1 = ((DODGE_RADIUS : Int) : K) := by rw [h]
        rw [← h1]
        exact i2 b hb hs
      · rw [hnone] at h1
        exact absurd h1 (by simp)

/-- C9: a projectile whose velocity dotted with the vector toward the
agent is non-positive, or whose speed is zero, is never returned by the
threat assessor: whenever a bullet is returned, its closing dot product
is strictly positive and its speed (and velocity vector) is nonzero;
the zero-speed rejection happens before the perpendicular-miss-distance
division, which is therefore never a division by zero. -/
theorem threat_rejects_receding_and_stationary {K : Type}
    [LinearOrderedField K] (ops : RealOps K) (hh : IsHypot ops.hyp)
    (bot : BotTank K) (bullets : List (Bullet K)) (walls : List Wall)
    (b : Bullet K)
    (h : getMostDangerousBullet ops bot bullets walls = some b) :
    0 < bulletDot bot b ∧ ops.hyp b.dx b.dy ≠ 0 ∧ ¬(b.dx = 0 ∧ b.dy = 0) := by
  obtain ⟨_, hs, _, _⟩ := (getMostDangerousBullet_spec ops bot bullets walls).1 b h
  obtain ⟨_, _, hdot, _, hspd, _⟩ := hs
  refine ⟨not_le.mp hdot, hspd, ?_⟩
  rintro ⟨hdx, hdy⟩
  apply hspd
  rw [hdx, hdy]
  have h2 := (hh 0 0).2
  have h3 : ops.hyp 0 0 ^ 2 = 0 := by rw [h2]; norm_num
  exact pow_eq_zero_iff (by norm_num) |>.mp h3

/-- C4 (amended): among the projectiles surviving all filters, the
threat assessor returns one at minimal distance to the agent (not
minimal time-to-impact), and only if that distance is strictly below
the detection radius; it returns null exactly when no surviving
projectile lies strictly inside the radius. -/
theorem threat_selects_closest {K : Type} [LinearOrderedField K]
    (ops : RealOps K) (hh : IsHypot ops.hyp) (bot : BotTank K)
    (bullets : List (Bullet K)) (walls : List Wall) :
    (∀ b, getMostDangerousBullet ops bot bullets walls = some b →
      b ∈ bullets ∧ SurvivesFilters ops bot walls b ∧
      bulletDist ops bot b < ((DODGE_RADIUS : Int) : K) ∧
      ∀ b' ∈ bullets, SurvivesFilters ops bot walls b' →
        bulletDist ops bot b ≤ bulletDist ops bot b') ∧
    (getMostDangerousBullet ops bot bullets walls = none →
      ∀ b ∈ bullets, SurvivesFilters ops bot walls b →
        ((DODGE_RADIUS : Int) : K) ≤ bulletDist ops bot b) :=
  getMostDangerousBullet_spec ops bot bullets walls

end ThreatAssessor

/-! ## Concrete threat-assessor scenarios -/

/-- Under `IsHypot`, the hypot of a pair evaluates wherever the squares
sum to a perfect square. -/
theorem hyp_eval {K : Type} [LinearOrderedField K] {hyp : K → K → K}
    (hh : IsHypot hyp) (x y r : K) (hr : 0 ≤ r) (h : x ^ 2 + y ^ 2 = r ^ 2) :
    hyp x y = r := by
  have h1 := (hh x y).1
  have h2 := (hh x y).2
  rw [h] at h2
  have key : (hyp x y - r) * (hyp x y + r) = 0 := by
    have : hyp x y ^ 2 - r ^ 2 = 0 := by rw [h2]; ring
    calc (hyp x y - r) * (hyp x y + r) = hyp x y ^ 2 - r ^ 2 := by ring
    _ = 0 := this
  rcases mul_eq_zero.mp key with h3 | h3
  · linarith
  · linarith

/-- `math.hypot` over the reals satisfies `IsHypot`. -/
theorem isHypot_real_sqrt : IsHypot (fun x y : ℝ => Real.sqrt (x ^ 2 + y ^ 2)) := by
  intro x y
  exact ⟨Real.sqrt_nonneg _, Real.sq_sqrt (by positivity)⟩

/-- Agent at (300,300) used in the time-to-impact counterexample. -/
def cexBot (K : Type) [LinearOrderedField K] : BotTank K :=
  ⟨⟨285, 285, 30, 30⟩, 0, 1, 0⟩

/-- Slow bullet at (200,300), speed 1, heading straight at the agent:
distance 100, time-to-impact 100. -/
def cexNear (K : Type) [LinearOrderedField K] : Bullet K :=
  ⟨⟨197, 297, 6, 6⟩, 1, 0, 2⟩

/-- Fast bullet at (300,150), speed 5, heading straight at the agent:
distance 150, time-to-impact 30. -/
def cexFast (K : Type) [LinearOrderedField K] : Bullet K :=
  ⟨⟨297, 147, 6, 6⟩, 0, 5, 2⟩

section CexEval

variable {K : Type} [LinearOrderedField K] (ops : RealOps K)

/-- Distance of the slow bullet. -/
theorem cexNear_dist (hh : IsHypot ops.hyp) :
    bulletDist ops (cexBot K) (cexNear K) = 100 := by
  unfold bulletDist
  rw [show (cexNear K).rect.centerx - (cexBot K).rect.centerx = -100 from rfl,
    show (cexNear K).rect.centery - (cexBot K).rect.centery = 0 from rfl]
  push_cast
  exact hyp_eval hh _ _ 100 (by norm_num) (by norm_num)

/-- Distance of the fast bullet. -/
theorem cexFast_dist (hh : IsHypot ops.hyp) :
    bulletDist ops (cexBot K) (cexFast K) = 150 := by
  unfold bulletDist
  rw [show (cexFast K).rect.centerx - (cexBot K).rect.centerx = 0 from rfl,
    show (cexFast K).rect.centery - (cexBot K).rect.centery = -150 from rfl]
  push_cast
  exact hyp_eval hh _ _ 150 (by norm_num) (by norm_num)

/-- The slow bullet survives every filter. -/
theorem cexNear_survives (hh : IsHypot ops.hyp) :
    SurvivesFilters ops (cexBot K) [] (cexNear K) := by
  refine ⟨by simp [cexNear, cexBot], ?_, ?_, ?_, ?_, ?_⟩
  · rw [cexNear_dist ops hh]
    norm_num [DODGE_RADIUS]
  · show ¬ bulletDot (cexBot K) (cexNear K) ≤ 0
    unfold bulletDot
    rw [show (cexBot K).rect.centerx - (cexNear K).rect.centerx = 100 from rfl,
      show (cexBot K).rect.centery - (cexNear K).rect.centery = 0 from rfl,
      show (cexNear K).dx = (1 : K) from rfl, show (cexNear K).dy = (0 : K) from rfl]
    push_cast
    norm_num
  · simp [raycast_hit_wall]
  · rw [show (cexNear K).dx = (1 : K) from rfl, show (cexNear K).dy = (0 : K) from rfl,
      hyp_eval hh 1 0 1 (by norm_num) (by norm_num)]
    norm_num
  · show ¬ bulletPerp ops (cexBot K) (cexNear K) > ((TANK_SIZE : Int) : K) / 2 + 10
    unfold bulletPerp
    rw [show (cexBot K).rect.centerx - (cexNear K).rect.centerx = 100 from rfl,
      show (cexBot K).rect.centery - (cexNear K).rect.centery = 0 from rfl,
      show (cexNear K).dx = (1 : K) from rfl, show (cexNear K).dy = (0 : K) from rfl,
      hyp_eval hh 1 0 1 (by norm_num) (by norm_num)]
    push_cast
    norm_num [TANK_SIZE]

/-- The fast bullet survives every filter. -/
theorem cexFast_survives (hh : IsHypot ops.hyp) :
    SurvivesFilters ops (cexBot K) [] (cexFast K) := by
  refine ⟨by simp [cexFast, cexBot], ?_, ?_, ?_, ?_, ?_⟩
  · rw [cexFast_dist ops hh]
    norm_num [DODGE_RADIUS]
  · show ¬ bulletDot (cexBot K) (cexFast K) ≤ 0
    unfold bulletDot
    rw [show (cexBot K).rect.centerx - (cexFast K).rect.centerx = 0 from rfl,
      show (cexBot K).rect.centery - (cexFast K).rect.centery = 150 from rfl,
      show (cexFast K).dx = (0 : K) from rfl, show (cexFast K).dy = (5 : K) from rfl]
    push_cast
    norm_num
  · simp [raycast_hit_wall]
  · rw [show (cexFast K).dx = (0 : K) from rfl, show (cexFast K).dy = (5 : K) from rfl,
      hyp_eval hh 0 5 5 (by norm_num) (by norm_num)]
    norm_num
  · show ¬ bulletPerp ops (cexBot K) (cexFast K) > ((TANK_SIZE : Int) : K) / 2 + 10
    unfold bulletPerp
    rw [show (cexBot K).rect.centerx - (cexFast K).rect.centerx = 0 from rfl,
      show (cexBot K).rect.centery - (cexFast K).rect.centery = 150 from rfl,
      show (cexFast K).dx = (0 : K) from rfl, show (cexFast K).dy = (5 : K) from rfl,
      hyp_eval hh 0 5 5 (by norm_num) (by norm_num)]
    push_cast
    norm_num [TANK_SIZE]

/-- The assessor applied to the two bullets returns the nearer, slower
one. -/
theorem cex_result (hh : IsHypot ops.hyp) :
    getMostDangerousBullet ops (cexBot K) [cexNear K, cexFast K] [] =
      some (cexNear K) := by
  have step1 : dangerFold ops (cexBot K) []
      ((((DODGE_RADIUS : Int) : K)), none) (cexNear K) = (100, some (cexNear K)) := by
    rw [dangerFold_eq, if_pos ⟨cexNear_survives ops hh, by
      rw [cexNear_dist ops hh]; norm_num [DODGE_RADIUS]⟩, cexNear_dist ops hh]
  have step2 : dangerFold ops (cexBot K) []
      ((100 : K), some (cexNear K)) (cexFast K) = (100, some (cexNear K)) := by
    rw [dangerFold_eq, if_neg ?hcond]
    case hcond =>
      rintro ⟨_, habs⟩
      rw [cexFast_dist ops hh,
        show (((100 : K), some (cexNear K))).1 = (100 : K) from rfl] at habs
      norm_num at habs
  unfold getMostDangerousBullet
  rw [if_neg (by simp), List.foldl_cons, List.foldl_cons, List.foldl_nil, step1, step2]

end CexEval

/-- For any hypot-respecting operations, the two-bullet scenario
returns the slow bullet while the fast one survives with a strictly
smaller time-to-impact. -/
theorem threat_tti_cex_aux {K : Type} [LinearOrderedField K]
    (ops : RealOps K) (hh : IsHypot ops.hyp) :
    getMostDangerousBullet ops (cexBot K) [cexNear K, cexFast K] [] =
        some (cexNear K) ∧
      SurvivesFilters ops (cexBot K) [] (cexFast K) ∧
      bulletDist ops (cexBot K) (cexFast K) /
          ops.hyp (cexFast K).dx (cexFast K).dy <
        bulletDist ops (cexBot K) (cexNear K) /
          ops.hyp (cexNear K).dx (cexNear K).dy := by
  refine ⟨cex_result ops hh, cexFast_survives ops hh, ?_⟩
  rw [cexFast_dist ops hh, cexNear_dist ops hh,
    show (cexFast K).dx = (0 : K) from rfl, show (cexFast K).dy = (5 : K) from rfl,
    show (cexNear K).dx = (1 : K) from rfl, show (cexNear K).dy = (0 : K) from rfl,
    hyp_eval hh 0 5 5 (by norm_num) (by norm_num),
    hyp_eval hh 1 0 1 (by norm_num) (by norm_num)]
  norm_num

/-- C4 counterexample: with real `math.hypot`, the assessor returns the
slow bullet at distance 100 (time-to-impact 100) although the fast
bullet also survives every filter with the strictly smaller
time-to-impact 150/5 = 30: the selection is by smallest distance, not
smallest time-to-impact. -/
theorem threat_tti_counterexample :
    (fun ops : RealOps ℝ =>
      getMostDangerousBullet ops (cexBot ℝ) [cexNear ℝ, cexFast ℝ] [] =
          some (cexNear ℝ) ∧
        SurvivesFilters ops (cexBot ℝ) [] (cexFast ℝ) ∧
        bulletDist ops (cexBot ℝ) (cexFast ℝ) /
            ops.hyp (cexFast ℝ).dx (cexFast ℝ).dy <
          bulletDist ops (cexBot ℝ) (cexNear ℝ) /
            ops.hyp (cexNear ℝ).dx (cexNear ℝ).dy)
    { pi := 0, sqrt2 := 0, cos := fun _ => 0, sin := fun _ => 0,
      atan2 := fun _ _ => 0, hyp := fun x y => Real.sqrt (x ^ 2 + y ^ 2),
      trunc := fun _ => 0 } :=
  threat_tti_cex_aux _ isHypot_real_sqrt

/-- Agent at (100,100) used in the witnesses. -/
def witBot (K : Type) [LinearOrderedField K] : BotTank K :=
  ⟨⟨85, 85, 30, 30⟩, 0, 0, 0⟩

/-- A bullet at (100,40) with velocity (0,2): heading straight down at
the agent, distance 60, speed 2. -/
def witBul (K : Type) [LinearOrderedField K] : Bullet K :=
  ⟨⟨97, 37, 6, 6⟩, 0, 2, 3⟩

section WitEval

variable {K : Type} [LinearOrderedField K] (ops : RealOps K)

/-- Distance of the witness bullet. -/
theorem witBul_dist (hh : IsHypot ops.hyp) :
    bulletDist ops (witBot K) (witBul K) = 60 := by
  unfold bulletDist
  rw [show (witBul K).rect.centerx - (witBot K).rect.centerx = 0 from rfl,
    show (witBul K).rect.centery - (witBot K).rect.centery = -60 from rfl]
  push_cast
  exact hyp_eval hh _ _ 60 (by norm_num) (by norm_num)

/-- The witness bullet survives every filter. -/
theorem witBul_survives (hh : IsHypot ops.hyp) :
    SurvivesFilters ops (witBot K) [] (witBul K) := by
  refine ⟨by simp [witBul, witBot], ?_, ?_, ?_, ?_, ?_⟩
  · rw [witBul_dist ops hh]
    norm_num [DODGE_RADIUS]
  · show ¬ bulletDot (witBot K) (witBul K) ≤ 0
    unfold bulletDot
    rw [show (witBot K).rect.centerx - (witBul K).rect.centerx = 0 from rfl,
      show (witBot K).rect.centery - (witBul K).rect.centery = 60 from rfl,
      show (witBul K).dx = (0 : K) from rfl, show (witBul K).dy = (2 : K) from rfl]
    push_cast
    norm_num
  · simp [raycast_hit_wall]
  · rw [show (witBul K).dx = (0 : K) from rfl, show (witBul K).dy = (2 : K) from rfl,
      hyp_eval hh 0 2 2 (by norm_num) (by norm_num)]
    norm_num
  · show ¬ bulletPerp ops (witBot K) (witBul K) > ((TANK_SIZE : Int) : K) / 2 + 10
    unfold bulletPerp
    rw [show (witBot K).rect.centerx - (witBul K).rect.centerx = 0 from rfl,
      show (witBot K).rect.centery - (witBul K).rect.centery = 60 from rfl,
      show (witBul K).dx = (0 : K) from rfl, show (witBul K).dy = (2 : K) from rfl,
      hyp_eval hh 0 2 2 (by norm_num) (by norm_num)]
    push_cast
    norm_num [TANK_SIZE]

/-- The assessor returns the witness bullet. -/
theorem witBul_result (hh : IsHypot ops.hyp) :
    getMostDangerousBullet ops (witBot K) [witBul K] [] = some (witBul K) := by
  have step1 : dangerFold ops (witBot K) []
      ((((DODGE_RADIUS : Int) : K)), none) (witBul K) = (60, some (witBul K)) := by
    rw [dangerFold_eq, if_pos ⟨witBul_survives ops hh, by
      rw [witBul_dist ops hh]; norm_num [DODGE_RADIUS]⟩, witBul_dist ops hh]
  unfold getMostDangerousBullet
  rw [if_neg (by simp), List.foldl_cons, List.foldl_nil, step1]

end WitEval

/-- C4 witness: on the one-bullet scenario the returned bullet is a
member, survives the filters, lies strictly inside the radius and is of
minimal distance. -/
theorem threat_selects_closest_witness :
    (fun ops : RealOps ℝ =>
      witBul ℝ ∈ [witBul ℝ] ∧ SurvivesFilters ops (witBot ℝ) [] (witBul ℝ) ∧
        bulletDist ops (witBot ℝ) (witBul ℝ) < ((DODGE_RADIUS : Int) : ℝ) ∧
        ∀ b' ∈ [witBul ℝ], SurvivesFilters ops (witBot ℝ) [] b' →
          bulletDist ops (witBot ℝ) (witBul ℝ) ≤ bulletDist ops (witBot ℝ) b')
    { pi := 0, sqrt2 := 0, cos := fun _ => 0, sin := fun _ => 0,
      atan2 := fun _ _ => 0, hyp := fun x y => Real.sqrt (x ^ 2 + y ^ 2),
      trunc := fun _ => 0 } :=
  (threat_selects_closest _ isHypot_real_sqrt (witBot ℝ) [witBul ℝ] []).1
    (witBul ℝ) (witBul_result _ isHypot_real_sqrt)

/-- C9 witness: the returned bullet of the one-bullet scenario has a
strictly positive closing dot product and nonzero speed. -/
theorem threat_rejects_witness :
    (fun ops : RealOps ℝ =>
      0 < bulletDot (witBot ℝ) (witBul ℝ) ∧
        ops.hyp (witBul ℝ).dx (witBul ℝ).dy ≠ 0 ∧
        ¬((witBul ℝ).dx = 0 ∧ (witBul ℝ).dy = 0))
    { pi := 0, sqrt2 := 0, cos := fun _ => 0, sin := fun _ => 0,
      atan2 := fun _ _ => 0, hyp := fun x y => Real.sqrt (x ^ 2 + y ^ 2),
      trunc := fun _ => 0 } :=
  threat_rejects_receding_and_stationary _ isHypot_real_sqrt (witBot ℝ)
    [witBul ℝ] [] (witBul ℝ) (witBul_result _ isHypot_real_sqrt)

/-! ## Path follower (`BotAI._get_pure_pursuit_goal`) -/

section PurePursuit

variable {K : Type} [LinearOrderedField K]

/-- Distance from the agent position to a path pixel, as computed in the
pruning loop. -/
def nodeDist (ops : RealOps K) (botPos : Int × Int) (p : Int × Int) : K :=
  ops.hyp ((p.1 - botPos.1 : Int) : K) ((p.2 - botPos.2 : Int) : K)

/-- The pruning `while` loop: drop leading path pixels closer than
`NODE_ARRIVAL_DISTANCE`, popping `current_path` in lockstep. -/
def prunePursuit (ops : RealOps K) (botPos : Int × Int) :
    List (Int × Int) → List Cell → List (Int × Int) × List Cell
  | [], path => ([], path)
  | p :: rest, path =>
    if nodeDist ops botPos p < ((NODE_ARRIVAL_DISTANCE : Int) : K) then
      prunePursuit ops botPos rest path.tail
    else (p :: rest, path)

/-- The look-ahead accumulation loop of `_get_pure_pursuit_goal`:
`accumulated_dist` grows by each segment length; on first reaching
`PURE_PURSUIT_LOOKAHEAD` the goal is interpolated inside that segment
(`point - ratio * (point - prev)`), a zero-length triggering segment
returns the point itself, and an exhausted path returns its final
point. -/
def pursuitWalk (ops : RealOps K) :
    (Int × Int) → K → List (Int × Int) → K × K
  | prev, _, [] => ((prev.1 : K), (prev.2 : K))
  | prev, acc, p :: rest =>
    let seg := ops.hyp ((p.1 - prev.1 : Int) : K) ((p.2 - prev.2 : Int) : K)
    let acc2 := acc + seg
    if ((PURE_PURSUIT_LOOKAHEAD : Int) : K) ≤ acc2 then
      if 0 < seg then
        let ratio := (acc2 - ((PURE_PURSUIT_LOOKAHEAD : Int) : K)) / seg
        ((p.1 : K) - ratio * ((p.1 - prev.1 : Int) : K),
          (p.2 : K) - ratio * ((p.2 - prev.2 : Int) : K))
      else ((p.1 : K), (p.2 : K))
    else pursuitWalk ops p acc2 rest

/-- `BotAI._get_pure_pursuit_goal`: returns the goal point (if any)
together with the updated `current_path_pixels` and `current_path`
(the Python method mutates both).  `botAngle` is the unused
`bot_angle` parameter of the source method. -/
def get_pure_pursuit_goal (ops : RealOps K) (botPos : Int × Int) (botAngle : K)
    (pixels : List (Int × Int)) (path : List Cell) :
    Option (K × K) × List (Int × Int) × List Cell :=
  if pixels = [] then (none, pixels, path)
  else
    let pr := prunePursuit ops botPos pixels path
    if pr.1 = [] then (none, pr.1, pr.2)
    else (some (pursuitWalk ops botPos 0 pr.1), pr.1, pr.2)

/-- The segment lengths of the polyline from `prev` through `pts`. -/
def pathSegs (ops : RealOps K) : (Int × Int) → List (Int × Int) → List K
  | _, [] => []
  | prev, p :: rest =>
    ops.hyp ((p.1 - prev.1 : Int) : K) ((p.2 - prev.2 : Int) : K) ::
      pathSegs ops p rest

/-- Under `IsHypot` every segment length is non-negative. -/
theorem pathSegs_nonneg {ops : RealOps K} (hh : IsHypot ops.hyp) :
    ∀ (prev : Int × Int) (pts : List (Int × Int)) (s : K),
      s ∈ pathSegs ops prev pts → 0 ≤ s
  | prev, [], s => by simp [pathSegs]
  | prev, p :: rest, s => by
    intro hs
    rw [pathSegs, List.mem_cons] at hs
    rcases hs with rfl | hs
    · exact (hh _ _).1
    · exact pathSegs_nonneg hh p rest s hs

/-- Sums of segment lists are non-negative. -/
theorem pathSegs_sum_nonneg {ops : RealOps K} (hh : IsHypot ops.hyp)
    (prev : Int × Int) (pts : List (Int × Int)) :
    0 ≤ (pathSegs ops prev pts).sum :=
  List.sum_nonneg (fun s hs => pathSegs_nonneg hh prev pts s hs)

/-- When the whole remaining polyline is shorter than the look-ahead
distance, the walk returns the final point (the starting point if the
list is empty). -/
theorem pursuitWalk_short {ops : RealOps K} (hh : IsHypot ops.hyp) :
    ∀ (pts : List (Int × Int)) (prev : Int × Int) (acc : K),
      acc + (pathSegs ops prev pts).sum < ((PURE_PURSUIT_LOOKAHEAD : Int) : K) →
      pursuitWalk ops prev acc pts =
        (((pts.getLastD prev).1 : K), ((pts.getLastD prev).2 : K))
  | [], prev, acc, _ => by simp [pursuitWalk]
  | p :: rest, prev, acc, h => by
    rw [pathSegs, List.sum_cons] at h
    have hrest : 0 ≤ (pathSegs ops p rest).sum := pathSegs_sum_nonneg hh p rest
    rw [pursuitWalk]
    rw [if_neg (by push_neg; linarith)]
    rw [pursuitWalk_short hh rest p _ (by linarith)]
    have hlast : (p :: rest).getLastD prev = rest.getLastD p := by
      cases rest <;> simp [List.getLastD]
    rw [hlast]

/-- Scaling property of `hyp` under `IsHypot`. -/
theorem hyp_smul {K : Type} [LinearOrderedField K] {hyp : K → K → K}
    (hh : IsHypot hyp) (t x y : K) (ht : 0 ≤ t) :
    hyp (t * x) (t * y) = t * hyp x y :=
  hyp_eval hh _ _ _ (mul_nonneg ht (hh x y).1)
    (by
      calc (t * x) ^ 2 + (t * y) ^ 2 = t ^ 2 * (x ^ 2 + y ^ 2) := by ring
      _ = t ^ 2 * hyp x y ^ 2 := by rw [(hh x y).2]
      _ = (t * hyp x y) ^ 2 := by ring)

/-- When the accumulated length first reaches the look-ahead distance
inside segment `i`, the walk returns the linear interpolation at
parameter `t` inside that segment, the interpolated point sits at
exactly the look-ahead arc length along the polyline, measured from the
walk's starting point. -/
theorem pursuitWalk_reach {K : Type} [LinearOrderedField K]
    {ops : RealOps K} (hh : IsHypot ops.hyp) :
    ∀ (pts : List (Int × Int)) (prev : Int × Int) (acc : K),
      acc < ((PURE_PURSUIT_LOOKAHEAD : Int) : K) →
      ((PURE_PURSUIT_LOOKAHEAD : Int) : K) ≤ acc + (pathSegs ops prev pts).sum →
      ∃ (i : Nat) (t : K), i < pts.length ∧ 0 ≤ t ∧ t ≤ 1 ∧
        pursuitWalk ops prev acc pts =
          ((((prev :: pts).getD i (0, 0)).1 : K) +
              t * (((pts.getD i (0, 0)).1 : K) - (((prev :: pts).getD i (0, 0)).1 : K)),
            (((prev :: pts).getD i (0, 0)).2 : K) +
              t * (((pts.getD i (0, 0)).2 : K) - (((prev :: pts).getD i (0, 0)).2 : K))) ∧
        acc + ((pathSegs ops prev pts).take i).sum +
            t * (pathSegs ops prev pts).getD i 0 =
          ((PURE_PURSUIT_LOOKAHEAD : Int) : K) ∧
        acc + ((pathSegs ops prev pts).take i).sum <
          ((PURE_PURSUIT_LOOKAHEAD : Int) : K) ∧
        ((PURE_PURSUIT_LOOKAHEAD : Int) : K) ≤
          acc + ((pathSegs ops prev pts).take (i + 1)).sum ∧
        ops.hyp ((pursuitWalk ops prev acc pts).1 - (((prev :: pts).getD i (0, 0)).1 : K))
            ((pursuitWalk ops prev acc pts).2 - (((prev :: pts).getD i (0, 0)).2 : K)) =
          ((PURE_PURSUIT_LOOKAHEAD : Int) : K) -
            (acc + ((pathSegs ops prev pts).take i).sum)
  | [], prev, acc, hlt, hge => by
    rw [pathSegs, List.sum_nil, add_zero] at hge
    exact absurd hge (not_le.mpr hlt)
  | p :: rest, prev, acc, hlt, hge => by
    have hseg0 : 0 ≤ ops.hyp ((p.1 - prev.1 : Int) : K) ((p.2 - prev.2 : Int) : K) :=
      (hh _ _).1
    by_cases hreach : ((PURE_PURSUIT_LOOKAHEAD : Int) : K) ≤
        acc + ops.hyp ((p.1 - prev.1 : Int) : K) ((p.2 - prev.2 : Int) : K)
    · -- the first segment already reaches the look-ahead distance
      have hpos : 0 < ops.hyp ((p.1 - prev.1 : Int) : K) ((p.2 - prev.2 : Int) : K) := by
        rcases lt_or_eq_of_le hseg0 with h | h
        · exact h
        · exfalso; rw [← h] at hreach; simp at hreach; linarith
      set seg := ops.hyp ((p.1 - prev.1 : Int) : K) ((p.2 - prev.2 : Int) : K) with hsegdef
      have hwalk : pursuitWalk ops prev acc (p :: rest) =
          ((p.1 : K) - (acc + seg - ((PURE_PURSUIT_LOOKAHEAD : Int) : K)) / seg *
              ((p.1 - prev.1 : Int) : K),
            (p.2 : K) - (acc + seg - ((PURE_PURSUIT_LOOKAHEAD : Int) : K)) / seg *
              ((p.2 - prev.2 : Int) : K)) := by
        rw [pursuitWalk]
        rw [if_pos hreach, if_pos hpos]
      refine ⟨0, (((PURE_PURSUIT_LOOKAHEAD : Int) : K) - acc) / seg, by simp, ?_, ?_,
        ?_, ?_, ?_, ?_, ?_⟩
      · exact div_nonneg (by linarith) (le_of_lt hpos)
      · rw [div_le_one hpos]; linarith
      · rw [hwalk]
        simp only [List.getD_cons_zero, Prod.mk.injEq]
        constructor <;> (field_simp; push_cast; ring)
      · simp only [pathSegs, List.take_zero, List.sum_nil, add_zero, List.getD_cons_zero]
        rw [← hsegdef]
        field_simp
      · simpa using hlt
      · simp only [pathSegs, List.take_succ_cons, List.take_zero, List.sum_cons,
          List.sum_nil, add_zero]
        rw [← hsegdef]
        exact hreach
      · rw [hwalk]
        simp only [List.getD_cons_zero]
        have hx : (p.1 : K) - (acc + seg - ((PURE_PURSUIT_LOOKAHEAD : Int) : K)) / seg *
            ((p.1 - prev.1 : Int) : K) - (prev.1 : K) =
            (((PURE_PURSUIT_LOOKAHEAD : Int) : K) - acc) / seg * ((p.1 - prev.1 : Int) : K) := by
          field_simp
          push_cast
          ring
        have hy : (p.2 : K) - (acc + seg - ((PURE_PURSUIT_LOOKAHEAD : Int) : K)) / seg *
            ((p.2 - prev.2 : Int) : K) - (prev.2 : K) =
            (((PURE_PURSUIT_LOOKAHEAD : Int) : K) - acc) / seg * ((p.2 - prev.2 : Int) : K) := by
          field_simp
          push_cast
          ring
        rw [hx, hy, hyp_smul hh _ _ _ (div_nonneg (by linarith) (le_of_lt hpos)), ← hsegdef]
        rw [div_mul_cancel₀ _ (ne_of_gt hpos)]
        simp only [pathSegs, List.take_zero, List.sum_nil, add_zero]
    · -- recurse into the rest of the path
      push_neg at hreach
      have hgerest : ((PURE_PURSUIT_LOOKAHEAD : Int) : K) ≤
          (acc + ops.hyp ((p.1 - prev.1 : Int) : K) ((p.2 - prev.2 : Int) : K)) +
            (pathSegs ops p rest).sum := by
        rw [pathSegs, List.sum_cons] at hge
        linarith
      obtain ⟨i, t, hi, ht0, ht1, hq, hcum, hlo, hhi, harc⟩ :=
        pursuitWalk_reach hh rest p
          (acc + ops.hyp ((p.1 - prev.1 : Int) : K) ((p.2 - prev.2 : Int) : K))
          hreach hgerest
      have hwalk : pursuitWalk ops prev acc (p :: rest) =
          pursuitWalk ops p
            (acc + ops.hyp ((p.1 - prev.1 : Int) : K) ((p.2 - prev.2 : Int) : K)) rest := by
        rw [pursuitWalk]
        rw [if_neg (not_le.mpr hreach)]
      refine ⟨i + 1, t, by simpa using hi, ht0, ht1, ?_, ?_, ?_, ?_, ?_⟩
      · rw [hwalk, hq]
        simp only [List.getD_cons_succ]
      · simp only [pathSegs, List.take_succ_cons, List.sum_cons, List.getD_cons_succ]
        linarith [hcum]
      · simp only [pathSegs, List.take_succ_cons, List.sum_cons]
        linarith [hlo]
      · simp only [pathSegs, List.take_succ_cons, List.sum_cons]
        linarith [hhi]
      · rw [hwalk]
        simp only [List.getD_cons_succ, pathSegs, List.take_succ_cons, List.sum_cons]
        rw [harc]
        ring

/-- The pruning loop drops exactly a prefix of waypoints closer than the
arrival threshold, and the surviving head (if any) is at or beyond the
threshold. -/
theorem prunePursuit_spec (ops : RealOps K) (botPos : Int × Int) :
    ∀ (pixels : List (Int × Int)) (path : List Cell),
      ∃ k : Nat, (prunePursuit ops botPos pixels path).1 = pixels.drop k ∧
        (∀ i < k, nodeDist ops botPos (pixels.getD i (0, 0)) <
          ((NODE_ARRIVAL_DISTANCE : Int) : K)) ∧
        (∀ p, (prunePursuit ops botPos pixels path).1.head? = some p →
          ¬ nodeDist ops botPos p < ((NODE_ARRIVAL_DISTANCE : Int) : K))
  | [], path => ⟨0, by simp [prunePursuit], by simp, by simp [prunePursuit]⟩
  | p :: rest, path => by
    by_cases h : nodeDist ops botPos p < ((NODE_ARRIVAL_DISTANCE : Int) : K)
    · have hstep : prunePursuit ops botPos (p :: rest) path =
          prunePursuit ops botPos rest path.tail := by
        rw [prunePursuit, if_pos h]
      obtain ⟨k, h1, h2, h3⟩ := prunePursuit_spec ops botPos rest path.tail
      refine ⟨k + 1, ?_, ?_, ?_⟩
      · rw [hstep, List.drop_succ_cons]
        exact h1
      · intro i hi
        cases i with
        | zero => simpa using h
        | succ j => simpa using h2 j (by omega)
      · rw [hstep]
        exact h3
    · have hstep : prunePursuit ops botPos (p :: rest) path = (p :: rest, path) := by
        rw [prunePursuit, if_neg h]
      refine ⟨0, by rw [hstep]; simp, by simp, ?_⟩
      intro q hq
      rw [hstep] at hq
      obtain rfl : p = q := by simpa using hq
      exact h

/-- C7: the path follower first discards leading waypoints closer than
the arrival threshold; on the surviving path it returns null exactly
when that path is empty, returns the final waypoint when the
accumulated length (from the current position) stays below the
look-ahead distance, and otherwise returns the linear interpolation
inside the segment where the accumulated length first reaches the
look-ahead distance — a point at exactly the look-ahead arc length
along the path. -/
theorem pure_pursuit_goal_spec {K : Type} [LinearOrderedField K]
    (ops : RealOps K) (hh : IsHypot ops.hyp) (botPos : Int × Int)
    (botAngle : K) (pixels : List (Int × Int)) (path : List Cell) :
    ((get_pure_pursuit_goal ops botPos botAngle pixels path).1 = none ↔
      (prunePursuit ops botPos pixels path).1 = []) ∧
    (∃ k : Nat, (prunePursuit ops botPos pixels path).1 = pixels.drop k ∧
      (∀ i < k, nodeDist ops botPos (pixels.getD i (0, 0)) <
        ((NODE_ARRIVAL_DISTANCE : Int) : K)) ∧
      (∀ p, (prunePursuit ops botPos pixels path).1.head? = some p →
        ¬ nodeDist ops botPos p < ((NODE_ARRIVAL_DISTANCE : Int) : K))) ∧
    ((prunePursuit ops botPos pixels path).1 ≠ [] →
      (pathSegs ops botPos (prunePursuit ops botPos pixels path).1).sum <
        ((PURE_PURSUIT_LOOKAHEAD : Int) : K) →
      (get_pure_pursuit_goal ops botPos botAngle pixels path).1 =
        some ((((prunePursuit ops botPos pixels path).1.getLastD botPos).1 : K),
          (((prunePursuit ops botPos pixels path).1.getLastD botPos).2 : K))) ∧
    ((prunePursuit ops botPos pixels path).1 ≠ [] →
      ((PURE_PURSUIT_LOOKAHEAD : Int) : K) ≤
        (pathSegs ops botPos (prunePursuit ops botPos pixels path).1).sum →
      (get_pure_pursuit_goal ops botPos botAngle pixels path).1 =
        some (pursuitWalk ops botPos 0 (prunePursuit ops botPos pixels path).1) ∧
      ∃ (i : Nat) (t : K),
        i < (prunePursuit ops botPos pixels path).1.length ∧ 0 ≤ t ∧ t ≤ 1 ∧
        pursuitWalk ops botPos 0 (prunePursuit ops botPos pixels path).1 =
          ((((botPos :: (prunePursuit ops botPos pixels path).1).getD i (0, 0)).1 : K) +
              t * ((((prunePursuit ops botPos pixels path).1.getD i (0, 0)).1 : K) -
                (((botPos :: (prunePursuit ops botPos pixels path).1).getD i (0, 0)).1 : K)),
            (((botPos :: (prunePursuit ops botPos pixels path).1).getD i (0, 0)).2 : K) +
              t * ((((prunePursuit ops botPos pixels path).1.getD i (0, 0)).2 : K) -
                (((botPos :: (prunePursuit ops botPos pixels path).1).getD i (0, 0)).2 : K))) ∧
        ((pathSegs ops botPos (prunePursuit ops botPos pixels path).1).take i).sum +
            t * (pathSegs ops botPos (prunePursuit ops botPos pixels path).1).getD i 0 =
          ((PURE_PURSUIT_LOOKAHEAD : Int) : K) ∧
        ((pathSegs ops botPos (prunePursuit ops botPos pixels path).1).take i).sum <
          ((PURE_PURSUIT_LOOKAHEAD : Int) : K) ∧
        ((PURE_PURSUIT_LOOKAHEAD : Int) : K) ≤
          ((pathSegs ops botPos (prunePursuit ops botPos pixels path).1).take (i + 1)).sum ∧
        ops.hyp
            ((pursuitWalk ops botPos 0 (prunePursuit ops botPos pixels path).1).1 -
              (((botPos :: (prunePursuit ops botPos pixels path).1).getD i (0, 0)).1 : K))
            ((pursuitWalk ops botPos 0 (prunePursuit ops botPos pixels path).1).2 -
              (((botPos :: (prunePursuit ops botPos pixels path).1).getD i (0, 0)).2 : K)) =
          ((PURE_PURSUIT_LOOKAHEAD : Int) : K) -
            ((pathSegs ops botPos (prunePursuit ops botPos pixels path).1).take i).sum) := by
  have hL : (0 : K) < ((PURE_PURSUIT_LOOKAHEAD : Int) : K) := by
    norm_num [PURE_PURSUIT_LOOKAHEAD]
  refine ⟨?_, prunePursuit_spec ops botPos pixels path, ?_, ?_⟩
  · unfold get_pure_pursuit_goal
    by_cases hp : pixels = []
    · rw [if_pos hp, hp]
      simp [prunePursuit]
    · rw [if_neg hp]
      by_cases hpr : (prunePursuit ops botPos pixels path).1 = []
      · rw [if_pos hpr]
        simp [hpr]
      · rw [if_neg hpr]
        simp [hpr]
  · intro hne hshort
    have hp : pixels ≠ [] := by
      intro h
      rw [h] at hne
      exact hne (by simp [prunePursuit])
    unfold get_pure_pursuit_goal
    rw [if_neg hp, if_neg hne]
    rw [pursuitWalk_short hh _ _ _ (by rw [zero_add]; exact hshort)]
  · intro hne hreach
    have hp : pixels ≠ [] := by
      intro h
      rw [h] at hne
      exact hne (by simp [prunePursuit])
    have hres : (get_pure_pursuit_goal ops botPos botAngle pixels path).1 =
        some (pursuitWalk ops botPos 0 (prunePursuit ops botPos pixels path).1) := by
      unfold get_pure_pursuit_goal
      rw [if_neg hp, if_neg hne]
    obtain ⟨i, t, hi, ht0, ht1, hq, hcum, hlo, hhi, harc⟩ :=
      pursuitWalk_reach hh (prunePursuit ops botPos pixels path).1 botPos 0 hL
        (by rw [zero_add]; exact hreach)
    rw [zero_add] at hcum hlo hhi harc
    exact ⟨hres, i, t, hi, ht0, ht1, hq, hcum, hlo, hhi, harc⟩

/-- C7 witness: the follower applied over the reals to the waypoint
path [(100,0)] from position (0,0) returns exactly (60,0), the point
at look-ahead arc length 60. -/
theorem pure_pursuit_goal_witness :
    (fun ops : RealOps ℝ =>
      (get_pure_pursuit_goal ops ((0 : Int), (0 : Int)) (0 : ℝ)
        [((100 : Int), (0 : Int))] []).1 = some (60, 0))
    { pi := 0, sqrt2 := 0, cos := fun _ => 0, sin := fun _ => 0,
      atan2 := fun _ _ => 0, hyp := fun x y => Real.sqrt (x ^ 2 + y ^ 2),
      trunc := fun _ => 0 } := by
  have main : ∀ ops : RealOps ℝ, IsHypot ops.hyp →
      (get_pure_pursuit_goal ops ((0 : Int), (0 : Int)) (0 : ℝ)
        [((100 : Int), (0 : Int))] []).1 = some (60, 0) := by
    intro ops hh
    have h100 : ops.hyp (((100 : Int) - 0 : Int) : ℝ) (((0 : Int) - 0 : Int) : ℝ) = 100 := by
      push_cast
      exact hyp_eval hh _ _ 100 (by norm_num) (by norm_num)
    have hdist : nodeDist ops ((0 : Int), (0 : Int)) (100, 0) = 100 := by
      unfold nodeDist
      exact h100
    have hprune : prunePursuit ops ((0 : Int), (0 : Int))
        [((100 : Int), (0 : Int))] [] = ([(100, 0)], []) := by
      rw [prunePursuit, if_neg (by rw [hdist]; norm_num [NODE_ARRIVAL_DISTANCE])]
    have hsum : (pathSegs ops ((0 : Int), (0 : Int)) [((100 : Int), (0 : Int))]).sum = 100 := by
      rw [pathSegs, pathSegs, List.sum_cons, List.sum_nil, add_zero]
      exact h100
    have hwalk : pursuitWalk ops ((0 : Int), (0 : Int)) (0 : ℝ)
        [((100 : Int), (0 : Int))] = (60, 0) := by
      simp only [pursuitWalk]
      rw [h100]
      rw [if_pos (by norm_num [PURE_PURSUIT_LOOKAHEAD]), if_pos (by norm_num)]
      norm_num [PURE_PURSUIT_LOOKAHEAD]
    have hd := (pure_pursuit_goal_spec ops hh ((0 : Int), (0 : Int)) (0 : ℝ)
      [((100 : Int), (0 : Int))] []).2.2.2
      (by rw [hprune]; simp)
      (by rw [hprune]; rw [show (([((100 : Int), (0 : Int))], ([] : List Cell)) :
          List (Int × Int) × List Cell).1 = [((100 : Int), (0 : Int))] from rfl, hsum]
          norm_num [PURE_PURSUIT_LOOKAHEAD])
    rw [hd.1, hprune]
    rw [show (([((100 : Int), (0 : Int))], ([] : List Cell)) :
        List (Int × Int) × List Cell).1 = [((100 : Int), (0 : Int))] from rfl, hwalk]
  exact main _ isHypot_real_sqrt

end PurePursuit

/-! ## Shot simulation (`BotAI._simulate_shot`) -/

section ShotSim

variable {K : Type} [LinearOrderedField K]

/-- A float-valued rectangle as built by `pygame.Rect` from float
coordinates (which the C implementation truncates via `ops.trunc`). -/
structure KRect (K : Type) where
  x : K
  y : K
  w : K
  h : K

/-- The 6-by-6 bullet rectangle `pygame.Rect(x - 3, y - 3, 6, 6)`. -/
def mkShotRect (ops : RealOps K) (x y : K) : KRect K :=
  ⟨ops.trunc (x - 3), ops.trunc (y - 3), 6, 6⟩

/-- `colliderect` between the bullet rectangle and an integer wall
rectangle (strict overlap, as in pygame). -/
def KRect.collidePy (a : KRect K) (b : PyRect) : Bool :=
  decide (a.x < (b.right : K)) && decide (a.x + a.w > (b.left : K)) &&
    decide (a.y < (b.bottom : K)) && decide (a.y + a.h > (b.top : K))

/-- The velocity update of a wall bounce: the axis with the strictly
smaller overlap depth reflects (`dx *= -1` when `overlap_x < overlap_y`,
otherwise `dy *= -1`). -/
def bounceVelocity (ox oy dx dy : K) : K × K :=
  if ox < oy then (-dx, dy) else (dx, -dy)

/-- Mirror a velocity about a wall normal: `v - 2 (v . n) n`. -/
def reflectAboutNormal (n v : K × K) : K × K :=
  (v.1 - 2 * (v.1 * n.1 + v.2 * n.2) * n.1,
    v.2 - 2 * (v.1 * n.1 + v.2 * n.2) * n.2)

/-- The post-step checks of the `_simulate_shot` loop body (self-hit
beyond the safe-exit distance, target hit, out-of-bounds), performed on
the pre-bounce bullet rectangle but the post-bounce position. -/
def shotChecks (ops : RealOps K) (startPos : Int × Int) (targetRect : PyRect)
    (botRect : Option PyRect) (rect : KRect K) (x y : K)
    (cont : Bool → Bool) : Bool :=
  let selfHit :=
    match botRect with
    | none => false
    | some br =>
      decide (ops.hyp (x - (startPos.1 : K)) (y - (startPos.2 : K)) >
        ((TANK_SIZE : Int) : K) + 10) && rect.collidePy br
  if selfHit then false
  else if rect.collidePy targetRect then true
  else if ¬ (0 ≤ x ∧ x ≤ ((SCREEN_WIDTH : Int) : K) ∧
      0 ≤ y ∧ y ≤ ((SCREEN_HEIGHT : Int) : K)) then false
  else cont true

/-- The 300-step loop of `_simulate_shot`, with the step budget as
fuel; running out of steps is a miss. -/
def shotLoop (ops : RealOps K) (startPos : Int × Int) (targetRect : PyRect)
    (walls : List Wall) (botRect : Option PyRect) :
    Nat → K → K → K → K → Nat → Bool
  | 0, _, _, _, _, _ => false
  | n + 1, x, y, dx, dy, bounces =>
    let x1 := x + dx
    let y1 := y + dy
    let rect := mkShotRect ops x1 y1
    match walls.find? (fun w => rect.collidePy w.rect) with
    | some w =>
      let bounces1 := bounces + 1
      if bounces1 > MAX_BOUNCES then false
      else
        let ox := min (rect.x + rect.w) ((w.rect.right : K)) -
          max rect.x ((w.rect.left : K))
        let oy := min (rect.y + rect.h) ((w.rect.bottom : K)) -
          max rect.y ((w.rect.top : K))
        let v2 := bounceVelocity ox oy dx dy
        let x2 := if ox < oy then x1 + v2.1 * 2 else x1
        let y2 := if ox < oy then y1 else y1 + v2.2 * 2
        shotChecks ops startPos targetRect botRect rect x2 y2
          (fun _ => shotLoop ops startPos targetRect walls botRect n x2 y2 v2.1 v2.2 bounces1)
    | none =>
      shotChecks ops startPos targetRect botRect rect x1 y1
        (fun _ => shotLoop ops startPos targetRect walls botRect n x1 y1 dx dy bounces)

/-- `BotAI._simulate_shot`. -/
def simulate_shot (ops : RealOps K) (startPos : Int × Int) (angle : K)
    (target : TargetTank K) (walls : List Wall) (botRect : Option PyRect) : Bool :=
  let dx := ops.cos (radiansOf ops angle) * ((BULLET_SPEED : Int) : K)
  let dy := -(ops.sin (radiansOf ops angle)) * ((BULLET_SPEED : Int) : K)
  shotLoop ops startPos (target.rect.inflate (-5) (-5)) walls botRect
    300 ((startPos.1 : K)) ((startPos.2 : K)) dx dy 0

/-- C6: every wall bounce in the shot simulation reflects exactly the
velocity component perpendicular to the struck face — the axis with the
smaller overlap depth — and preserves the parallel component, so the
outgoing velocity is the incoming velocity mirrored about the struck
face's normal; and once the bounce counter would exceed the configured
maximum, a further wall collision makes the shot a miss. -/
theorem shot_bounce_law {K : Type} [LinearOrderedField K] (ops : RealOps K)
    (startPos : Int × Int) (targetRect : PyRect) (walls : List Wall)
    (botRect : Option PyRect) (ox oy dx dy x y : K) (bounces fuel : Nat) :
    (ox < oy →
      bounceVelocity ox oy dx dy = (-dx, dy) ∧
      bounceVelocity ox oy dx dy = reflectAboutNormal (1, 0) (dx, dy)) ∧
    (¬ ox < oy →
      bounceVelocity ox oy dx dy = (dx, -dy) ∧
      bounceVelocity ox oy dx dy = reflectAboutNormal (0, 1) (dx, dy)) ∧
    (∀ w : Wall,
      walls.find? (fun w =>
        (mkShotRect ops (x + dx) (y + dy)).collidePy w.rect) = some w →
      MAX_BOUNCES ≤ bounces →
      shotLoop ops startPos targetRect walls botRect (fuel + 1) x y dx dy bounces =
        false) := by
  refine ⟨?_, ?_, ?_⟩
  · intro h
    constructor
    · rw [bounceVelocity, if_pos h]
    · rw [bounceVelocity, if_pos h]
      unfold reflectAboutNormal
      simp only [Prod.mk.injEq]
      constructor <;> ring
  · intro h
    constructor
    · rw [bounceVelocity, if_neg h]
    · rw [bounceVelocity, if_neg h]
      unfold reflectAboutNormal
      simp only [Prod.mk.injEq]
      constructor <;> ring
  · intro w hfind hb
    rw [shotLoop]
    simp only
    rw [hfind]
    simp only
    rw [if_pos (by unfold MAX_BOUNCES at hb ⊢; omega)]

end ShotSim

/-- Concrete computable operations over `ℚ` used by witnesses whose
theorems hold for arbitrary operations. -/
def ratOps : RealOps ℚ :=
  { pi := 3, sqrt2 := 3 / 2, cos := fun _ => 1, sin := fun _ => 0,
    atan2 := fun _ _ => 0, hyp := fun x y => |x| + |y|, trunc := id }

/-- C6 witness: a bounce with smaller x-overlap on velocity (3,4) gives
(-3,4), the mirror about the x-normal; and with the bounce counter
already at the maximum, a further collision with a wall is a miss. -/
theorem shot_bounce_law_witness :
    bounceVelocity (1 : ℚ) 2 3 4 = (-3, 4) ∧
    bounceVelocity (1 : ℚ) 2 3 4 = reflectAboutNormal (1, 0) (3, 4) ∧
    shotLoop ratOps (100, 10) ⟨0, 0, 0, 0⟩ [⟨⟨0, 0, 600, 20⟩⟩] none
      1 100 10 0 0 3 = false := by
  refine ⟨?_, ?_, ?_⟩
  · exact ((shot_bounce_law ratOps (100, 10) ⟨0, 0, 0, 0⟩ [⟨⟨0, 0, 600, 20⟩⟩]
      none 1 2 3 4 100 10 3 0).1 (by norm_num)).1
  · exact ((shot_bounce_law ratOps (100, 10) ⟨0, 0, 0, 0⟩ [⟨⟨0, 0, 600, 20⟩⟩]
      none 1 2 3 4 100 10 3 0).1 (by norm_num)).2
  · refine (shot_bounce_law ratOps (100, 10) ⟨0, 0, 0, 0⟩ [⟨⟨0, 0, 600, 20⟩⟩]
      none 1 2 0 0 100 10 3 0).2.2 ⟨⟨0, 0, 600, 20⟩⟩ ?_ (by decide)
    have hc : (mkShotRect ratOps (100 + 0) (10 + 0)).collidePy
        (⟨0, 0, 600, 20⟩ : PyRect) = true := by
      norm_num [mkShotRect, ratOps, KRect.collidePy, PyRect.right, PyRect.left,
        PyRect.top, PyRect.bottom]
    rw [List.find?, hc]

/-! ## DWA local planner (`bot_ai.py`, class `DWAPlanner`) -/

section DWA

variable {K : Type} [LinearOrderedField K]

/-- The static motion-primitive catalog of
`DWAPlanner._generate_motion_primitives`: lists of
`(action, duration-in-frames)` pairs, in source order. -/
def motionPrimitives : List (List (Nat × Nat)) :=
  [[(1, 6)],
   [(3, 1), (1, 2), (3, 1), (1, 2)],
   [(4, 1), (1, 2), (4, 1), (1, 2)],
   [(3, 2), (1, 2), (3, 2), (1, 1)],
   [(4, 2), (1, 2), (4, 2), (1, 1)],
   [(3, 3), (1, 4)],
   [(4, 3), (1, 4)],
   [(3, 5), (1, 2)],
   [(4, 5), (1, 2)],
   [(3, 6)],
   [(4, 6)],
   [(2, 4)],
   [(2, 2), (3, 3)],
   [(2, 2), (4, 3)],
   [(0, 4)]]

/-- `DWAPlanner._check_collision`: tank-sized rectangle against the
walls, plus arena-bound checks on the raw position. -/
def dwaCheckCollision (ops : RealOps K) (pos : K × K) (walls : List Wall) : Bool :=
  let halfSize : Int := TANK_SIZE / 2
  let rect : KRect K := ⟨ops.trunc (pos.1 - (halfSize : K)), ops.trunc (pos.2 - (halfSize : K)),
    ((TANK_SIZE : Int) : K), ((TANK_SIZE : Int) : K)⟩
  walls.any (fun w => rect.collidePy w.rect) ||
    decide (pos.1 < (halfSize : K)) ||
    decide (pos.1 > ((SCREEN_WIDTH : Int) : K) - (halfSize : K)) ||
    decide (pos.2 < (halfSize : K)) ||
    decide (pos.2 > ((SCREEN_HEIGHT : Int) : K) - (halfSize : K))

/-- One frame of `DWAPlanner.simulate_motion`: apply the action, reject
the position step on collision (the collision flag latches), append the
current position to the trajectory. -/
def motionStep (ops : RealOps K) (walls : List Wall)
    (st : (K × K) × K × List (K × K) × Bool) (action : Nat) :
    (K × K) × K × List (K × K) × Bool :=
  let x := st.1.1
  let y := st.1.2
  let angle := st.2.1
  let traj := st.2.2.1
  let coll := st.2.2.2
  let next : (K × K) × K :=
    if action = 1 then
      ((x + ops.cos (radiansOf ops angle) * ((TANK_SPEED : Int) : K),
        y + -(ops.sin (radiansOf ops angle)) * ((TANK_SPEED : Int) : K)), angle)
    else if action = 2 then
      ((x - ops.cos (radiansOf ops angle) * ((TANK_SPEED : Int) : K),
        y - -(ops.sin (radiansOf ops angle)) * ((TANK_SPEED : Int) : K)), angle)
    else if action = 3 then ((x, y), angle + ((ROTATION_SPEED : Int) : K))
    else if action = 4 then ((x, y), angle - ((ROTATION_SPEED : Int) : K))
    else ((x, y), angle)
  if dwaCheckCollision ops next.1 walls then
    ((x, y), next.2, traj ++ [(x, y)], true)
  else
    (next.1, next.2, traj ++ [next.1], coll)

/-- `DWAPlanner.simulate_motion`: run the expanded frame sequence of a
primitive, then normalize the final angle. -/
def simulate_motion (ops : RealOps K) (pos : K × K) (angle : K)
    (primitive : List (Nat × Nat)) (walls : List Wall) :
    (K × K) × K × List (K × K) × Bool :=
  let frames := primitive.flatMap (fun af => List.replicate af.2 af.1)
  let st := frames.foldl (motionStep ops walls) (pos, angle, [pos], false)
  (st.1, normalizeAngle st.2.1, st.2.2.1, st.2.2.2)

/-- Minimum of a list of values, `none` playing `float('inf')` for the
empty list. -/
def listMin : List K → Option K
  | [] => none
  | d :: rest => some (rest.foldl min d)

/-- `DWAPlanner._get_min_obstacle_distance`: smallest distance from any
trajectory point to any wall rectangle (point clamped to the
rectangle). -/
def minObstacleDistance (ops : RealOps K) (traj : List (K × K))
    (walls : List Wall) : Option K :=
  listMin (traj.flatMap fun pt =>
    walls.map fun w =>
      let cx := max ((w.rect.left : K)) (min pt.1 ((w.rect.right : K)))
      let cy := max ((w.rect.top : K)) (min pt.2 ((w.rect.bottom : K)))
      ops.hyp (pt.1 - cx) (pt.2 - cy))

/-- `DWAPlanner._evaluate_bullet_risk`: for each hostile bullet, step it
along its velocity while scanning the trajectory points, accumulating
`(DODGE_RADIUS - dist) * 5` for every point within the dodge radius. -/
def evaluateBulletRisk (ops : RealOps K) (traj : List (K × K))
    (bullets : List (Bullet K)) (botId : Nat) : K :=
  bullets.foldl
    (fun risk b =>
      if b.owner_id = botId then risk
      else
        (traj.foldl
          (fun (acc : K × K × K) pt =>
            let dist := ops.hyp (pt.1 - acc.1) (pt.2 - acc.2.1)
            let acc2 :=
              if dist < ((DODGE_RADIUS : Int) : K) then
                acc.2.2 + (((DODGE_RADIUS : Int) : K) - dist) * 5
              else acc.2.2
            (acc.1 + b.dx, acc.2.1 + b.dy, acc2))
          (((b.rect.centerx : K)), ((b.rect.centery : K)), risk)).2.2)
    0

/-- `DWAPlanner.evaluate_trajectory`: weighted cost terms (collision
penalty, heading error, path adherence over the first five path points,
obstacle clearance below `TANK_SIZE * 1.5`, bullet risk, distance to
goal).  The call sites always pass a `bot_id`, so the Python guard
`bullets and bot_id is not None` reduces to `bullets` being nonempty. -/
def evaluate_trajectory (ops : RealOps K) (endPos : K × K) (endAngle : K)
    (traj : List (K × K)) (collision : Bool) (goalPos : Option (K × K))
    (pathPoints : List (Int × Int)) (walls : List Wall)
    (bullets : List (Bullet K)) (botId : Nat) : K :=
  let cost1 : K := if collision then 1000 else 0
  let cost2 : K :=
    match goalPos with
    | none => 0
    | some g =>
      let targetAngle := degreesOf ops (ops.atan2 (-(g.2 - endPos.2)) (g.1 - endPos.1))
      |normalizeAngle (targetAngle - endAngle)| * 1
  let cost3 : K :=
    match listMin ((pathPoints.take 5).map fun p =>
        ops.hyp ((p.1 : K) - endPos.1) ((p.2 : K) - endPos.2)) with
    | none => 0
    | some m => if pathPoints = [] then 0 else (3 / 2) * m
  let cost4 : K :=
    match minObstacleDistance ops traj walls with
    | none => 0
    | some m =>
      if m < ((TANK_SIZE : Int) : K) * (3 / 2) then
        2 * (((TANK_SIZE : Int) : K) * (3 / 2) - m)
      else 0
  let cost5 : K :=
    if bullets.isEmpty then 0 else evaluateBulletRisk ops traj bullets botId
  let cost6 : K :=
    match goalPos with
    | none => 0
    | some g => (1 / 5) * ops.hyp (g.1 - endPos.1) (g.2 - endPos.2)
  cost1 + cost2 + cost3 + cost4 + cost5 + cost6

/-- `DWAPlanner.select_best_action`: evaluate every primitive, keep the
first index attaining the strictly smallest cost (`float('inf')` start
modelled by `none`), return the selected primitive's first action. -/
def select_best_action (ops : RealOps K) (botPos : K × K) (botAngle : K)
    (goalPos : Option (K × K)) (pathPoints : List (Int × Int))
    (walls : List Wall) (bullets : List (Bullet K)) (botId : Nat) : Nat :=
  let best := (motionPrimitives.foldl
    (fun (acc : Option K × Nat × Nat) prim =>
      let r := simulate_motion ops botPos botAngle prim walls
      let cost := evaluate_trajectory ops r.1 r.2.1 r.2.2.1 r.2.2.2 goalPos
        pathPoints walls bullets botId
      let better :=
        match acc.1 with
        | none => true
        | some c => decide (cost < c)
      if better then (some cost, acc.2.2, acc.2.2 + 1) else (acc.1, acc.2.1, acc.2.2 + 1))
    (none, 0, 0)).2.1
  (((motionPrimitives.getD best []).headD (0, 0)).1)

end DWA

/-! ## BotAI decision pipeline (`bot_ai.py`, class `BotAI`) -/

section BotAIDef

variable {K : Type} [LinearOrderedField K]

/-- `BotAI._check_collision`: a 20-by-20 probe rectangle against the
walls only (no arena-bound check). -/
def botCheckCollision (ops : RealOps K) (pos : K × K) (walls : List Wall) : Bool :=
  let r : KRect K := ⟨ops.trunc (pos.1 - 10), ops.trunc (pos.2 - 10), 20, 20⟩
  walls.any fun w => r.collidePy w.rect

/-- The radial obstacle scan of `_calculate_unstuck_action`: the
15-degree directions (0, 15, ..., 345) whose probe point at distance
`TANK_SIZE * 2.5` collides with a wall. -/
def wallDirections (ops : RealOps K) (bot : BotTank K) (walls : List Wall) : List Nat :=
  (List.range 24).map (fun i => i * 15) |>.filter fun a =>
    botCheckCollision ops
      ((bot.rect.centerx : K) + ops.cos (radiansOf ops ((a : Nat) : K)) *
          (((TANK_SIZE : Int) : K) * (5 / 2)),
        (bot.rect.centery : K) - ops.sin (radiansOf ops ((a : Nat) : K)) *
          (((TANK_SIZE : Int) : K) * (5 / 2)))
      walls

/-- Circular distance between two scan angles (degrees). -/
def circularDiff (wa sa : Nat) : Nat :=
  min ((wa : Int) - (sa : Int)).natAbs (360 - ((wa : Int) - (sa : Int)).natAbs)

/-- `BotAI._calculate_unstuck_action`: radial scan, densest-sector
search, escape heading opposite to it; with no obstacle detected the
action is drawn from the PRNG (modelled by the explicit `rng` input
indexing `[1, 2, 3, 4]`).  Returns `(action, duration)`. -/
def calculate_unstuck_action (ops : RealOps K) (bot : BotTank K)
    (walls : List Wall) (rng : Nat) : Nat × Nat :=
  let dirs := wallDirections ops bot walls
  if dirs.isEmpty then ([1, 2, 3, 4].getD (rng % 4) 0, 20)
  else
    let best := ((List.range 24).map (fun i => i * 15)).foldl
      (fun (acc : Nat × Nat) sa =>
        let density := (dirs.filter fun wa => circularDiff wa sa ≤ 30).length
        if density > acc.1 then (density, sa) else acc)
      (0, 0)
    let escape := (best.2 + 180) % 360
    let angleDiff := degreesOf ops (normalizeAngleRad ops
      (radiansOf ops ((escape : Nat) : K) - radiansOf ops bot.angle))
    if |angleDiff| > 45 then (if angleDiff > 0 then 3 else 4, 8)
    else if |angleDiff| > 15 then (if angleDiff > 0 then 3 else 4, 12)
    else (1, 35)

/-- `BotAI._calculate_dodge_action_dwa`: goal point perpendicular to
the bullet velocity (the safer side, or backwards when both sides are
blocked), then the DWA planner. -/
def calculate_dodge_action_dwa (ops : RealOps K) (bot : BotTank K)
    (bullet : Bullet K) (walls : List Wall) (bullets : List (Bullet K)) : Nat :=
  let bx : K := (bot.rect.centerx : K)
  let by0 : K := (bot.rect.centery : K)
  let bulletAngle := ops.atan2 (-bullet.dy) bullet.dx
  let dodgeAngle1 := bulletAngle + ops.pi / 2
  let dodgeAngle2 := bulletAngle - ops.pi / 2
  let dodgeDist : K := ((TANK_SIZE : Int) : K) * 3
  let pos1 := (bx + ops.cos dodgeAngle1 * dodgeDist, by0 - ops.sin dodgeAngle1 * dodgeDist)
  let pos2 := (bx + ops.cos dodgeAngle2 * dodgeDist, by0 - ops.sin dodgeAngle2 * dodgeDist)
  let safe1 := !(botCheckCollision ops pos1 walls)
  let safe2 := !(botCheckCollision ops pos2 walls)
  let goalPos :=
    if safe1 && !safe2 then pos1
    else if safe2 && !safe1 then pos2
    else if safe1 && safe2 then
      let d1 := |normalizeAngle (degreesOf ops dodgeAngle1 - bot.angle)|
      let d2 := |normalizeAngle (degreesOf ops dodgeAngle2 - bot.angle)|
      if d1 < d2 then pos1 else pos2
    else
      (bx - ops.cos (radiansOf ops bot.angle) * dodgeDist,
        by0 + ops.sin (radiansOf ops bot.angle) * dodgeDist)
  select_best_action ops (bx, by0) bot.angle (some goalPos) [] walls bullets bot.id

/-- `BotAI._calculate_combat_action`: fire on a simulated hit with a
ready cooldown, otherwise aim at the velocity-led target point when in
vision range with line of sight; `none` defers to chasing. -/
def calculate_combat_action (ops : RealOps K) (bot : BotTank K)
    (target : TargetTank K) (walls : List Wall) : Option Nat :=
  let botPos := bot.rect.center
  let targetPos := target.rect.center
  let dist := ops.hyp ((botPos.1 - targetPos.1 : Int) : K) ((botPos.2 - targetPos.2 : Int) : K)
  if bot.cooldown = 0 ∧
      simulate_shot ops botPos bot.angle target walls (some bot.rect) = true then
    some 5
  else if dist < ((VISION_DISTANCE : Int) : K) ∧
      raycast_hit_wall botPos targetPos walls = false then
    let leadX := (targetPos.1 : K) + target.vx * (dist / ((BULLET_SPEED : Int) : K))
    let leadY := (targetPos.2 : K) + target.vy * (dist / ((BULLET_SPEED : Int) : K))
    let targetAngle := degreesOf ops
      (ops.atan2 (-(leadY - (botPos.2 : K))) (leadX - (botPos.1 : K)))
    let diff := normalizeAngle (targetAngle - bot.angle)
    if |diff| < ((ANGLE_TOLERANCE : Int) : K) then some 0
    else if diff > 0 then some 3
    else some 4
  else none

/-- The persistent per-bot memory mutated by `decide_action` (the
unused `last_pos_time`, `path_update_counter` and debug-log fields are
omitted: no decision reads them). -/
structure AgentState where
  current_path : List Cell
  current_path_pixels : List (Int × Int)
  last_pos : Int × Int
  stuck_counter : Nat
  unstuck_action : Option Nat
  unstuck_timer : Nat
deriving DecidableEq, Repr

/-- Fuel for the A* loop inside the chase planner; ample for every run
on the 30-by-30 grid. -/
def ASTAR_FUEL : Nat := 1000000

/-- `BotAI._calculate_chase_action_astar_dwa` (together with
`_update_global_path`): refresh the global A* path every 15 steps or
when empty, take the pure-pursuit look-ahead goal (falling back to the
raw target position), and steer by angle thresholds, delegating middle
corrections to the DWA planner.  Returns the action and the updated
path caches. -/
def calculate_chase_action (ops : RealOps K) (gridMap : GridMap)
    (bot : BotTank K) (target : TargetTank K) (walls : List Wall)
    (steps : Nat) (bullets : List (Bullet K)) (st : AgentState) :
    Nat × List (Int × Int) × List Cell :=
  let botPos := bot.rect.center
  let targetPos := target.rect.center
  let path0 :=
    if steps % 15 = 0 ∨ st.current_path = [] then
      astar_find_path ops.sqrt2 gridMap ASTAR_FUEL
        (pixel_to_grid botPos.1 botPos.2) (pixel_to_grid targetPos.1 targetPos.2)
    else st.current_path
  let pixels0 :=
    if steps % 15 = 0 ∨ st.current_path = [] then
      path0.map (fun c => grid_to_pixel c.1 c.2)
    else st.current_path_pixels
  let pursuit := get_pure_pursuit_goal ops botPos bot.angle pixels0 path0
  let goalPos : K × K :=
    match pursuit.1 with
    | some g => g
    | none => ((targetPos.1 : K), (targetPos.2 : K))
  let targetAngle := degreesOf ops
    (ops.atan2 (-(goalPos.2 - (botPos.2 : K))) (goalPos.1 - (botPos.1 : K)))
  let angleDiff := normalizeAngle (targetAngle - bot.angle)
  let action :=
    if |angleDiff| < ((ANGLE_TOLERANCE_TURN : Int) : K) then 1
    else if |angleDiff| < ((SMOOTH_TURN_THRESHOLD : Int) : K) then
      select_best_action ops ((botPos.1 : K), (botPos.2 : K)) bot.angle
        (some goalPos) pursuit.2.1 walls bullets bot.id
    else if angleDiff > 0 then 3 else 4
  (action, pursuit.2.1, pursuit.2.2)

/-- The stuck-detector update at the top of `decide_action` (runs every
`STUCK_CHECK_FRAMES` steps): bump or reset the stuck counter by the
displacement since the last sample. -/
def stuckUpdate (ops : RealOps K) (bot : BotTank K) (steps : Nat)
    (st : AgentState) : AgentState :=
  if steps % STUCK_CHECK_FRAMES = 0 then
    let botPos := bot.rect.center
    let distMoved := ops.hyp ((botPos.1 - st.last_pos.1 : Int) : K)
      ((botPos.2 - st.last_pos.2 : Int) : K)
    { st with
      stuck_counter :=
        if distMoved < ((STUCK_THRESHOLD : Int) : K) then st.stuck_counter + 1 else 0,
      last_pos := botPos }
  else st

/-- `BotAI.decide_action`: the per-tick decision pipeline.  The PRNG
consumed by `random.choice` in the recovery planner is modelled by the
explicit `rng` input.  Returns the chosen action (`none` models Python
returning a stored `None` recovery action) and the updated
`AgentState`. -/
def decide_action (ops : RealOps K) (gridMap : GridMap) (bot : BotTank K)
    (target : TargetTank K) (walls : List Wall) (steps : Nat)
    (bullets : List (Bullet K)) (canAttack : Bool) (st : AgentState)
    (rng : Nat) : Option Nat × AgentState :=
  let st1 := stuckUpdate ops bot steps st
  if st1.unstuck_timer > 0 then
    (st1.unstuck_action, { st1 with unstuck_timer := st1.unstuck_timer - 1 })
  else if st1.stuck_counter ≥ 2 then
    let r := calculate_unstuck_action ops bot walls rng
    (some r.1,
      { st1 with
        stuck_counter := 0
        unstuck_action := some r.1
        unstuck_timer := r.2 })
  else
    match getMostDangerousBullet ops bot bullets walls with
    | some b => (some (calculate_dodge_action_dwa ops bot b walls bullets), st1)
    | none =>
      match (if canAttack then calculate_combat_action ops bot target walls else none) with
      | some a => (some a, st1)
      | none =>
        let r := calculate_chase_action ops gridMap bot target walls steps bullets st1
        (some r.1, { st1 with current_path := r.2.2, current_path_pixels := r.2.1 })

end BotAIDef

/-- C2: `decide_action` applies the fixed priority
Recovery > Dodge > Combat > Chase.  While the recovery timer is
positive it decrements the timer and returns the stored recovery action
regardless of threats or targets; otherwise a detected stuck condition
(counter at/above the threshold 2) starts recovery and returns its
action; otherwise an assessed threat yields the dodge action; otherwise
when attacking is allowed and a combat action exists that action is
returned; otherwise the chase action is returned. -/
theorem decide_action_priority {K : Type} [LinearOrderedField K]
    (ops : RealOps K) (gridMap : GridMap) (bot : BotTank K)
    (target : TargetTank K) (walls : List Wall) (steps : Nat)
    (bullets : List (Bullet K)) (canAttack : Bool) (st : AgentState)
    (rng : Nat) :
    (0 < (stuckUpdate ops bot steps st).unstuck_timer →
      decide_action ops gridMap bot target walls steps bullets canAttack st rng =
        ((stuckUpdate ops bot steps st).unstuck_action,
          { stuckUpdate ops bot steps st with
            unstuck_timer := (stuckUpdate ops bot steps st).unstuck_timer - 1 })) ∧
    ((stuckUpdate ops bot steps st).unstuck_timer = 0 →
      2 ≤ (stuckUpdate ops bot steps st).stuck_counter →
      decide_action ops gridMap bot target walls steps bullets canAttack st rng =
        (some (calculate_unstuck_action ops bot walls rng).1,
          { stuckUpdate ops bot steps st with
            stuck_counter := 0
            unstuck_action := some (calculate_unstuck_action ops bot walls rng).1
            unstuck_timer := (calculate_unstuck_action ops bot walls rng).2 })) ∧
    (∀ b : Bullet K, (stuckUpdate ops bot steps st).unstuck_timer = 0 →
      (stuckUpdate ops bot steps st).stuck_counter < 2 →
      getMostDangerousBullet ops bot bullets walls = some b →
      decide_action ops gridMap bot target walls steps bullets canAttack st rng =
        (some (calculate_dodge_action_dwa ops bot b walls bullets),
          stuckUpdate ops bot steps st)) ∧
    (∀ a : Nat, (stuckUpdate ops bot steps st).unstuck_timer = 0 →
      (stuckUpdate ops bot steps st).stuck_counter < 2 →
      getMostDangerousBullet ops bot bullets walls = none →
      canAttack = true →
      calculate_combat_action ops bot target walls = some a →
      decide_action ops gridMap bot target walls steps bullets canAttack st rng =
        (some a, stuckUpdate ops bot steps st)) ∧
    ((stuckUpdate ops bot steps st).unstuck_timer = 0 →
      (stuckUpdate ops bot steps st).stuck_counter < 2 →
      getMostDangerousBullet ops bot bullets walls = none →
      (canAttack = false ∨ calculate_combat_action ops bot target walls = none) →
      decide_action ops gridMap bot target walls steps bullets canAttack st rng =
        (some (calculate_chase_action ops gridMap bot target walls steps bullets
            (stuckUpdate ops bot steps st)).1,
          { stuckUpdate ops bot steps st with
            current_path := (calculate_chase_action ops gridMap bot target walls
              steps bullets (stuckUpdate ops bot steps st)).2.2
            current_path_pixels := (calculate_chase_action ops gridMap bot target
              walls steps bullets (stuckUpdate ops bot steps st)).2.1 })) := by
  refine ⟨?_, ?_, ?_, ?_, ?_⟩
  · intro h
    unfold decide_action
    rw [if_pos h]
  · intro h1 h2
    unfold decide_action
    rw [if_neg (by omega), if_pos h2]
  · intro b h1 h2 h3
    unfold decide_action
    rw [if_neg (by omega), if_neg (by omega), h3]
  · intro a h1 h2 h3 hca h5
    unfold decide_action
    rw [if_neg (by omega), if_neg (by omega), h3, hca, if_pos rfl, h5]
  · intro h1 h2 h3 h4
    unfold decide_action
    rw [if_neg (by omega), if_neg (by omega), h3]
    rcases h4 with h4 | h4
    · rw [h4, if_neg (by simp)]
    · by_cases hca : canAttack
      · rw [hca, if_pos rfl, h4]
      · rw [Bool.not_eq_true] at hca
        rw [hca, if_neg (by simp)]

/-- A fully open 30-by-30 grid used by decision-pipeline witnesses. -/
def openGrid : GridMap :=
  { grid_cols := 30, grid_rows := 30, grid_map := fun _ _ => 0 }

/-- C2 witness: with an active recovery timer of 5 the pipeline returns
the stored action 2 and decrements the timer, with every other input
present (target, attack allowed). -/
theorem decide_action_priority_witness :
    decide_action ratOps openGrid (witBot ℚ) ⟨⟨300, 300, 30, 30⟩, 0, 0⟩ [] 1 []
      true ⟨[], [], (0, 0), 0, some 2, 5⟩ 0 =
    (some 2, ⟨[], [], (0, 0), 0, some 2, 4⟩) := by
  have h := (decide_action_priority ratOps openGrid (witBot ℚ)
    ⟨⟨300, 300, 30, 30⟩, 0, 0⟩ [] 1 [] true ⟨[], [], (0, 0), 0, some 2, 5⟩ 0).1
    (by decide)
  rw [h]
  decide

/-- The recovery planner ignores the PRNG whenever its radial scan
found at least one obstacle direction. -/
theorem calculate_unstuck_action_rng_free {K : Type} [LinearOrderedField K]
    (ops : RealOps K) (bot : BotTank K) (walls : List Wall)
    (h : wallDirections ops bot walls ≠ []) (rng rng' : Nat) :
    calculate_unstuck_action ops bot walls rng =
      calculate_unstuck_action ops bot walls rng' := by
  unfold calculate_unstuck_action
  have he : (wallDirections ops bot walls).isEmpty = false := by
    simp [List.isEmpty_iff, h]
  simp only [he]
  simp

/-- C1 (amended): the decision pipeline is a pure function of the input
snapshot, the persistent `AgentState` and the PRNG state; its output is
independent of the PRNG except when recovery is triggered while the
radial obstacle scan finds no obstacle, where the escape action is
drawn from the PRNG. -/
theorem decide_action_rng_independent {K : Type} [LinearOrderedField K]
    (ops : RealOps K) (gridMap : GridMap) (bot : BotTank K)
    (target : TargetTank K) (walls : List Wall) (steps : Nat)
    (bullets : List (Bullet K)) (canAttack : Bool) (st : AgentState)
    (rng rng' : Nat)
    (h : 0 < (stuckUpdate ops bot steps st).unstuck_timer ∨
      (stuckUpdate ops bot steps st).stuck_counter < 2 ∨
      wallDirections ops bot walls ≠ []) :
    decide_action ops gridMap bot target walls steps bullets canAttack st rng =
      decide_action ops gridMap bot target walls steps bullets canAttack st rng' := by
  unfold decide_action
  by_cases h1 : 0 < (stuckUpdate ops bot steps st).unstuck_timer
  · rw [if_pos h1, if_pos h1]
  · rw [if_neg h1, if_neg h1]
    by_cases h2 : 2 ≤ (stuckUpdate ops bot steps st).stuck_counter
    · rw [if_pos h2, if_pos h2]
      have hdirs : wallDirections ops bot walls ≠ [] := by
        rcases h with h | h | h
        · exact absurd h h1
        · omega
        · exact h
      rw [calculate_unstuck_action_rng_free ops bot walls hdirs rng rng']
    · rw [if_neg h2, if_neg h2]

/-- C1 witness: with an active recovery timer the returned action does
not depend on the PRNG input. -/
theorem decide_action_rng_independent_witness :
    decide_action ratOps openGrid (witBot ℚ) ⟨⟨300, 300, 30, 30⟩, 0, 0⟩ [] 1 []
      true ⟨[], [], (0, 0), 0, some 0, 1⟩ 3 =
    decide_action ratOps openGrid (witBot ℚ) ⟨⟨300, 300, 30, 30⟩, 0, 0⟩ [] 1 []
      true ⟨[], [], (0, 0), 0, some 0, 1⟩ 7 :=
  decide_action_rng_independent ratOps openGrid (witBot ℚ)
    ⟨⟨300, 300, 30, 30⟩, 0, 0⟩ [] 1 [] true ⟨[], [], (0, 0), 0, some 0, 1⟩ 3 7
    (Or.inl (by decide))

/-- C1 counterexample: two invocations with identical snapshots (empty
arena, no bullets) and identical `AgentState` (stuck counter at the
threshold, no recovery active) return different actions for different
PRNG states: the recovery planner's no-obstacle branch calls
`random.choice`, so the pipeline is not a deterministic function of the
snapshot and `AgentState` alone. -/
theorem decide_action_rng_counterexample :
    decide_action ratOps openGrid (witBot ℚ) ⟨⟨300, 300, 30, 30⟩, 0, 0⟩ [] 1 []
      true ⟨[], [], (0, 0), 2, none, 0⟩ 0 ≠
    decide_action ratOps openGrid (witBot ℚ) ⟨⟨300, 300, 30, 30⟩, 0, 0⟩ [] 1 []
      true ⟨[], [], (0, 0), 2, none, 0⟩ 2 := by
  decide

/-! ## C8: planner reachability, soundness and the start-goal corner case -/

/-- One planner step: `b` is among the walkable neighbors of `a`
returned by `GridMap.get_neighbors`. -/
def StepAdj (g : GridMap) (a b : Cell) : Prop := b ∈ g.get_neighbors a.1 a.2

/-- `b` can be reached from `a` by a chain of `get_neighbors` steps. -/
def GridReach (g : GridMap) : Cell → Cell → Prop := Relation.ReflTransGen (StepAdj g)

/-- Number of cells of the grid. -/
def cellCount (g : GridMap) : Nat := g.grid_cols.toNat * g.grid_rows.toNat

/-- Fuel sufficient for the BFS `while queue` loop to drain its queue. -/
def bfsFuelBound (g : GridMap) : Nat := cellCount g + 2

/-- Fuel sufficient for the A* `while open_set` loop to drain its heap. -/
def astarFuelBound (g : GridMap) : Nat :=
  (cellCount g + 2) * ((cellCount g + 1) ^ 2 + 2)

/-- A fully walkable 2-by-1 grid. -/
def pairGrid : GridMap := ⟨2, 1, fun _ _ => 0⟩

/-- A walkable cell lies inside the grid bounds. -/
theorem walkable_bounds {g : GridMap} {x y : Int}
    (h : g.is_walkable x y = true) :
    0 ≤ x ∧ x < g.grid_cols ∧ 0 ≤ y ∧ y < g.grid_rows := by
  simp only [GridMap.is_walkable, Bool.and_eq_true, decide_eq_true_eq] at h
  tauto

/-- Cells returned by `get_neighbors` are walkable. -/
theorem mem_get_neighbors_walkable {g : GridMap} {x y : Int} {b : Cell}
    (h : b ∈ g.get_neighbors x y) : g.is_walkable b.1 b.2 = true := by
  simp only [GridMap.get_neighbors, List.mem_filterMap] at h
  obtain ⟨d, _, hd⟩ := h
  by_cases hw : g.is_walkable (x + d.1) (y + d.2) = true
  · rw [if_pos hw] at hd
    split at hd
    · split at hd
      · exact absurd hd (by simp)
      · cases hd; exact hw
    · cases hd; exact hw
  · rw [if_neg hw] at hd
    exact absurd hd (by simp)

/-- A predicate holding at a cell and preserved along `get_neighbors`
steps holds at every cell reachable from it. -/
theorem reach_closed {g : GridMap} (P : Cell → Prop) {a b : Cell}
    (hreach : GridReach g a b) (ha : P a)
    (hcl : ∀ k, P k → ∀ nbr ∈ g.get_neighbors k.1 k.2, P nbr) : P b := by
  induction hreach with
  | refl => exact ha
  | tail _ hbc ih => exact hcl _ ih _ hbc

/-- Looking a key up past a cons with a different key. -/
theorem lookup_cons_ne {β : Type} (l : List (Cell × β)) {k a : Cell} (b : β)
    (h : k ≠ a) : ((a, b) :: l).lookup k = l.lookup k := by
  have hb : (k == a) = false := beq_eq_false_iff_ne.mpr h
  simp [List.lookup_cons, hb]

/-- An association list with distinct keys that are all the start cell
or walkable cells of `g` has at most one entry per grid cell plus one. -/
theorem keys_card_le {β : Type} (g : GridMap) (start : Cell)
    (cf : List (Cell × β))
    (hnd : (cf.map Prod.fst).Nodup)
    (hmem : ∀ k, (cf.lookup k).isSome → k = start ∨ g.is_walkable k.1 k.2 = true) :
    cf.length ≤ cellCount g + 1 := by
  have hlen : cf.length = (cf.map Prod.fst).length := (List.length_map _ _).symm
  have hsub : (cf.map Prod.fst).toFinset ⊆
      insert start ((Finset.Icc (0 : ℤ) (g.grid_cols - 1)) ×ˢ
        (Finset.Icc (0 : ℤ) (g.grid_rows - 1))) := by
    intro k hk
    rw [List.mem_toFinset] at hk
    have hks : (cf.lookup k).isSome := by
      rw [List.lookup_isSome_iff]
      obtain ⟨p, hp, hpk⟩ := List.mem_map.1 hk
      exact ⟨p, hp, by simp [hpk]⟩
    rcases hmem k hks with h | h
    · exact h ▸ Finset.mem_insert_self _ _
    · apply Finset.mem_insert_of_mem
      have hb := walkable_bounds h
      rw [Finset.mem_product, Finset.mem_Icc, Finset.mem_Icc]
      omega
  have hc1 : (cf.map Prod.fst).toFinset.card = (cf.map Prod.fst).length :=
    List.toFinset_card_of_nodup hnd
  have hc2 := Finset.card_le_card hsub
  have hc3 := Finset.card_insert_le start
    ((Finset.Icc (0 : ℤ) (g.grid_cols - 1)) ×ˢ (Finset.Icc (0 : ℤ) (g.grid_rows - 1)))
  rw [Finset.card_product, Int.card_Icc, Int.card_Icc] at hc3
  have hcc : cellCount g = (g.grid_cols - 1 + 1 - 0).toNat * (g.grid_rows - 1 + 1 - 0).toNat := by
    simp [cellCount]
  omega

/-- The queue-expansion step of the BFS loop body (the `foldl` function
in `bfsLoop` written as a named function). -/
def bfsPush (cur : Cell) (acc : List Cell × List (Cell × Option Cell))
    (nbr : Cell) : List Cell × List (Cell × Option Cell) :=
  match acc.2.lookup nbr with
  | some _ => acc
  | none => (acc.1 ++ [nbr], (nbr, some cur) :: acc.2)

/-- Unfolding equation for one non-terminating iteration of `bfsLoop`. -/
theorem bfsLoop_cons (g : GridMap) (endG : Cell) (fuel : Nat) (cur : Cell)
    (rest : List Cell) (cf : List (Cell × Option Cell)) (h : cur ≠ endG) :
    bfsLoop g endG (fuel + 1) (cur :: rest) cf =
      bfsLoop g endG fuel
        ((g.get_neighbors cur.1 cur.2).foldl (bfsPush cur) (rest, cf)).1
        ((g.get_neighbors cur.1 cur.2).foldl (bfsPush cur) (rest, cf)).2 := by
  simp only [bfsLoop, if_neg h]
  rfl

/-- Effect of folding `bfsPush` over a neighbor list: fresh neighbors
are appended to the queue and inserted with parent `cur`; keys stay
distinct, old entries are untouched, and the queue grows in lockstep
with the map. -/
theorem bfsPush_fold_spec (cur : Cell) :
    ∀ (nbrs q0 : List Cell) (cf0 : List (Cell × Option Cell)),
      (cf0.map Prod.fst).Nodup → q0.Nodup →
      (∀ k ∈ q0, (cf0.lookup k).isSome) →
      ∀ res, res = nbrs.foldl (bfsPush cur) (q0, cf0) →
      ((res.2.map Prod.fst).Nodup ∧ res.1.Nodup ∧
       (∀ k v, cf0.lookup k = some v → res.2.lookup k = some v) ∧
       (∀ k v, res.2.lookup k = some v → cf0.lookup k = some v ∨ v = some cur) ∧
       (∀ k ∈ res.1, (res.2.lookup k).isSome) ∧
       (∀ k, (res.2.lookup k).isSome → (cf0.lookup k).isSome ∨ k ∈ nbrs) ∧
       (∀ n ∈ nbrs, (res.2.lookup n).isSome) ∧
       (∀ k, (res.2.lookup k).isSome → cf0.lookup k = none → k ∈ res.1) ∧
       (∃ app, res.1 = q0 ++ app) ∧
       res.1.length + cf0.length = q0.length + res.2.length) := by
  intro nbrs
  induction nbrs with
  | nil =>
    intro q0 cf0 h1 h2 h3 res hres
    subst hres
    refine ⟨h1, h2, fun k v h => h, fun k v h => Or.inl h, h3, fun k h => Or.inl h,
      fun n h => absurd h (List.not_mem_nil n), ?_, ⟨[], by simp⟩, by simp⟩
    intro k hk hnone
    rw [List.foldl_nil] at hk
    rw [hnone] at hk
    exact absurd hk (by simp)
  | cons n rest2 ih =>
    intro q0 cf0 h1 h2 h3 res hres
    rw [List.foldl_cons] at hres
    rcases hlook : cf0.lookup n with _ | w
    · -- fresh key: push
      have hstep : bfsPush cur (q0, cf0) n = (q0 ++ [n], (n, some cur) :: cf0) := by
        simp [bfsPush, hlook]
      rw [hstep] at hres
      have hnotk : n ∉ cf0.map Prod.fst := by
        intro hmem
        have : (cf0.lookup n).isSome := by
          rw [List.lookup_isSome_iff]
          obtain ⟨p, hp, hpk⟩ := List.mem_map.1 hmem
          exact ⟨p, hp, by simp [hpk]⟩
        rw [hlook] at this
        exact absurd this (by simp)
      have hnotq : n ∉ q0 := by
        intro hq
        have := h3 n hq
        rw [hlook] at this
        exact absurd this (by simp)
      have h1' : (((n, some cur) :: cf0).map Prod.fst).Nodup := by
        simp only [List.map_cons, List.nodup_cons]
        exact ⟨hnotk, h1⟩
      have h2' : (q0 ++ [n]).Nodup := by
        rw [List.nodup_append]
        exact ⟨h2, List.nodup_singleton n, by simpa using hnotq⟩
      have h3' : ∀ k ∈ q0 ++ [n], (((n, some cur) :: cf0).lookup k).isSome := by
        intro k hk
        rcases List.mem_append.1 hk with hk | hk
        · by_cases hkn : k = n
          · subst hkn; simp
          · rw [lookup_cons_ne _ _ hkn]
            exact h3 k hk
        · rw [List.mem_singleton.1 hk]
          simp
      obtain ⟨R1, R2, R3, R4, R5, R6, R7, R8, ⟨app, R9⟩, R10⟩ :=
        ih (q0 ++ [n]) ((n, some cur) :: cf0) h1' h2' h3' res hres
      refine ⟨R1, R2, ?_, ?_, R5, ?_, ?_, ?_, ⟨[n] ++ app, by simpa using R9⟩, ?_⟩
      · intro k v hv
        have hkn : k ≠ n := by
          intro he; subst he; rw [hlook] at hv; exact absurd hv (by simp)
        exact R3 k v ((lookup_cons_ne _ _ hkn).symm ▸ hv)
      · intro k v hv
        rcases R4 k v hv with h | h
        · by_cases hkn : k = n
          · subst hkn
            rw [List.lookup_cons_self] at h
            exact Or.inr (by cases h; rfl)
          · rw [lookup_cons_ne _ _ hkn] at h
            exact Or.inl h
        · exact Or.inr h
      · intro k hk
        rcases R6 k hk with h | h
        · by_cases hkn : k = n
          · exact Or.inr (hkn ▸ List.mem_cons_self n rest2)
          · rw [lookup_cons_ne _ _ hkn] at h
            exact Or.inl h
        · exact Or.inr (List.mem_cons_of_mem n h)
      · intro p hp
        rcases List.mem_cons.1 hp with hp | hp
        · rw [hp]
          exact Option.isSome_iff_exists.2 ⟨some cur, R3 n (some cur) List.lookup_cons_self⟩
        · exact R7 p hp
      · intro k hk hnone
        by_cases hkn : k = n
        · subst hkn
          rw [R9]
          exact List.mem_append.2 (Or.inl (List.mem_append.2 (Or.inr (by simp))))
        · exact R8 k hk ((lookup_cons_ne _ _ hkn).symm ▸ hnone)
      · simp only [List.length_append, List.length_cons, List.length_nil] at R10 ⊢
        omega
    · -- existing key: skip
      have hstep : bfsPush cur (q0, cf0) n = (q0, cf0) := by
        simp [bfsPush, hlook]
      rw [hstep] at hres
      obtain ⟨R1, R2, R3, R4, R5, R6, R7, R8, R9, R10⟩ :=
        ih q0 cf0 h1 h2 h3 res hres
      refine ⟨R1, R2, R3, R4, R5, ?_, ?_, R8, R9, R10⟩
      · intro k hk
        rcases R6 k hk with h | h
        · exact Or.inl h
        · exact Or.inr (List.mem_cons_of_mem n h)
      · intro p hp
        rcases List.mem_cons.1 hp with hp | hp
        · rw [hp]
          exact Option.isSome_iff_exists.2 ⟨w, R3 n w hlook⟩
        · exact R7 p hp

/-- Invariant of the BFS `while queue` loop relating the pending queue
and the `came_from` map. -/
structure BfsInv (g : GridMap) (start endG : Cell) (queue : List Cell)
    (cf : List (Cell × Option Cell)) : Prop where
  nodupKeys : (cf.map Prod.fst).Nodup
  nodupQueue : queue.Nodup
  startNone : cf.lookup start = some none
  onlyStartNone : ∀ k v, cf.lookup k = some v → v = none → k = start
  queueKeyed : ∀ k ∈ queue, (cf.lookup k).isSome
  keysValid : ∀ k, (cf.lookup k).isSome → k = start ∨ g.is_walkable k.1 k.2 = true
  endInQueue : (cf.lookup endG).isSome → endG ∈ queue
  closure : ∀ k, (cf.lookup k).isSome → k ∉ queue →
      ∀ nbr ∈ g.get_neighbors k.1 k.2, (cf.lookup nbr).isSome

/-- Running the BFS loop from an invariant state with enough fuel, when
the goal is reachable from the start: the final `came_from` map still
maps the start to `None` and only the start to `None`, and contains the
goal. -/
theorem bfsLoop_reaches (g : GridMap) (start endG : Cell)
    (hreach : GridReach g start endG) :
    ∀ (fuel : Nat) (queue : List Cell) (cf : List (Cell × Option Cell)),
      BfsInv g start endG queue cf →
      queue.length + cellCount g + 2 ≤ fuel + cf.length →
      ((bfsLoop g endG fuel queue cf).lookup start = some none ∧
       (∀ k v, (bfsLoop g endG fuel queue cf).lookup k = some v → v = none → k = start) ∧
       ((bfsLoop g endG fuel queue cf).lookup endG).isSome) := by
  intro fuel
  induction fuel with
  | zero =>
    intro queue cf inv hpot
    have hcard := keys_card_le g start cf inv.nodupKeys inv.keysValid
    omega
  | succ fuel ih =>
    intro queue cf inv hpot
    match queue with
    | [] =>
      -- the queue never empties while the goal is unreached
      have hkeyed : (cf.lookup endG).isSome := by
        refine reach_closed (fun c => (cf.lookup c).isSome = true) hreach ?_ ?_
        · show (cf.lookup start).isSome = true
          rw [inv.startNone]; rfl
        · intro k hk nbr hnbr
          exact inv.closure k hk (List.not_mem_nil k) nbr hnbr
      exact absurd (inv.endInQueue hkeyed) (List.not_mem_nil endG)
    | cur :: rest =>
      by_cases hend : cur = endG
      · -- break: return cf with the goal present
        have hret : bfsLoop g endG (fuel + 1) (cur :: rest) cf = cf := by
          simp [bfsLoop, hend]
        rw [hret]
        exact ⟨inv.startNone, inv.onlyStartNone,
          hend ▸ inv.queueKeyed cur (List.mem_cons_self cur rest)⟩
      · rw [bfsLoop_cons g endG fuel cur rest cf hend]
        set res := (g.get_neighbors cur.1 cur.2).foldl (bfsPush cur) (rest, cf) with hres
        obtain ⟨R1, R2, R3, R4, R5, R6, R7, R8, ⟨app, R9⟩, R10⟩ :=
          bfsPush_fold_spec cur (g.get_neighbors cur.1 cur.2) rest cf
            inv.nodupKeys (List.Nodup.of_cons inv.nodupQueue)
            (fun k hk => inv.queueKeyed k (List.mem_cons_of_mem cur hk)) res hres
        have hmono : ∀ k, (cf.lookup k).isSome → (res.2.lookup k).isSome := by
          intro k hk
          rcases Option.isSome_iff_exists.1 hk with ⟨v, hv⟩
          exact Option.isSome_iff_exists.2 ⟨v, R3 k v hv⟩
        refine ih res.1 res.2 ?_ ?_
        · refine ⟨R1, R2, R3 start none inv.startNone, ?_, R5, ?_, ?_, ?_⟩
          · intro k v hv hvnone
            rcases R4 k v hv with h | h
            · exact inv.onlyStartNone k v h hvnone
            · rw [hvnone] at h; exact absurd h (by simp)
          · intro k hk
            rcases R6 k hk with h | h
            · exact inv.keysValid k h
            · exact Or.inr (mem_get_neighbors_walkable h)
          · intro hk
            by_cases hold : (cf.lookup endG).isSome
            · have := inv.endInQueue hold
              rcases List.mem_cons.1 this with h | h
              · exact absurd h.symm hend
              · rw [R9]; exact List.mem_append.2 (Or.inl h)
            · exact R8 endG hk (Option.not_isSome_iff_eq_none.1 hold)
          · intro k hk hkq nbr hnbr
            by_cases hkc : k = cur
            · subst hkc
              exact R7 nbr hnbr
            · by_cases hold : (cf.lookup k).isSome
              · have hknr : k ∉ rest := fun hr => hkq (R9 ▸ List.mem_append.2 (Or.inl hr))
                have hknq : k ∉ cur :: rest := by
                  intro hc
                  rcases List.mem_cons.1 hc with h | h
                  · exact hkc h
                  · exact hknr h
                exact hmono nbr (inv.closure k hold hknq nbr hnbr)
              · exact absurd (R8 k hk (Option.not_isSome_iff_eq_none.1 hold)) hkq
        · simp only [List.length_cons] at hpot
          omega

/-- One step of the BFS reconstruction chain. -/
theorem bfsChain_succ (cf : List (Cell × Option Cell)) (n : Nat) (cur : Cell) :
    bfsChain cf (n + 1) cur =
      cur :: (match cf.lookup cur with
        | some (some p) => bfsChain cf n p
        | _ => []) := rfl

/-- Every element of the reconstruction chain except the last has a
proper parent in `came_from`. -/
theorem bfsChain_dropLast_keyed (cf : List (Cell × Option Cell)) :
    ∀ (n : Nat) (cur x : Cell), x ∈ (bfsChain cf n cur).dropLast →
      ∃ p, cf.lookup x = some (some p) := by
  intro n
  induction n with
  | zero => intro cur x hx; simp [bfsChain] at hx
  | succ n ih =>
    intro cur x hx
    rw [bfsChain_succ] at hx
    rcases hl : cf.lookup cur with _ | v
    · rw [hl] at hx; simp at hx
    · rcases v with _ | p
      · rw [hl] at hx; simp at hx
      · rw [hl] at hx
        replace hx : x ∈ (cur :: bfsChain cf n p).dropLast := hx
        rcases he : bfsChain cf n p with _ | ⟨q, t⟩
        · rw [he] at hx; simp at hx
        · rw [he] at hx
          rw [List.dropLast_cons₂] at hx
          rcases List.mem_cons.1 hx with hx | hx
          · exact ⟨p, hx ▸ hl⟩
          · exact ih p x (by rw [he]; exact hx)

/-- `BFSPathfinder.find_path` succeeds whenever the substituted goal is
distinct from the raw start and reachable from it: the result is
nonempty, ends at the substituted goal, and never contains the start. -/
theorem bfs_reaches (g : GridMap) (fuel : Nat) (startB goalB eB : Cell)
    (hsub : substituteEndpoint g goalB = some eB)
    (hreach : GridReach g startB eB) (hne : eB ≠ startB)
    (hfuel : bfsFuelBound g ≤ fuel) :
    bfs_find_path g fuel startB goalB ≠ [] ∧
    (bfs_find_path g fuel startB goalB).getLast? = some eB ∧
    startB ∉ bfs_find_path g fuel startB goalB := by
  have inv0 : BfsInv g startB eB [startB] [(startB, none)] := by
    refine ⟨?_, ?_, ?_, ?_, ?_, ?_, ?_, ?_⟩
    · simp
    · simp
    · simp
    · intro k v hv hvn
      by_cases hk : k = startB
      · exact hk
      · rw [lookup_cons_ne _ _ hk] at hv; exact absurd hv (by simp)
    · intro k hk; rw [List.mem_singleton.1 hk]; simp
    · intro k hk
      by_cases hks : k = startB
      · exact Or.inl hks
      · rw [lookup_cons_ne _ _ hks] at hk; exact absurd hk (by simp)
    · intro hk
      by_cases hks : eB = startB
      · rw [hks]; exact List.mem_cons_self _ _
      · rw [lookup_cons_ne _ _ hks] at hk; exact absurd hk (by simp)
    · intro k hk hkq nbr hnbr
      by_cases hks : k = startB
      · rw [hks] at hkq; exact absurd (List.mem_cons_self _ _) hkq
      · rw [lookup_cons_ne _ _ hks] at hk; exact absurd hk (by simp)
  have hpot : [startB].length + cellCount g + 2 ≤
      fuel + ([((startB : Cell), (none : Option Cell))]).length := by
    unfold bfsFuelBound at hfuel
    simp only [List.length_cons, List.length_nil]
    omega
  obtain ⟨HS, HO, HE⟩ :=
    bfsLoop_reaches g startB eB hreach fuel [startB] [(startB, none)] inv0 hpot
  set cf := bfsLoop g eB fuel [startB] [(startB, none)] with hcf
  rcases Option.isSome_iff_exists.1 HE with ⟨v, hv⟩
  rcases v with _ | p
  · exact absurd (HO eB none hv rfl) hne
  have hfind : bfs_find_path g fuel startB goalB =
      ((bfsChain cf (cf.length + 1) eB).reverse).drop 1 := by
    simp only [bfs_find_path, hsub]
    rw [← hcf, hv]
  have hcf1 : 1 ≤ cf.length := by
    rcases hcfe : cf with _ | ⟨a, tl⟩
    · rw [hcfe] at HS; exact absurd HS (by simp)
    · simp
  have hchain : bfsChain cf (cf.length + 1) eB = eB :: bfsChain cf cf.length p := by
    rw [bfsChain_succ, hv]
  have hlen : cf.length = (cf.length - 1) + 1 := by omega
  have htne : bfsChain cf cf.length p ≠ [] := by
    rw [hlen, bfsChain_succ]
    exact List.cons_ne_nil _ _
  have hrev : ∀ l : List Cell, (l.reverse).drop 1 = (l.dropLast).reverse := by
    intro l
    rw [List.drop_one, List.tail_reverse]
  rw [hfind, hchain, hrev]
  rcases hte : bfsChain cf cf.length p with _ | ⟨q, t2⟩
  · exact absurd hte htne
  refine ⟨?_, ?_, ?_⟩
  · rw [List.dropLast_cons₂]
    simp
  · rw [List.getLast?_reverse, List.dropLast_cons₂]
    rfl
  · intro hmem
    rw [List.mem_reverse] at hmem
    have hmem2 : startB ∈ (bfsChain cf (cf.length + 1) eB).dropLast := by
      rw [hchain, hte]
      exact hmem
    obtain ⟨pp, hpp⟩ := bfsChain_dropLast_keyed cf (cf.length + 1) eB startB hmem2
    rw [HS] at hpp
    exact absurd hpp (by simp)

section AStarProof

variable {K : Type} [LinearOrderedField K]

/-- Neighbors differ from the center cell (all `directions_8` offsets
are nonzero). -/
theorem mem_get_neighbors_ne {g : GridMap} {x y : Int} {b : Cell}
    (h : b ∈ g.get_neighbors x y) : b ≠ (x, y) := by
  simp only [GridMap.get_neighbors, List.mem_filterMap] at h
  obtain ⟨d, hd, hb⟩ := h
  have hdz : ¬(d.1 = 0 ∧ d.2 = 0) := by
    revert hd
    have : ∀ d ∈ directions8, ¬(d.1 = 0 ∧ d.2 = 0) := by decide
    exact this d
  have hbval : b = (x + d.1, y + d.2) := by
    by_cases hw : g.is_walkable (x + d.1) (y + d.2) = true
    · rw [if_pos hw] at hb
      split at hb
      · split at hb
        · exact absurd hb (by simp)
        · cases hb; rfl
      · cases hb; rfl
    · rw [if_neg hw] at hb
      exact absurd hb (by simp)
  rw [hbval]
  intro hc
  rw [Prod.mk.injEq] at hc
  exact hdz ⟨by omega, by omega⟩

/-- A duplicate-free list of cells that are the start cell or walkable
has at most one entry per grid cell plus one. -/
theorem cellFinset_card_le (g : GridMap) (start : Cell) (F : Finset Cell)
    (hmem : ∀ k ∈ F, k = start ∨ g.is_walkable k.1 k.2 = true) :
    F.card ≤ cellCount g + 1 := by
  have hsub : F ⊆ insert start ((Finset.Icc (0 : ℤ) (g.grid_cols - 1)) ×ˢ
      (Finset.Icc (0 : ℤ) (g.grid_rows - 1))) := by
    intro k hk
    rcases hmem k hk with h | h
    · exact h ▸ Finset.mem_insert_self _ _
    · apply Finset.mem_insert_of_mem
      have hb := walkable_bounds h
      rw [Finset.mem_product, Finset.mem_Icc, Finset.mem_Icc]
      omega
  have hc2 := Finset.card_le_card hsub
  have hc3 := Finset.card_insert_le start
    ((Finset.Icc (0 : ℤ) (g.grid_cols - 1)) ×ˢ (Finset.Icc (0 : ℤ) (g.grid_rows - 1)))
  rw [Finset.card_product, Int.card_Icc, Int.card_Icc] at hc3
  have hcc : cellCount g = (g.grid_cols - 1 + 1 - 0).toNat * (g.grid_rows - 1 + 1 - 0).toNat := by
    simp [cellCount]
  omega

/-- Cost of one grid step as computed in the A* loop body
(`math.sqrt(2)` for a diagonal step, `1` otherwise). -/
def stepCost (s : K) (a b : Cell) : K :=
  if (b.1 - a.1).natAbs + (b.2 - a.2).natAbs = 2 then s else 1

/-- A step cost is positive when `0 < s`. -/
theorem stepCost_pos {s : K} (hs : 0 < s) (a b : Cell) : 0 < stepCost s a b := by
  unfold stepCost
  split
  · exact hs
  · exact one_pos

/-- A backward walk witness: a list `(cₖ, vₖ) … (c₀, v₀)` whose cells
step through `get_neighbors`, whose values accumulate the step costs,
and which ends at the start cell with value `0`. -/
def goodBack (g : GridMap) (s : K) (start : Cell) : List (Cell × K) → Prop
  | [] => False
  | [(c, v)] => c = start ∧ v = 0
  | (c, v) :: (p, w) :: rest =>
      c ∈ g.get_neighbors p.1 p.2 ∧ v = w + stepCost s p c ∧
        goodBack g s start ((p, w) :: rest)

/-- The head value of a backward walk is a sum `a + b·s` with
`a + b + 1` equal to the walk length. -/
theorem goodBack_val (g : GridMap) (s : K) (start : Cell) :
    ∀ ch : List (Cell × K), goodBack g s start ch →
      ∀ c v, ch.head? = some (c, v) →
        ∃ a b : ℕ, v = (a : K) + (b : K) * s ∧ a + b + 1 = ch.length := by
  intro ch
  induction ch with
  | nil => intro h; exact absurd h (by simp [goodBack])
  | cons hd tl ih =>
    intro h c v hv
    rcases hd with ⟨c0, v0⟩
    rcases tl with _ | ⟨⟨p, w⟩, rest⟩
    · obtain ⟨h1, h2⟩ := h
      rw [List.head?_cons, Option.some.injEq, Prod.mk.injEq] at hv
      refine ⟨0, 0, ?_, by simp⟩
      rw [← hv.2, h2]
      simp
    · obtain ⟨h1, h2, h3⟩ := h
      obtain ⟨a, b, hab, hlen⟩ := ih h3 p w (by simp)
      rw [List.head?_cons, Option.some.injEq, Prod.mk.injEq] at hv
      unfold stepCost at h2
      by_cases hdiag : ((c0.1 - p.1).natAbs + (c0.2 - p.2).natAbs = 2)
      · refine ⟨a, b + 1, ?_, by simp at hlen ⊢; omega⟩
        rw [← hv.2, h2, if_pos hdiag, hab]
        push_cast
        ring
      · refine ⟨a + 1, b, ?_, by simp at hlen ⊢; omega⟩
        rw [← hv.2, h2, if_neg hdiag, hab]
        push_cast
        ring

/-- Every value along a backward walk is at most the head value. -/
theorem goodBack_le_head (g : GridMap) {s : K} (start : Cell) (hs : 0 < s) :
    ∀ ch : List (Cell × K), goodBack g s start ch →
      ∀ q ∈ ch, ∀ c v, ch.head? = some (c, v) → q.2 ≤ v := by
  intro ch
  induction ch with
  | nil => intro h; exact absurd h (by simp [goodBack])
  | cons hd tl ih =>
    intro h q hq c v hv
    rcases hd with ⟨c0, v0⟩
    rw [List.head?_cons, Option.some.injEq, Prod.mk.injEq] at hv
    rcases tl with _ | ⟨⟨p, w⟩, rest⟩
    · rw [List.mem_singleton.1 hq, ← hv.2]
    · obtain ⟨h1, h2, h3⟩ := h
      rcases List.mem_cons.1 hq with hq | hq
      · rw [hq, ← hv.2]
      · have hqw : q.2 ≤ w := ih h3 q hq p w (by simp)
        have hcost : 0 < stepCost s p c0 := stepCost_pos hs p c0
        rw [← hv.2, h2]
        linarith

/-- `eraseFirst` produces a sublist. -/
theorem eraseFirst_sublist {α : Type} [DecidableEq α] (a : α) :
    ∀ l : List α, List.Sublist (eraseFirst a l) l := by
  intro l
  induction l with
  | nil => exact List.Sublist.refl []
  | cons x xs ih =>
    unfold eraseFirst
    by_cases hx : x = a
    · rw [if_pos hx]
      exact List.sublist_cons_self x xs
    · rw [if_neg hx]
      exact List.Sublist.cons₂ x ih

/-- After erasing `a` from a duplicate-free list, `a` is gone. -/
theorem nodup_not_mem_eraseFirst {α : Type} [DecidableEq α] {a : α} :
    ∀ {l : List α}, l.Nodup → a ∉ eraseFirst a l := by
  intro l
  induction l with
  | nil => intro _ h; exact absurd h (List.not_mem_nil a)
  | cons x xs ih =>
    intro hnd h
    rw [List.nodup_cons] at hnd
    unfold eraseFirst at h
    by_cases hx : x = a
    · rw [if_pos hx] at h
      exact hnd.1 (hx ▸ h)
    · rw [if_neg hx] at h
      rcases List.mem_cons.1 h with h | h
      · exact hx h.symm
      · exact ih hnd.2 h

/-- Erasing the first occurrence agrees with multiset erasure. -/
theorem eraseFirst_coe {α : Type} [DecidableEq α] {a : α} :
    ∀ {l : List α}, a ∈ l →
      ((eraseFirst a l : List α) : Multiset α) = (l : Multiset α).erase a := by
  intro l
  induction l with
  | nil => intro h; exact absurd h (List.not_mem_nil a)
  | cons x xs ih =>
    intro h
    unfold eraseFirst
    by_cases hx : x = a
    · rw [if_pos hx, hx]
      rw [← Multiset.cons_coe, Multiset.erase_cons_head]
    · rw [if_neg hx]
      have hmem : a ∈ xs := by
        rcases List.mem_cons.1 h with h | h
        · exact absurd h.symm hx
        · exact h
      rw [← Multiset.cons_coe, ← Multiset.cons_coe,
        Multiset.erase_cons_tail_of_mem (by exact Multiset.mem_coe.2 hmem), ih hmem]

/-- Mapping after a multiset erase removes one image occurrence. -/
theorem multiset_map_erase {α β : Type} [DecidableEq α] [DecidableEq β]
    (f : α → β) (t : Multiset α) (a : α) (h : a ∈ t) :
    (t.erase a).map f = (t.map f).erase (f a) := by
  calc (t.erase a).map f
      = ((a ::ₘ t.erase a).map f).erase (f a) := by
        rw [Multiset.map_cons, Multiset.erase_cons_head]
    _ = (t.map f).erase (f a) := by rw [Multiset.cons_erase h]

/-- The minimum returned by `popMinAux` is the seed or a list element. -/
theorem popMinAux_mem (best : K × Nat × Cell) :
    ∀ l : List (K × Nat × Cell), popMinAux best l ∈ best :: l := by
  intro l
  induction l generalizing best with
  | nil => simp [popMinAux]
  | cons e rest ih =>
    unfold popMinAux
    by_cases he : heapLt e best = true
    · rw [if_pos he]
      have := ih e
      rcases List.mem_cons.1 this with h | h
      · rw [h]; simp
      · exact List.mem_cons_of_mem _ (List.mem_cons_of_mem _ h)
    · rw [if_neg he]
      have := ih best
      rcases List.mem_cons.1 this with h | h
      · rw [h]; simp
      · exact List.mem_cons_of_mem _ (List.mem_cons_of_mem _ h)

/-- Characterization of a successful `popMin`. -/
theorem popMin_eq {l : List (K × Nat × Cell)} {m : K × Nat × Cell}
    {rest : List (K × Nat × Cell)} (h : popMin l = some (m, rest)) :
    m ∈ l ∧ rest = eraseFirst m l := by
  match l with
  | [] => exact absurd h (by simp [popMin])
  | e :: tl =>
    unfold popMin at h
    rw [Option.some.injEq, Prod.mk.injEq] at h
    obtain ⟨h1, h2⟩ := h
    subst h1
    exact ⟨popMinAux_mem e tl, h2.symm⟩

/-- An empty heap means `popMin` fails. -/
theorem popMin_nil : popMin ([] : List (K × Nat × Cell)) = none := rfl

/-- The candidate sums `a + b·s` for `a, b < M`. -/
def valSet (s : K) (M : Nat) : Finset K :=
  ((Finset.range M) ×ˢ (Finset.range M)).image
    (fun p => (p.1 : K) + (p.2 : K) * s)

/-- Membership in the value set. -/
theorem mem_valSet {s : K} {M : Nat} {a b : Nat} (ha : a < M) (hb : b < M) :
    (a : K) + (b : K) * s ∈ valSet s M := by
  apply Finset.mem_image.2
  exact ⟨(a, b), Finset.mem_product.2 ⟨Finset.mem_range.2 ha, Finset.mem_range.2 hb⟩, rfl⟩

/-- Position of a value in the candidate set ordering. -/
def rankIn (S : Finset K) (v : K) : Nat := (S.filter (fun u => u < v)).card

/-- The rank strictly drops when the value strictly drops inside `S`. -/
theorem rankIn_lt {S : Finset K} {v v' : K} (hv' : v' ∈ S) (hlt : v' < v) :
    rankIn S v' < rankIn S v := by
  have hsub : S.filter (fun u => u < v') ⊆ (S.filter (fun u => u < v)).erase v' := by
    intro u hu
    rw [Finset.mem_filter] at hu
    rw [Finset.mem_erase, Finset.mem_filter]
    exact ⟨ne_of_lt hu.2, hu.1, lt_trans hu.2 hlt⟩
  have hmem : v' ∈ S.filter (fun u => u < v) := Finset.mem_filter.2 ⟨hv', hlt⟩
  have h1 := Finset.card_le_card hsub
  rw [Finset.card_erase_of_mem hmem] at h1
  have h2 : 1 ≤ (S.filter (fun u => u < v)).card := Finset.card_pos.2 ⟨v', hmem⟩
  unfold rankIn
  omega

/-- Ranks of members stay below the set size. -/
theorem rankIn_le {S : Finset K} {v : K} (hv : v ∈ S) :
    rankIn S v + 1 ≤ S.card := by
  have hsub : S.filter (fun u => u < v) ⊆ S.erase v := by
    intro u hu
    rw [Finset.mem_filter] at hu
    rw [Finset.mem_erase]
    exact ⟨ne_of_lt hu.2, hu.1⟩
  have h1 := Finset.card_le_card hsub
  rw [Finset.card_erase_of_mem hv] at h1
  have h2 : 1 ≤ S.card := Finset.card_pos.2 ⟨v, hv⟩
  unfold rankIn
  omega

/-- The value set has at most `M²` elements. -/
theorem valSet_card_le (s : K) (M : Nat) : (valSet s M).card ≤ M * M := by
  calc (valSet s M).card ≤ ((Finset.range M) ×ˢ (Finset.range M)).card :=
        Finset.card_image_le
    _ = M * M := by simp [Finset.card_product]

end AStarProof

section AStarProof2

variable {K : Type} [LinearOrderedField K]

/-- `contains` agrees with membership for cells. -/
theorem cell_contains_iff (l : List Cell) (a : Cell) :
    l.contains a = true ↔ a ∈ l := by
  simp [List.contains_iff_exists_mem_beq]

/-- Consing an entry keeps lookups defined. -/
theorem lookup_cons_isSome_mono {β : Type} {l : List (Cell × β)} {k : Cell}
    (e : Cell × β) (h : (l.lookup k).isSome) : (((e :: l).lookup k).isSome) := by
  by_cases hk : k = e.1
  · rcases e with ⟨a, b⟩
    rw [hk]
    simp
  · rcases e with ⟨a, b⟩
    rw [lookup_cons_ne _ _ hk]
    exact h

/-- Membership survives erasing a different element. -/
theorem mem_eraseFirst_of_ne {α : Type} [DecidableEq α] {a b : α} :
    ∀ {l : List α}, a ∈ l → a ≠ b → a ∈ eraseFirst b l := by
  intro l
  induction l with
  | nil => intro h _; exact absurd h (List.not_mem_nil a)
  | cons x xs ih =>
    intro h hne
    unfold eraseFirst
    by_cases hx : x = b
    · rw [if_pos hx]
      rcases List.mem_cons.1 h with h | h
      · exact absurd (h.trans hx) hne
      · exact h
    · rw [if_neg hx]
      rcases List.mem_cons.1 h with h | h
      · exact h ▸ List.mem_cons_self x (eraseFirst b xs)
      · exact List.mem_cons_of_mem x (ih h hne)

/-- Erasing a present element shortens the list by one. -/
theorem eraseFirst_length {α : Type} [DecidableEq α] {a : α} :
    ∀ {l : List α}, a ∈ l → (eraseFirst a l).length + 1 = l.length := by
  intro l
  induction l with
  | nil => intro h; exact absurd h (List.not_mem_nil a)
  | cons x xs ih =>
    intro h
    unfold eraseFirst
    by_cases hx : x = a
    · rw [if_pos hx]
      simp
    · rw [if_neg hx]
      have hmem : a ∈ xs := by
        rcases List.mem_cons.1 h with h | h
        · exact absurd h.symm hx
        · exact h
      simp only [List.length_cons]
      rw [← ih hmem]

/-- Key set of a score association list. -/
def keyFinset (gs : List (Cell × K)) : Finset Cell := (gs.map Prod.fst).toFinset

/-- Score of a cell with the Python `dict` access defaulted to `0`. -/
def gVal (gs : List (Cell × K)) (k : Cell) : K := (gs.lookup k).getD 0

/-- Key-set membership is definedness of the lookup. -/
theorem mem_keyFinset {gs : List (Cell × K)} {k : Cell} :
    k ∈ keyFinset gs ↔ (gs.lookup k).isSome := by
  rw [keyFinset, List.mem_toFinset, List.lookup_isSome_iff]
  constructor
  · intro h
    obtain ⟨p, hp, hpk⟩ := List.mem_map.1 h
    exact ⟨p, hp, by simp [hpk]⟩
  · intro ⟨p, hp, hpk⟩
    exact List.mem_map.2 ⟨p, hp, by simpa using (eq_of_beq hpk).symm⟩

/-- Termination potential of the A* loop state: pending heap entries,
ranks of current scores, and room for undiscovered keys. -/
def astarPot (g : GridMap) (s : K) (st : AStarState K) : Nat :=
  st.openSet.length +
    Finset.sum (keyFinset st.gScore)
      (fun k => rankIn (valSet s (cellCount g + 1)) (gVal st.gScore k) + 1) +
    ((cellCount g + 1) - (keyFinset st.gScore).card) *
      ((valSet s (cellCount g + 1)).card + 1)

/-- A backward-walk witness visits at most one cell per grid cell plus
the start. -/
theorem chain_length_le (g : GridMap) (start : Cell) (ch : List (Cell × K))
    (hnd : (ch.map Prod.fst).Nodup)
    (hval : ∀ q ∈ ch, q.1 = start ∨ g.is_walkable q.1.1 q.1.2 = true) :
    ch.length ≤ cellCount g + 1 := by
  have hcard := cellFinset_card_le g start (ch.map Prod.fst).toFinset ?_
  · rw [List.toFinset_card_of_nodup hnd, List.length_map] at hcard
    exact hcard
  · intro k hk
    rw [List.mem_toFinset] at hk
    obtain ⟨q, hq, hqk⟩ := List.mem_map.1 hk
    exact hqk ▸ hval q hq

/-- The mutable-state invariant of the A* loop that is preserved by
every single relaxation. -/
structure RelaxInv (g : GridMap) (s : K) (start : Cell) (st : AStarState K) : Prop where
  gStart : st.gScore.lookup start = some 0
  gNonneg : ∀ k v, st.gScore.lookup k = some v → 0 ≤ v
  startNotCf : st.cameFrom.lookup start = none
  cfKeyed : ∀ k, (st.cameFrom.lookup k).isSome → (st.gScore.lookup k).isSome
  heapNodes : ∀ e ∈ st.openSet, e.2.2 = start ∨ (st.cameFrom.lookup e.2.2).isSome
  hashHeap : ((st.openSet.map (fun e => e.2.2) : List Cell) : Multiset Cell) =
      ((st.openHash : List Cell) : Multiset Cell)
  hashNodup : st.openHash.Nodup
  keysValid : ∀ k, (st.gScore.lookup k).isSome → k = start ∨ g.is_walkable k.1 k.2 = true
  chainW : ∀ k v, st.gScore.lookup k = some v → ∃ ch : List (Cell × K),
      goodBack g s start ch ∧ ch.head? = some (k, v) ∧ (ch.map Prod.fst).Nodup ∧
      ∀ q ∈ ch, ∃ gq, st.gScore.lookup q.1 = some gq ∧ gq ≤ q.2

/-- The full loop invariant: the relaxation invariant together with the
frontier closure properties. -/
structure AStarInv (g : GridMap) (s : K) (start endG : Cell) (st : AStarState K) : Prop where
  base : RelaxInv g s start st
  closure : ∀ k, (st.gScore.lookup k).isSome → k ∉ st.openHash →
      ∀ nbr ∈ g.get_neighbors k.1 k.2, (st.gScore.lookup nbr).isSome
  endHash : (st.gScore.lookup endG).isSome → endG ∈ st.openHash

/-- Every defined score lies in the candidate value set. -/
theorem lookup_mem_valSet {g : GridMap} {s : K} {start : Cell} {st : AStarState K}
    (inv : RelaxInv g s start st) {k : Cell} {v : K}
    (hv : st.gScore.lookup k = some v) : v ∈ valSet s (cellCount g + 1) := by
  obtain ⟨ch, hgb, hhead, hnd, hside⟩ := inv.chainW k v hv
  obtain ⟨a, b, hab, hlen⟩ := goodBack_val g s start ch hgb k v hhead
  have hbound : ch.length ≤ cellCount g + 1 := by
    apply chain_length_le g start ch hnd
    intro q hq
    obtain ⟨gq, hgq, _⟩ := hside q hq
    exact inv.keysValid q.1 (Option.isSome_iff_exists.2 ⟨gq, hgq⟩)
  rw [hab]
  exact mem_valSet (by omega) (by omega)

end AStarProof2

section AStarProof3

variable {K : Type} [LinearOrderedField K]

/-- A relaxation with no improvement leaves the state unchanged. -/
theorem relaxNeighbor_skip (s : K) (endG cur : Cell) (st : AStarState K)
    (nbr : Cell) (gn : K) (hgn : st.gScore.lookup nbr = some gn)
    (hge : ¬((st.gScore.lookup cur).getD 0 + stepCost s cur nbr < gn)) :
    relaxNeighbor s endG cur st nbr = st := by
  unfold relaxNeighbor
  rw [hgn]
  unfold stepCost at hge
  simp [hge]

/-- Relaxation of an undiscovered node already in the open hash. -/
theorem relaxNeighbor_fresh_inHash (s : K) (endG cur : Cell) (st : AStarState K)
    (nbr : Cell) (hgn : st.gScore.lookup nbr = none)
    (hmem : st.openHash.contains nbr = true) :
    relaxNeighbor s endG cur st nbr =
      { st with
        cameFrom := (nbr, cur) :: st.cameFrom,
        gScore := (nbr, (st.gScore.lookup cur).getD 0 + stepCost s cur nbr) :: st.gScore,
        fScore := (nbr, (st.gScore.lookup cur).getD 0 + stepCost s cur nbr +
          heuristic s nbr endG) :: st.fScore } := by
  unfold relaxNeighbor stepCost
  rw [hgn]
  have hm : nbr ∈ st.openHash := (cell_contains_iff st.openHash nbr).1 hmem
  simp [hm]

/-- Relaxation of an undiscovered node not in the open hash: it is also
pushed onto the heap and into the hash. -/
theorem relaxNeighbor_fresh_push (s : K) (endG cur : Cell) (st : AStarState K)
    (nbr : Cell) (hgn : st.gScore.lookup nbr = none)
    (hmem : st.openHash.contains nbr = false) :
    relaxNeighbor s endG cur st nbr =
      { st with
        cameFrom := (nbr, cur) :: st.cameFrom,
        gScore := (nbr, (st.gScore.lookup cur).getD 0 + stepCost s cur nbr) :: st.gScore,
        fScore := (nbr, (st.gScore.lookup cur).getD 0 + stepCost s cur nbr +
          heuristic s nbr endG) :: st.fScore,
        counter := st.counter + 1,
        openSet := ((st.gScore.lookup cur).getD 0 + stepCost s cur nbr +
          heuristic s nbr endG, st.counter + 1, nbr) :: st.openSet,
        openHash := nbr :: st.openHash } := by
  unfold relaxNeighbor stepCost
  rw [hgn]
  have hm : nbr ∉ st.openHash := by
    intro hc
    rw [(cell_contains_iff st.openHash nbr).2 hc] at hmem
    exact absurd hmem (by simp)
  simp [hm]

/-- Relaxation improving a known score, node already in the open hash. -/
theorem relaxNeighbor_improve_inHash (s : K) (endG cur : Cell) (st : AStarState K)
    (nbr : Cell) (gn : K) (hgn : st.gScore.lookup nbr = some gn)
    (hlt : (st.gScore.lookup cur).getD 0 + stepCost s cur nbr < gn)
    (hmem : st.openHash.contains nbr = true) :
    relaxNeighbor s endG cur st nbr =
      { st with
        cameFrom := (nbr, cur) :: st.cameFrom,
        gScore := (nbr, (st.gScore.lookup cur).getD 0 + stepCost s cur nbr) :: st.gScore,
        fScore := (nbr, (st.gScore.lookup cur).getD 0 + stepCost s cur nbr +
          heuristic s nbr endG) :: st.fScore } := by
  unfold relaxNeighbor
  rw [hgn]
  unfold stepCost at hlt
  have hm : nbr ∈ st.openHash := (cell_contains_iff st.openHash nbr).1 hmem
  simp [hlt, hm, stepCost]

/-- Relaxation improving a known score, node not in the open hash. -/
theorem relaxNeighbor_improve_push (s : K) (endG cur : Cell) (st : AStarState K)
    (nbr : Cell) (gn : K) (hgn : st.gScore.lookup nbr = some gn)
    (hlt : (st.gScore.lookup cur).getD 0 + stepCost s cur nbr < gn)
    (hmem : st.openHash.contains nbr = false) :
    relaxNeighbor s endG cur st nbr =
      { st with
        cameFrom := (nbr, cur) :: st.cameFrom,
        gScore := (nbr, (st.gScore.lookup cur).getD 0 + stepCost s cur nbr) :: st.gScore,
        fScore := (nbr, (st.gScore.lookup cur).getD 0 + stepCost s cur nbr +
          heuristic s nbr endG) :: st.fScore,
        counter := st.counter + 1,
        openSet := ((st.gScore.lookup cur).getD 0 + stepCost s cur nbr +
          heuristic s nbr endG, st.counter + 1, nbr) :: st.openSet,
        openHash := nbr :: st.openHash } := by
  unfold relaxNeighbor
  rw [hgn]
  unfold stepCost at hlt
  have hm : nbr ∉ st.openHash := by
    intro hc
    rw [(cell_contains_iff st.openHash nbr).2 hc] at hmem
    exact absurd hmem (by simp)
  simp [hlt, hm, stepCost]

end AStarProof3

section AStarProof4

variable {K : Type} [LinearOrderedField K]

/-- Common effects of an improving relaxation (either hash case): the
relaxation invariant is preserved, keys grow, the relaxed node becomes
keyed and hash-covered, and the termination potential does not rise. -/
theorem relaxUpdate_spec (g : GridMap) (s : K) (start endG cur nbr : Cell)
    (hs : 0 < s) (st st' : AStarState K) (inv : RelaxInv g s start st)
    (gcur : K) (hgcur : st.gScore.lookup cur = some gcur)
    (hnbr : nbr ∈ g.get_neighbors cur.1 cur.2)
    (hgs : st'.gScore = (nbr, gcur + stepCost s cur nbr) :: st.gScore)
    (hcf : st'.cameFrom = (nbr, cur) :: st.cameFrom)
    (hbet : ∀ gn, st.gScore.lookup nbr = some gn → gcur + stepCost s cur nbr < gn)
    (hcase :
      (st'.openHash = st.openHash ∧ st'.openSet = st.openSet ∧ nbr ∈ st.openHash) ∨
      (st'.openHash = nbr :: st.openHash ∧ nbr ∉ st.openHash ∧
        ∃ fc : K × Nat, st'.openSet = (fc.1, fc.2, nbr) :: st.openSet)) :
    RelaxInv g s start st' ∧
    (∀ k, (st.gScore.lookup k).isSome → (st'.gScore.lookup k).isSome) ∧
    (st'.gScore.lookup nbr).isSome ∧
    (∀ x ∈ st.openHash, x ∈ st'.openHash) ∧
    (∀ x ∈ st'.openHash, x ∈ st.openHash ∨ x = nbr) ∧
    (∀ k, (st'.gScore.lookup k).isSome → (st.gScore.lookup k).isSome ∨ k ∈ st'.openHash) ∧
    astarPot g s st' ≤ astarPot g s st := by
  have hstep := stepCost_pos hs cur nbr
  have hgcur0 : 0 ≤ gcur := inv.gNonneg cur gcur hgcur
  have htpos : 0 < gcur + stepCost s cur nbr := by linarith
  have hnbrstart : nbr ≠ start := by
    intro he
    have := hbet 0 (by rw [he]; exact inv.gStart)
    linarith
  have hwalk : g.is_walkable nbr.1 nbr.2 = true := mem_get_neighbors_walkable hnbr
  -- the new backward-walk witness for nbr
  obtain ⟨chc, hgb, hhead, hnd, hside⟩ := inv.chainW cur gcur hgcur
  rcases hchc : chc with _ | ⟨hd, tl⟩
  · rw [hchc] at hhead; exact absurd hhead (by simp)
  rw [hchc] at hgb hhead hnd hside
  have hhd : hd = (cur, gcur) := by
    rw [List.head?_cons, Option.some.injEq] at hhead
    exact hhead
  subst hhd
  have hnotin : ∀ q ∈ ((cur, gcur) :: tl : List (Cell × K)), q.1 ≠ nbr := by
    intro q hq heq
    obtain ⟨gq, hgq, hle⟩ := hside q hq
    rw [heq] at hgq
    have h1 := hbet gq hgq
    have h2 : q.2 ≤ gcur :=
      goodBack_le_head g start hs _ hgb q hq cur gcur (by simp)
    linarith
  have hchainW' : ∀ k v, st'.gScore.lookup k = some v → ∃ ch : List (Cell × K),
      goodBack g s start ch ∧ ch.head? = some (k, v) ∧ (ch.map Prod.fst).Nodup ∧
      ∀ q ∈ ch, ∃ gq, st'.gScore.lookup q.1 = some gq ∧ gq ≤ q.2 := by
    intro k v hv
    rw [hgs] at hv
    by_cases hk : k = nbr
    · subst hk
      rw [List.lookup_cons_self, Option.some.injEq] at hv
      refine ⟨(k, gcur + stepCost s cur k) :: (cur, gcur) :: tl, ?_, by rw [← hv]; rfl, ?_, ?_⟩
      · show k ∈ g.get_neighbors cur.1 cur.2 ∧
          gcur + stepCost s cur k = gcur + stepCost s cur k ∧
          goodBack g s start ((cur, gcur) :: tl)
        exact ⟨hnbr, rfl, hgb⟩
      · simp only [List.map_cons, List.nodup_cons] at hnd ⊢
        refine ⟨?_, hnd⟩
        intro hmem
        rcases List.mem_cons.1 hmem with h | h
        · exact hnotin (cur, gcur) (List.mem_cons_self _ _) h.symm
        · obtain ⟨q, hq, hqk⟩ := List.mem_map.1 h
          exact hnotin q (List.mem_cons_of_mem _ hq) hqk
      · intro q hq
        rcases List.mem_cons.1 hq with hq | hq
        · refine ⟨gcur + stepCost s cur k, ?_, ?_⟩
          · rw [hgs, hq, List.lookup_cons_self]
          · rw [hq]
        · obtain ⟨gq, hgq, hle⟩ := hside q hq
          refine ⟨gq, ?_, hle⟩
          rw [hgs, lookup_cons_ne _ _ (hnotin q hq)]
          exact hgq
    · rw [lookup_cons_ne _ _ hk] at hv
      obtain ⟨ch, hgb2, hhead2, hnd2, hside2⟩ := inv.chainW k v hv
      refine ⟨ch, hgb2, hhead2, hnd2, ?_⟩
      intro q hq
      obtain ⟨gq, hgq, hle⟩ := hside2 q hq
      by_cases hqn : q.1 = nbr
      · refine ⟨gcur + stepCost s cur nbr, ?_, ?_⟩
        · rw [hgs, hqn, List.lookup_cons_self]
        · have := hbet gq (hqn ▸ hgq)
          linarith
      · refine ⟨gq, ?_, hle⟩
        rw [hgs, lookup_cons_ne _ _ hqn]
        exact hgq
  have inv' : RelaxInv g s start st' := by
    refine ⟨?_, ?_, ?_, ?_, ?_, ?_, ?_, ?_, hchainW'⟩
    · rw [hgs, lookup_cons_ne _ _ (Ne.symm hnbrstart)]
      exact inv.gStart
    · intro k v hv
      rw [hgs] at hv
      by_cases hk : k = nbr
      · rw [hk, List.lookup_cons_self, Option.some.injEq] at hv
        rw [← hv]
        exact le_of_lt htpos
      · rw [lookup_cons_ne _ _ hk] at hv
        exact inv.gNonneg k v hv
    · rw [hcf, lookup_cons_ne _ _ (Ne.symm hnbrstart)]
      exact inv.startNotCf
    · intro k hk
      rw [hcf] at hk
      rw [hgs]
      by_cases hkn : k = nbr
      · rw [hkn, List.lookup_cons_self]; rfl
      · rw [lookup_cons_ne _ _ hkn] at hk
        exact lookup_cons_isSome_mono _ (inv.cfKeyed k hk)
    · intro e he
      have hold : ∀ e2 ∈ st.openSet, e2.2.2 = start ∨
          ((st'.cameFrom.lookup e2.2.2).isSome) := by
        intro e2 he2
        rcases inv.heapNodes e2 he2 with h | h
        · exact Or.inl h
        · right
          rw [hcf]
          exact lookup_cons_isSome_mono _ h
      rcases hcase with ⟨hh, ho, hm⟩ | ⟨hh, hm, fc, ho⟩
      · rw [ho] at he
        exact hold e he
      · rw [ho] at he
        rcases List.mem_cons.1 he with he | he
        · right
          rw [he, hcf]
          show (((nbr, cur) :: st.cameFrom).lookup nbr).isSome
          rw [List.lookup_cons_self]; rfl
        · exact hold e he
    · rcases hcase with ⟨hh, ho, hm⟩ | ⟨hh, hm, fc, ho⟩
      · rw [hh, ho]
        exact inv.hashHeap
      · rw [hh, ho]
        simp only [List.map_cons]
        rw [← Multiset.cons_coe, ← Multiset.cons_coe, inv.hashHeap]
    · rcases hcase with ⟨hh, ho, hm⟩ | ⟨hh, hm, fc, ho⟩
      · rw [hh]; exact inv.hashNodup
      · rw [hh]
        exact List.nodup_cons.2 ⟨hm, inv.hashNodup⟩
    · intro k hk
      rw [hgs] at hk
      by_cases hkn : k = nbr
      · right; rw [hkn]; exact hwalk
      · rw [lookup_cons_ne _ _ hkn] at hk
        exact inv.keysValid k hk
  -- the potential does not rise
  have hpotle : astarPot g s st' ≤ astarPot g s st := by
    have htS : gcur + stepCost s cur nbr ∈ valSet s (cellCount g + 1) := by
      apply lookup_mem_valSet inv'
      rw [hgs, List.lookup_cons_self]
    have hkF' : keyFinset st'.gScore = insert nbr (keyFinset st.gScore) := by
      rw [hgs, keyFinset, List.map_cons, List.toFinset_cons]
      rfl
    have hheap : st'.openSet.length ≤ st.openSet.length + 1 := by
      rcases hcase with ⟨hh, ho, hm⟩ | ⟨hh, hm, fc, ho⟩
      · rw [ho]; omega
      · rw [ho]; simp
    have hgval' : ∀ k, k ≠ nbr → gVal st'.gScore k = gVal st.gScore k := by
      intro k hk
      rw [gVal, gVal, hgs, lookup_cons_ne _ _ hk]
    have hgvalnbr : gVal st'.gScore nbr = gcur + stepCost s cur nbr := by
      rw [gVal, hgs, List.lookup_cons_self]
      rfl
    set M := cellCount g + 1 with hM
    set S := valSet s M with hS
    set f' := fun k => rankIn S (gVal st'.gScore k) + 1 with hf'
    set f := fun k => rankIn S (gVal st.gScore k) + 1 with hf
    have hsum_congr : ∀ F : Finset Cell, nbr ∉ F → Finset.sum F f' = Finset.sum F f := by
      intro F hF
      apply Finset.sum_congr rfl
      intro k hk
      rw [hf', hf]
      simp only
      rw [hgval' k (fun he => hF (he ▸ hk))]
    unfold astarPot
    rw [← hM, ← hS, ← hf', ← hf, hkF']
    rcases hold : st.gScore.lookup nbr with _ | gn
    · -- fresh key
      have hnmem : nbr ∉ keyFinset st.gScore := by
        rw [mem_keyFinset, hold]
        simp
      have hcard1 : (insert nbr (keyFinset st.gScore)).card =
          (keyFinset st.gScore).card + 1 := Finset.card_insert_of_not_mem hnmem
      have hcardM : (keyFinset st.gScore).card + 1 ≤ M := by
        have := cellFinset_card_le g start (insert nbr (keyFinset st.gScore)) ?_
        · rw [hcard1] at this
          omega
        · intro k hk
          rcases Finset.mem_insert.1 hk with hk | hk
          · exact Or.inr (hk ▸ hwalk)
          · exact inv.keysValid k (mem_keyFinset.1 hk)
      have hsum : Finset.sum (insert nbr (keyFinset st.gScore)) f' =
          f' nbr + Finset.sum (keyFinset st.gScore) f := by
        rw [Finset.sum_insert hnmem, hsum_congr _ hnmem]
      have hfnbr : f' nbr + 1 ≤ S.card + 1 := by
        rw [hf']
        simp only
        rw [hgvalnbr]
        have := rankIn_le htS
        omega
      rw [hsum, hcard1]
      have hsplit : (M - (keyFinset st.gScore).card) * (S.card + 1) =
          (M - ((keyFinset st.gScore).card + 1)) * (S.card + 1) + (S.card + 1) := by
        have h1 : M - (keyFinset st.gScore).card =
            (M - ((keyFinset st.gScore).card + 1)) + 1 := by omega
        rw [h1, Nat.add_mul, Nat.one_mul]
      rw [hsplit]
      omega
    · -- improved key
      have hnmem : nbr ∈ keyFinset st.gScore := by
        rw [mem_keyFinset, hold]; rfl
      have hins : insert nbr (keyFinset st.gScore) = keyFinset st.gScore :=
        Finset.insert_eq_self.2 hnmem
      have hlt := hbet gn hold
      have hgnS : gn ∈ S := lookup_mem_valSet inv hold
      have hrank : rankIn S (gcur + stepCost s cur nbr) < rankIn S gn :=
        rankIn_lt htS hlt
      have hsum' : Finset.sum (keyFinset st.gScore) f' =
          f' nbr + Finset.sum ((keyFinset st.gScore).erase nbr) f := by
        rw [← Finset.add_sum_erase _ f' hnmem,
          hsum_congr _ (Finset.not_mem_erase nbr _)]
      have hsum2 : Finset.sum (keyFinset st.gScore) f =
          f nbr + Finset.sum ((keyFinset st.gScore).erase nbr) f :=
        (Finset.add_sum_erase _ f hnmem).symm
      have hfval : f' nbr + 1 ≤ f nbr := by
        rw [hf', hf]
        simp only
        rw [hgvalnbr, gVal, hold]
        simp only [Option.getD_some]
        omega
      rw [hins, hsum', hsum2]
      omega
  -- assemble
  refine ⟨inv', ?_, ?_, ?_, ?_, ?_, hpotle⟩
  · intro k hk
    rw [hgs]
    exact lookup_cons_isSome_mono _ hk
  · rw [hgs, List.lookup_cons_self]; rfl
  · intro x hx
    rcases hcase with ⟨hh, _, _⟩ | ⟨hh, _, _⟩
    · rw [hh]; exact hx
    · rw [hh]; exact List.mem_cons_of_mem _ hx
  · intro x hx
    rcases hcase with ⟨hh, _, _⟩ | ⟨hh, _, _⟩
    · rw [hh] at hx; exact Or.inl hx
    · rw [hh] at hx
      rcases List.mem_cons.1 hx with hx | hx
      · exact Or.inr hx
      · exact Or.inl hx
  · intro k hk
    rw [hgs] at hk
    by_cases hkn : k = nbr
    · right
      rcases hcase with ⟨hh, _, hm⟩ | ⟨hh, _, _⟩
      · rw [hh, hkn]; exact hm
      · rw [hh, hkn]; exact List.mem_cons_self _ _
    · rw [lookup_cons_ne _ _ hkn] at hk
      exact Or.inl hk

end AStarProof4

section AStarProof5

variable {K : Type} [LinearOrderedField K]

/-- One relaxation step: invariant preservation, key monotonicity, hash
accounting, and no rise of the termination potential. -/
theorem relaxStep_spec (g : GridMap) (s : K) (start endG cur : Cell) (hs : 0 < s)
    (st : AStarState K) (inv : RelaxInv g s start st)
    (hcur : (st.gScore.lookup cur).isSome)
    (nbr : Cell) (hnbr : nbr ∈ g.get_neighbors cur.1 cur.2) :
    ∀ st', st' = relaxNeighbor s endG cur st nbr →
    (RelaxInv g s start st' ∧
     (∀ k, (st.gScore.lookup k).isSome → (st'.gScore.lookup k).isSome) ∧
     (st'.gScore.lookup nbr).isSome ∧
     (∀ x ∈ st.openHash, x ∈ st'.openHash) ∧
     (∀ x ∈ st'.openHash, x ∈ st.openHash ∨ x = nbr) ∧
     (∀ k, (st'.gScore.lookup k).isSome → (st.gScore.lookup k).isSome ∨ k ∈ st'.openHash) ∧
     astarPot g s st' ≤ astarPot g s st) := by
  intro st' hst'
  obtain ⟨gcur, hgcur⟩ := Option.isSome_iff_exists.1 hcur
  have hgetD : (st.gScore.lookup cur).getD 0 = gcur := by rw [hgcur]; rfl
  rcases hgn : st.gScore.lookup nbr with _ | gn
  · by_cases hhash : st.openHash.contains nbr = true
    · have heq := relaxNeighbor_fresh_inHash s endG cur st nbr hgn hhash
      rw [hgetD] at heq
      rw [heq] at hst'
      exact relaxUpdate_spec g s start endG cur nbr hs st st' inv gcur hgcur hnbr
        (by rw [hst']) (by rw [hst'])
        (fun gn2 hgn2 => absurd hgn2 (by rw [hgn]; simp))
        (Or.inl ⟨by rw [hst'], by rw [hst'], (cell_contains_iff _ _).1 hhash⟩)
    · have hhf : st.openHash.contains nbr = false := by
        revert hhash; cases st.openHash.contains nbr <;> simp
      have hnm : nbr ∉ st.openHash := by
        intro hc
        rw [(cell_contains_iff st.openHash nbr).2 hc] at hhf
        exact absurd hhf (by simp)
      have heq := relaxNeighbor_fresh_push s endG cur st nbr hgn hhf
      rw [hgetD] at heq
      rw [heq] at hst'
      exact relaxUpdate_spec g s start endG cur nbr hs st st' inv gcur hgcur hnbr
        (by rw [hst']) (by rw [hst'])
        (fun gn2 hgn2 => absurd hgn2 (by rw [hgn]; simp))
        (Or.inr ⟨by rw [hst'], hnm,
          ⟨(gcur + stepCost s cur nbr + heuristic s nbr endG, st.counter + 1),
            by rw [hst']⟩⟩)
  · by_cases hlt : gcur + stepCost s cur nbr < gn
    · have hbet : ∀ gn2, st.gScore.lookup nbr = some gn2 →
          gcur + stepCost s cur nbr < gn2 := by
        intro gn2 hgn2
        rw [hgn, Option.some.injEq] at hgn2
        rw [← hgn2]
        exact hlt
      by_cases hhash : st.openHash.contains nbr = true
      · have heq := relaxNeighbor_improve_inHash s endG cur st nbr gn hgn
          (by rw [hgetD]; exact hlt) hhash
        rw [hgetD] at heq
        rw [heq] at hst'
        exact relaxUpdate_spec g s start endG cur nbr hs st st' inv gcur hgcur hnbr
          (by rw [hst']) (by rw [hst']) hbet
          (Or.inl ⟨by rw [hst'], by rw [hst'], (cell_contains_iff _ _).1 hhash⟩)
      · have hhf : st.openHash.contains nbr = false := by
          revert hhash; cases st.openHash.contains nbr <;> simp
        have hnm : nbr ∉ st.openHash := by
          intro hc
          rw [(cell_contains_iff st.openHash nbr).2 hc] at hhf
          exact absurd hhf (by simp)
        have heq := relaxNeighbor_improve_push s endG cur st nbr gn hgn
          (by rw [hgetD]; exact hlt) hhf
        rw [hgetD] at heq
        rw [heq] at hst'
        exact relaxUpdate_spec g s start endG cur nbr hs st st' inv gcur hgcur hnbr
          (by rw [hst']) (by rw [hst']) hbet
          (Or.inr ⟨by rw [hst'], hnm,
            ⟨(gcur + stepCost s cur nbr + heuristic s nbr endG, st.counter + 1),
              by rw [hst']⟩⟩)
    · have heq := relaxNeighbor_skip s endG cur st nbr gn hgn
        (by rw [hgetD]; exact hlt)
      rw [heq] at hst'
      rw [hst']
      refine ⟨inv, fun k h => h, ?_, fun x h => h, fun x h => Or.inl h,
        fun k h => Or.inl h, le_refl _⟩
      rw [hgn]; rfl

/-- Folding the relaxation over a neighbor list. -/
theorem relax_fold_spec (g : GridMap) (s : K) (start endG cur : Cell) (hs : 0 < s) :
    ∀ (nbrs : List Cell) (st0 : AStarState K),
      (∀ n ∈ nbrs, n ∈ g.get_neighbors cur.1 cur.2) →
      RelaxInv g s start st0 → (st0.gScore.lookup cur).isSome →
      ∀ stF, stF = nbrs.foldl (relaxNeighbor s endG cur) st0 →
      (RelaxInv g s start stF ∧
       (∀ k, (st0.gScore.lookup k).isSome → (stF.gScore.lookup k).isSome) ∧
       (∀ n ∈ nbrs, (stF.gScore.lookup n).isSome) ∧
       (∀ x ∈ st0.openHash, x ∈ stF.openHash) ∧
       (∀ x ∈ stF.openHash, x ∈ st0.openHash ∨ x ∈ nbrs) ∧
       (∀ k, (stF.gScore.lookup k).isSome → (st0.gScore.lookup k).isSome ∨ k ∈ stF.openHash) ∧
       astarPot g s stF ≤ astarPot g s st0) := by
  intro nbrs
  induction nbrs with
  | nil =>
    intro st0 hmem inv hcur stF hstF
    rw [List.foldl_nil] at hstF
    subst hstF
    exact ⟨inv, fun k h => h, fun n hn => absurd hn (List.not_mem_nil n),
      fun x h => h, fun x h => Or.inl h, fun k h => Or.inl h, le_refl _⟩
  | cons n rest ih =>
    intro st0 hmem inv hcur stF hstF
    rw [List.foldl_cons] at hstF
    obtain ⟨S1, S2, S3, S4, S5, S6, S7⟩ :=
      relaxStep_spec g s start endG cur hs st0 inv hcur n
        (hmem n (List.mem_cons_self n rest))
        (relaxNeighbor s endG cur st0 n) rfl
    obtain ⟨R1, R2, R3, R4, R5, R6, R7⟩ :=
      ih (relaxNeighbor s endG cur st0 n)
        (fun m hm => hmem m (List.mem_cons_of_mem n hm))
        S1 (S2 cur hcur) stF hstF
    refine ⟨R1, fun k hk => R2 k (S2 k hk), ?_, fun x hx => R4 x (S4 x hx), ?_, ?_,
      le_trans R7 S7⟩
    · intro m hm
      rcases List.mem_cons.1 hm with hm | hm
      · exact hm ▸ R2 n S3
      · exact R3 m hm
    · intro x hx
      rcases R5 x hx with hx | hx
      · rcases S5 x hx with hx | hx
        · exact Or.inl hx
        · exact Or.inr (hx ▸ List.mem_cons_self n rest)
      · exact Or.inr (List.mem_cons_of_mem n hx)
    · intro k hk
      rcases R6 k hk with hk | hk
      · rcases S6 k hk with hk2 | hk2
        · exact Or.inl hk2
        · exact Or.inr (R4 k hk2)
      · exact Or.inr hk

end AStarProof5

section AStarProof6

variable {K : Type} [LinearOrderedField K]

/-- Unfolding the reconstruction chain on a keyed node. -/
theorem reconChain_succ_some (cf : List (Cell × Cell)) (n : Nat) (cur p : Cell)
    (h : cf.lookup cur = some p) :
    reconChain cf (n + 1) cur = cur :: reconChain cf n p := by
  rw [reconChain, h]

/-- Unfolding the reconstruction chain on an unkeyed node. -/
theorem reconChain_succ_none (cf : List (Cell × Cell)) (n : Nat) (cur : Cell)
    (h : cf.lookup cur = none) :
    reconChain cf (n + 1) cur = [] := by
  rw [reconChain, h]

/-- Every chain element has a parent entry. -/
theorem reconChain_keyed (cf : List (Cell × Cell)) :
    ∀ (n : Nat) (cur x : Cell), x ∈ reconChain cf n cur →
      (cf.lookup x).isSome := by
  intro n
  induction n with
  | zero => intro cur x hx; exact absurd hx (List.not_mem_nil x)
  | succ n ih =>
    intro cur x hx
    rcases hl : cf.lookup cur with _ | p
    · rw [reconChain_succ_none cf n cur hl] at hx
      exact absurd hx (List.not_mem_nil x)
    · rw [reconChain_succ_some cf n cur p hl] at hx
      rcases List.mem_cons.1 hx with hx | hx
      · rw [hx, hl]; rfl
      · exact ih p x hx

/-- A* loop step on an empty heap. -/
theorem astarLoop_succ_none (s : K) (g : GridMap) (endG : Cell) (fuel : Nat)
    (st : AStarState K) (h : popMin st.openSet = none) :
    astarLoop s g endG (fuel + 1) st = [] := by
  rw [astarLoop, h]

/-- A* loop step popping the goal node. -/
theorem astarLoop_succ_break (s : K) (g : GridMap) (endG : Cell) (fuel : Nat)
    (st : AStarState K) (m : K × Nat × Cell) (rest : List (K × Nat × Cell))
    (h : popMin st.openSet = some (m, rest)) (hcur : m.2.2 = endG) :
    astarLoop s g endG (fuel + 1) st =
      (reconChain st.cameFrom (st.cameFrom.length + 1) m.2.2).reverse := by
  rw [astarLoop, h]
  simp [hcur]

/-- A* loop step popping a non-goal node. -/
theorem astarLoop_succ_go (s : K) (g : GridMap) (endG : Cell) (fuel : Nat)
    (st : AStarState K) (m : K × Nat × Cell) (rest : List (K × Nat × Cell))
    (h : popMin st.openSet = some (m, rest)) (hcur : m.2.2 ≠ endG) :
    astarLoop s g endG (fuel + 1) st =
      astarLoop s g endG fuel
        ((g.get_neighbors m.2.2.1 m.2.2.2).foldl (relaxNeighbor s endG m.2.2)
          { st with openSet := rest, openHash := eraseFirst m.2.2 st.openHash }) := by
  rw [astarLoop, h]
  simp only [hcur, if_false]

/-- Running the A* loop from an invariant state with enough fuel when
the goal is reachable: the result is a nonempty path that ends at the
goal and avoids the start. -/
theorem astarLoop_reaches (g : GridMap) (s : K) (hs : 0 < s) (start endG : Cell)
    (hreach : GridReach g start endG) (hne : endG ≠ start) :
    ∀ (fuel : Nat) (st : AStarState K),
      AStarInv g s start endG st →
      astarPot g s st < fuel →
      (astarLoop s g endG fuel st ≠ [] ∧
       (astarLoop s g endG fuel st).getLast? = some endG ∧
       start ∉ astarLoop s g endG fuel st) := by
  intro fuel
  induction fuel with
  | zero => intro st inv hpot; omega
  | succ fuel ih =>
    intro st inv hpot
    rcases hpop : popMin st.openSet with _ | ⟨m, rest⟩
    · exfalso
      have hoe : st.openSet = [] := by
        rcases hos : st.openSet with _ | ⟨e, tl⟩
        · rfl
        · rw [hos] at hpop; exact absurd hpop (by simp [popMin])
      have hhe : st.openHash = [] := by
        have hh := inv.base.hashHeap
        rw [hoe] at hh
        have h0 : ((st.openHash : List Cell) : Multiset Cell) = 0 := by
          rw [← hh]; rfl
        exact (Multiset.coe_eq_zero _).1 h0
      have hclosed : ∀ k, (st.gScore.lookup k).isSome = true →
          ∀ nbr ∈ g.get_neighbors k.1 k.2, (st.gScore.lookup nbr).isSome = true := by
        intro k hk nbr hnbr
        exact inv.closure k hk (by rw [hhe]; exact List.not_mem_nil k) nbr hnbr
      have hkeyed : (st.gScore.lookup endG).isSome :=
        reach_closed (fun c => (st.gScore.lookup c).isSome = true) hreach
          (by show (st.gScore.lookup start).isSome = true
              rw [inv.base.gStart]; rfl) hclosed
      have hmem := inv.endHash hkeyed
      rw [hhe] at hmem
      exact absurd hmem (List.not_mem_nil endG)
    · obtain ⟨hmemheap, hrest⟩ := popMin_eq hpop
      have hcurhash : m.2.2 ∈ st.openHash := by
        have h1 : m.2.2 ∈ st.openSet.map (fun e => e.2.2) :=
          List.mem_map_of_mem _ hmemheap
        have h2 : m.2.2 ∈ ((st.openSet.map (fun e => e.2.2) : List Cell) : Multiset Cell) :=
          Multiset.mem_coe.2 h1
        rw [inv.base.hashHeap] at h2
        exact Multiset.mem_coe.1 h2
      have hcurkey : (st.gScore.lookup m.2.2).isSome := by
        rcases inv.base.heapNodes m hmemheap with h | h
        · rw [h, inv.base.gStart]; rfl
        · exact inv.base.cfKeyed m.2.2 h
      by_cases hbreak : m.2.2 = endG
      · rw [astarLoop_succ_break s g endG fuel st m rest hpop hbreak]
        have hcf : (st.cameFrom.lookup endG).isSome := by
          rcases inv.base.heapNodes m hmemheap with h | h
          · exact absurd (hbreak ▸ h : endG = start) hne
          · exact hbreak ▸ h
        rcases Option.isSome_iff_exists.1 hcf with ⟨p, hp⟩
        have hchain : reconChain st.cameFrom (st.cameFrom.length + 1) endG =
            endG :: reconChain st.cameFrom st.cameFrom.length p :=
          reconChain_succ_some st.cameFrom st.cameFrom.length endG p hp
        rw [hbreak, hchain]
        refine ⟨by simp, ?_, ?_⟩
        · rw [List.getLast?_reverse]
          rfl
        · intro hmem
          rw [List.mem_reverse] at hmem
          have hks := reconChain_keyed st.cameFrom (st.cameFrom.length + 1) endG start
            (by rw [hchain]; exact hmem)
          rw [inv.base.startNotCf] at hks
          exact absurd hks (by simp)
      · rw [astarLoop_succ_go s g endG fuel st m rest hpop hbreak]
        have hrest_subl : List.Sublist rest st.openSet :=
          hrest ▸ eraseFirst_sublist m st.openSet
        have inv1 : RelaxInv g s start
            { st with openSet := rest, openHash := eraseFirst m.2.2 st.openHash } := by
          refine ⟨inv.base.gStart, inv.base.gNonneg, inv.base.startNotCf,
            inv.base.cfKeyed, ?_, ?_, ?_, inv.base.keysValid, inv.base.chainW⟩
          · intro e he
            exact inv.base.heapNodes e (hrest_subl.subset he)
          · show ((rest.map (fun e => e.2.2) : List Cell) : Multiset Cell) =
              ((eraseFirst m.2.2 st.openHash : List Cell) : Multiset Cell)
            have h1 : ((rest.map (fun e => e.2.2) : List Cell) : Multiset Cell) =
                (((st.openSet.map (fun e => e.2.2) : List Cell) : Multiset Cell)).erase m.2.2 := by
              rw [hrest, ← Multiset.map_coe, eraseFirst_coe hmemheap,
                multiset_map_erase _ _ m (Multiset.mem_coe.2 hmemheap), Multiset.map_coe]
            rw [h1, eraseFirst_coe hcurhash, inv.base.hashHeap]
          · exact List.Nodup.sublist (eraseFirst_sublist m.2.2 st.openHash) inv.base.hashNodup
        obtain ⟨F1, F2, F3, F4, F5, F6, F7⟩ :=
          relax_fold_spec g s start endG m.2.2 hs (g.get_neighbors m.2.2.1 m.2.2.2)
            { st with openSet := rest, openHash := eraseFirst m.2.2 st.openHash }
            (fun n hn => hn) inv1 hcurkey _ rfl
        have hlen : rest.length + 1 = st.openSet.length := by
          rw [hrest]; exact eraseFirst_length hmemheap
        have hpot1 : astarPot g s
            { st with openSet := rest, openHash := eraseFirst m.2.2 st.openHash } + 1 =
            astarPot g s st := by
          unfold astarPot
          simp only
          omega
        apply ih
        · refine ⟨F1, ?_, ?_⟩
          · intro k hk hkhash nbr2 hnbr2
            by_cases hkc : k = m.2.2
            · subst hkc
              exact F3 nbr2 hnbr2
            · by_cases hk1 : (st.gScore.lookup k).isSome
              · have hk1hash : k ∉ eraseFirst m.2.2 st.openHash :=
                  fun hc => hkhash (F4 k hc)
                have hkhash0 : k ∉ st.openHash :=
                  fun hc => hk1hash (mem_eraseFirst_of_ne hc hkc)
                exact F2 nbr2 (inv.closure k hk1 hkhash0 nbr2 hnbr2)
              · rcases F6 k hk with h | h
                · exact absurd h hk1
                · exact absurd h hkhash
          · intro hk
            rcases F6 endG hk with h | h
            · have h0 := inv.endHash h
              have h1 : endG ∈ eraseFirst m.2.2 st.openHash :=
                mem_eraseFirst_of_ne h0 (fun he => hbreak he.symm)
              exact F4 endG h1
            · exact h
        · omega

end AStarProof6

section AStarProof7

variable {K : Type} [LinearOrderedField K]

/-- Arithmetic bound: the initial potential is below the fuel bound. -/
theorem astar_pot_arith (m Sc P : Nat) (hm : 1 ≤ m) (hSc : Sc ≤ m * m)
    (hP : P ≤ 1 + Sc + (m - 1) * (Sc + 1)) : P < (m + 1) * (m * m + 2) := by
  rcases Nat.exists_eq_add_of_le hm with ⟨k, hk⟩
  subst hk
  have hm1 : 1 + k - 1 = k := by omega
  rw [hm1] at hP
  nlinarith [hP, hSc, Nat.zero_le k]

/-- `AStarPathfinder.find_path` succeeds whenever the substituted goal
is distinct from the substituted start and reachable from it. -/
theorem astar_reaches (g : GridMap) (s : K) (hs : 0 < s) (fuel : Nat)
    (startA goalA sA eA : Cell)
    (hsubS : substituteEndpoint g startA = some sA)
    (hsubE : substituteEndpoint g goalA = some eA)
    (hreach : GridReach g sA eA) (hne : eA ≠ sA)
    (hfuel : astarFuelBound g ≤ fuel) :
    astar_find_path s g fuel startA goalA ≠ [] ∧
    (astar_find_path s g fuel startA goalA).getLast? = some eA ∧
    sA ∉ astar_find_path s g fuel startA goalA := by
  have hfind : astar_find_path s g fuel startA goalA =
      astarLoop s g eA fuel
        { openSet := [(0, 0, sA)], counter := 0, cameFrom := [],
          gScore := [(sA, 0)], fScore := [(sA, heuristic s sA eA)],
          openHash := [sA] } := by
    simp only [astar_find_path, hsubS, hsubE]
  rw [hfind]
  apply astarLoop_reaches g s hs sA eA hreach hne fuel
  · refine ⟨⟨?_, ?_, ?_, ?_, ?_, ?_, ?_, ?_, ?_⟩, ?_, ?_⟩
    · exact List.lookup_cons_self
    · intro k v hv
      by_cases hk : k = sA
      · rw [hk, List.lookup_cons_self, Option.some.injEq] at hv
        rw [← hv]
      · rw [lookup_cons_ne _ _ hk] at hv
        exact absurd hv (by simp)
    · rfl
    · intro k hk
      exact absurd hk (by simp)
    · intro e he
      rw [List.mem_singleton.1 he]
      exact Or.inl rfl
    · rfl
    · exact List.nodup_singleton sA
    · intro k hk
      by_cases hks : k = sA
      · exact Or.inl hks
      · rw [lookup_cons_ne _ _ hks] at hk
        exact absurd hk (by simp)
    · intro k v hv
      by_cases hk : k = sA
      · subst hk
        rw [List.lookup_cons_self, Option.some.injEq] at hv
        refine ⟨[(k, (0 : K))], ?_, by rw [← hv]; rfl, by simp, ?_⟩
        · show k = k ∧ (0 : K) = 0
          exact ⟨rfl, rfl⟩
        · intro q hq
          rw [List.mem_singleton.1 hq]
          exact ⟨0, List.lookup_cons_self, le_refl 0⟩
      · rw [lookup_cons_ne _ _ hk] at hv
        exact absurd hv (by simp)
    · intro k hk hkh nbr hnbr
      by_cases hks : k = sA
      · exact absurd (by rw [hks]; exact List.mem_cons_self _ _) hkh
      · rw [lookup_cons_ne _ _ hks] at hk
        exact absurd hk (by simp)
    · intro hk
      by_cases hks : eA = sA
      · rw [hks]; exact List.mem_cons_self _ _
      · rw [lookup_cons_ne _ _ hks] at hk
        exact absurd hk (by simp)
  · -- potential bound
    have hM1 : 1 ≤ cellCount g + 1 := by omega
    have h0S : (0 : K) ∈ valSet s (cellCount g + 1) := by
      have := mem_valSet (s := s) (a := 0) (b := 0) hM1 hM1
      simpa using this
    have hrank := rankIn_le h0S
    have hcard := valSet_card_le s (cellCount g + 1)
    have hpot : astarPot g s
        { openSet := [((0 : K), 0, sA)], counter := 0, cameFrom := [],
          gScore := [(sA, 0)], fScore := [(sA, heuristic s sA eA)],
          openHash := [sA] } ≤ 1 + (valSet s (cellCount g + 1)).card +
        (cellCount g + 1 - 1) * ((valSet s (cellCount g + 1)).card + 1) := by
      unfold astarPot
      have hkF : keyFinset ([(sA, (0 : K))]) = {sA} := by
        rw [keyFinset]
        simp
      rw [hkF]
      have hsum : Finset.sum {sA}
          (fun k => rankIn (valSet s (cellCount g + 1)) (gVal [(sA, (0 : K))] k) + 1) =
          rankIn (valSet s (cellCount g + 1)) (gVal [(sA, (0 : K))] sA) + 1 :=
        Finset.sum_singleton _ _
      rw [hsum]
      have hgv : gVal [(sA, (0 : K))] sA = 0 := by
        rw [gVal, List.lookup_cons_self]
        rfl
      rw [hgv]
      have hc1 : ({sA} : Finset Cell).card = 1 := Finset.card_singleton sA
      rw [hc1]
      simp only [List.length_cons, List.length_nil]
      omega
    have harith := astar_pot_arith (cellCount g + 1) (valSet s (cellCount g + 1)).card
      (astarPot g s
        { openSet := [((0 : K), 0, sA)], counter := 0, cameFrom := [],
          gScore := [(sA, 0)], fScore := [(sA, heuristic s sA eA)],
          openHash := [sA] }) hM1 hcard hpot
    have hbound : (cellCount g + 1 + 1) * ((cellCount g + 1) * (cellCount g + 1) + 2) =
        astarFuelBound g := by
      unfold astarFuelBound
      rw [pow_two]
    omega

end AStarProof7

/-- C8 (amended): for both planner strategies, whenever the (possibly
substituted) goal is reachable from the (possibly substituted) start
and distinct from it, `find_path` returns a nonempty sequence that
excludes the start cell and whose last element is the substituted goal;
for the A* strategy both endpoints are substituted, for the BFS
strategy only the goal is. -/
theorem planner_reaches_goal {K : Type} [LinearOrderedField K] (s : K) (hs : 0 < s)
    (g : GridMap) (fuelA fuelB : Nat)
    (startA goalA sA eA startB goalB eB : Cell)
    (hsubS : substituteEndpoint g startA = some sA)
    (hsubE : substituteEndpoint g goalA = some eA)
    (hreachA : GridReach g sA eA) (hneA : eA ≠ sA)
    (hfuelA : astarFuelBound g ≤ fuelA)
    (hsubB : substituteEndpoint g goalB = some eB)
    (hreachB : GridReach g startB eB) (hneB : eB ≠ startB)
    (hfuelB : bfsFuelBound g ≤ fuelB) :
    (astar_find_path s g fuelA startA goalA ≠ [] ∧
     (astar_find_path s g fuelA startA goalA).getLast? = some eA ∧
     sA ∉ astar_find_path s g fuelA startA goalA) ∧
    (bfs_find_path g fuelB startB goalB ≠ [] ∧
     (bfs_find_path g fuelB startB goalB).getLast? = some eB ∧
     startB ∉ bfs_find_path g fuelB startB goalB) :=
  ⟨astar_reaches g s hs fuelA startA goalA sA eA hsubS hsubE hreachA hneA hfuelA,
   bfs_reaches g fuelB startB goalB eB hsubB hreachB hneB hfuelB⟩

/-- C8 counterexample: when the goal equals the (walkable) start, the
goal is trivially reachable from the start, yet both planners return
the empty sequence, which has no last element equal to the goal. -/
theorem planner_goal_equals_start_counterexample :
    pairGrid.is_walkable 0 0 = true ∧
    substituteEndpoint pairGrid (0, 0) = some (0, 0) ∧
    GridReach pairGrid (0, 0) (0, 0) ∧
    astar_find_path (3 / 2 : ℚ) pairGrid (astarFuelBound pairGrid) (0, 0) (0, 0) = [] ∧
    bfs_find_path pairGrid (bfsFuelBound pairGrid) (0, 0) (0, 0) = [] ∧
    ([] : List Cell).getLast? ≠ some (0, 0) :=
  ⟨by decide, by decide, Relation.ReflTransGen.refl, by decide, by decide, by decide⟩

/-- C8 witness: on the walkable 2-by-1 grid, both planners reach the
goal cell `(1, 0)` from the start `(0, 0)`. -/
theorem planner_reaches_goal_witness :
    (0 : ℚ) < 3 / 2 ∧
    substituteEndpoint pairGrid (0, 0) = some (0, 0) ∧
    substituteEndpoint pairGrid (1, 0) = some (1, 0) ∧
    GridReach pairGrid (0, 0) (1, 0) ∧
    ((1, 0) : Cell) ≠ (0, 0) ∧
    ((astar_find_path (3 / 2 : ℚ) pairGrid (astarFuelBound pairGrid) (0, 0) (1, 0) ≠ [] ∧
      (astar_find_path (3 / 2 : ℚ) pairGrid (astarFuelBound pairGrid) (0, 0) (1, 0)).getLast? =
        some (1, 0) ∧
      (0, 0) ∉ astar_find_path (3 / 2 : ℚ) pairGrid (astarFuelBound pairGrid) (0, 0) (1, 0)) ∧
     (bfs_find_path pairGrid (bfsFuelBound pairGrid) (0, 0) (1, 0) ≠ [] ∧
      (bfs_find_path pairGrid (bfsFuelBound pairGrid) (0, 0) (1, 0)).getLast? = some (1, 0) ∧
      (0, 0) ∉ bfs_find_path pairGrid (bfsFuelBound pairGrid) (0, 0) (1, 0))) := by
  have hreach : GridReach pairGrid (0, 0) (1, 0) :=
    Relation.ReflTransGen.single
      (show ((1, 0) : Cell) ∈ pairGrid.get_neighbors 0 0 by decide)
  exact ⟨by norm_num, by decide, by decide, hreach, by decide,
    planner_reaches_goal (3 / 2 : ℚ) (by norm_num) pairGrid
      (astarFuelBound pairGrid) (bfsFuelBound pairGrid)
      (0, 0) (1, 0) (0, 0) (1, 0) (0, 0) (1, 0) (1, 0)
      (by decide) (by decide) hreach (by decide) (le_refl _)
      (by decide) hreach (by decide) (le_refl _)⟩
